import Mathlib

/-!
# chezmoi v2: the capability stack and the reconciliation driver

A shallow embedding of `src/v2/chezmoi`: the `System` interface and its two
decorators (`DryRunSystem`, `CanarySystem`), the `SourceState` operations
`ApplyAll`, `ApplyOne`, `Read`, `Remove` and `addPatterns`, the function
`WriteFile` of `realsystem.go`, `GPGEncryptionTool.Encrypt`, and the encryption
tool of the tests.

Conventions of the embedding.

* A Go method that may touch the outside world is a function
  `σ → result × σ` over an arbitrary world state `σ`; a Go `(T, error)` pair is
  `T × Option Error`, `nil` being `none`.
* A pointer receiver with a mutable field (`CanarySystem.mutated`,
  `SourceState`) is passed in and returned explicitly.
* A Go `string` is the `String` of its bytes, one character below 256 for each
  byte, so ASCII text is itself; `strLt` compares two of them byte by byte, as
  `sort.Strings` does.
* What the sources at hand call but do not contain is a field of `Env`, or a
  definition whose comment begins with the words "Modelled from the spec".
-/

namespace Chezmoi

/-! ## Basic types -/

/-- A Go byte slice. -/
abbrev Bytes := List (Fin 256)

/-- An `os.FileMode`: a 32 bit word, permission bits low, type bits high. -/
abbrev FileMode := Nat

/-- Go `error` values. `multi` is the aggregate `go.uber.org/multierr` builds,
`wrapped` is `fmt.Errorf("%s: %w", path, err)`, `skipDir` is `filepath.SkipDir`.
A run-time panic unwinds through every caller; it is the error `panic`, which
every caller here hands on as it does an error. -/
inductive Error where
  | msg (text : String)
  | skipDir
  | unsupportedFileType (path : String) (mode : FileMode)
  | duplicateTarget (targetName : String) (sourcePaths : List String)
  | wrapped (path : String) (err : Error)
  | multi (errs : List Error)
  | panic (text : String)

/-- An `os.FileInfo`, as far as the package looks at it: `Name()` and `Mode()`. -/
structure FileInfo where
  Name : String
  Mode : FileMode
deriving DecidableEq, Repr

/-- The permission and type bits of `os.FileMode` that name a file type. -/
def ModeDir : FileMode := 2 ^ 31
def ModeSymlink : FileMode := 2 ^ 27
def ModeDevice : FileMode := 2 ^ 26
def ModeNamedPipe : FileMode := 2 ^ 25
def ModeSocket : FileMode := 2 ^ 24
def ModeCharDevice : FileMode := 2 ^ 21
def ModeIrregular : FileMode := 2 ^ 19

/-- The mask `os.ModeType`. -/
def ModeType : FileMode :=
  ModeDir ||| ModeSymlink ||| ModeNamedPipe ||| ModeSocket ||| ModeDevice ||| ModeCharDevice
    ||| ModeIrregular

/-- The method `IsDir` of a `FileInfo`. -/
def FileInfo.IsDir (info : FileInfo) : Bool := info.Mode &&& ModeDir != 0

/-- The method `Mode().IsRegular()` of a `FileInfo`. -/
def FileInfo.IsRegular (info : FileInfo) : Bool := info.Mode &&& ModeType == 0

/-- An `*exec.Cmd`: the program and its arguments. -/
structure Cmd where
  Path : String
  Args : List String
deriving DecidableEq, Repr

/-! ## system.go -/

/-- The `System` interface (with the embedded `PersistentStateReader`,
`PersistentStateWriter` and `SystemReader`), over a world state `σ`. -/
structure System (σ : Type) where
  Delete : Bytes → Bytes → σ → Option Error × σ
  Set : Bytes → Bytes → Bytes → σ → Option Error × σ
  Get : Bytes → Bytes → σ → (Bytes × Option Error) × σ
  Glob : String → σ → (List String × Option Error) × σ
  IdempotentCmdOutput : Cmd → σ → (Bytes × Option Error) × σ
  Lstat : String → σ → (Option FileInfo × Option Error) × σ
  ReadDir : String → σ → (List FileInfo × Option Error) × σ
  ReadFile : String → σ → (Bytes × Option Error) × σ
  Readlink : String → σ → (String × Option Error) × σ
  Stat : String → σ → (Option FileInfo × Option Error) × σ
  Chmod : String → FileMode → σ → Option Error × σ
  Mkdir : String → FileMode → σ → Option Error × σ
  RemoveAll : String → σ → Option Error × σ
  Rename : String → String → σ → Option Error × σ
  RunScript : String → Bytes → σ → Option Error × σ
  WriteFile : String → Bytes → FileMode → σ → Option Error × σ
  WriteSymlink : String → String → σ → Option Error × σ

/-- One call of a `System` method, with its arguments. -/
inductive Call where
  | Chmod (name : String) (mode : FileMode)
  | Delete (bucket key : Bytes)
  | Get (bucket key : Bytes)
  | Glob (pattern : String)
  | IdempotentCmdOutput (cmd : Cmd)
  | Lstat (name : String)
  | Mkdir (name : String) (perm : FileMode)
  | ReadDir (dirname : String)
  | ReadFile (filename : String)
  | Readlink (name : String)
  | RemoveAll (name : String)
  | Rename (oldpath newpath : String)
  | RunScript (name : String) (data : Bytes)
  | Set (bucket key value : Bytes)
  | Stat (name : String)
  | WriteFile (filename : String) (data : Bytes) (perm : FileMode)
  | WriteSymlink (oldname newname : String)
deriving DecidableEq, Repr

/-- The methods of `PersistentStateWriter` and the seven methods `System`
declares itself: the ones that can change the world. -/
def Call.isMutating : Call → Bool
  | .Chmod _ _ => true
  | .Delete _ _ => true
  | .Mkdir _ _ => true
  | .RemoveAll _ => true
  | .Rename _ _ => true
  | .RunScript _ _ => true
  | .Set _ _ _ => true
  | .WriteFile _ _ _ => true
  | .WriteSymlink _ _ => true
  | _ => false

/-- The methods of `SystemReader` (with `Get` of `PersistentStateReader`). -/
def Call.isRead (c : Call) : Bool := !c.isMutating

/-- What a call returns: the shapes of the return types of the interface. -/
inductive CallResult where
  | error (err : Option Error)
  | bytes (data : Bytes) (err : Option Error)
  | strings (names : List String) (err : Option Error)
  | string (name : String) (err : Option Error)
  | info (info : Option FileInfo) (err : Option Error)
  | infos (infos : List FileInfo) (err : Option Error)

/-- Lift the result of a method that returns only an error. -/
def onError {σ : Type} (r : Option Error × σ) : CallResult × σ := (.error r.1, r.2)

/-- Dispatch a call to the method of `s` it names. -/
def System.call {σ : Type} (s : System σ) (c : Call) (st : σ) : CallResult × σ :=
  match c with
  | .Chmod name mode => onError (s.Chmod name mode st)
  | .Delete bucket key => onError (s.Delete bucket key st)
  | .Get bucket key => let r := s.Get bucket key st; (.bytes r.1.1 r.1.2, r.2)
  | .Glob pattern => let r := s.Glob pattern st; (.strings r.1.1 r.1.2, r.2)
  | .IdempotentCmdOutput cmd => let r := s.IdempotentCmdOutput cmd st; (.bytes r.1.1 r.1.2, r.2)
  | .Lstat name => let r := s.Lstat name st; (.info r.1.1 r.1.2, r.2)
  | .Mkdir name perm => onError (s.Mkdir name perm st)
  | .ReadDir dirname => let r := s.ReadDir dirname st; (.infos r.1.1 r.1.2, r.2)
  | .ReadFile filename => let r := s.ReadFile filename st; (.bytes r.1.1 r.1.2, r.2)
  | .Readlink name => let r := s.Readlink name st; (.string r.1.1 r.1.2, r.2)
  | .RemoveAll name => onError (s.RemoveAll name st)
  | .Rename oldpath newpath => onError (s.Rename oldpath newpath st)
  | .RunScript name data => onError (s.RunScript name data st)
  | .Set bucket key value => onError (s.Set bucket key value st)
  | .Stat name => let r := s.Stat name st; (.info r.1.1 r.1.2, r.2)
  | .WriteFile filename data perm => onError (s.WriteFile filename data perm st)
  | .WriteSymlink oldname newname => onError (s.WriteSymlink oldname newname st)

/-- Run a method of the underlying system and record the call in the log. -/
def logged {σ α : Type} (c : Call) (f : σ → α × σ) (st : σ × List Call) : α × (σ × List Call) :=
  ((f st.1).1, ((f st.1).2, st.2 ++ [c]))

/-- The system `s` with a log of every method invoked on it, oldest first. -/
def System.traced {σ : Type} (s : System σ) : System (σ × List Call) where
  Delete := fun bucket key => logged (.Delete bucket key) (s.Delete bucket key)
  Set := fun bucket key value => logged (.Set bucket key value) (s.Set bucket key value)
  Get := fun bucket key => logged (.Get bucket key) (s.Get bucket key)
  Glob := fun pattern => logged (.Glob pattern) (s.Glob pattern)
  IdempotentCmdOutput := fun cmd => logged (.IdempotentCmdOutput cmd) (s.IdempotentCmdOutput cmd)
  Lstat := fun name => logged (.Lstat name) (s.Lstat name)
  ReadDir := fun dirname => logged (.ReadDir dirname) (s.ReadDir dirname)
  ReadFile := fun filename => logged (.ReadFile filename) (s.ReadFile filename)
  Readlink := fun name => logged (.Readlink name) (s.Readlink name)
  Stat := fun name => logged (.Stat name) (s.Stat name)
  Chmod := fun name mode => logged (.Chmod name mode) (s.Chmod name mode)
  Mkdir := fun name perm => logged (.Mkdir name perm) (s.Mkdir name perm)
  RemoveAll := fun name => logged (.RemoveAll name) (s.RemoveAll name)
  Rename := fun oldpath newpath => logged (.Rename oldpath newpath) (s.Rename oldpath newpath)
  RunScript := fun name data => logged (.RunScript name data) (s.RunScript name data)
  WriteFile := fun filename data perm =>
    logged (.WriteFile filename data perm) (s.WriteFile filename data perm)
  WriteSymlink := fun oldname newname =>
    logged (.WriteSymlink oldname newname) (s.WriteSymlink oldname newname)

/-! ## dryrunsystem.go -/

/-- The struct `DryRunSystem`: it wraps a `System`. -/
structure DryRunSystem (σ : Type) where
  s : System σ

/-- The constructor `NewDryRunSystem`. -/
def NewDryRunSystem {σ : Type} (s : System σ) : DryRunSystem σ := { s := s }

namespace DryRunSystem

variable {σ : Type}

def Chmod (_s : DryRunSystem σ) (_name : String) (_mode : FileMode) (st : σ) :
    Option Error × σ := (none, st)

def Delete (_s : DryRunSystem σ) (_bucket _key : Bytes) (st : σ) : Option Error × σ := (none, st)

def Get (s : DryRunSystem σ) (bucket key : Bytes) (st : σ) : (Bytes × Option Error) × σ :=
  s.s.Get bucket key st

def Glob (s : DryRunSystem σ) (pattern : String) (st : σ) : (List String × Option Error) × σ :=
  s.s.Glob pattern st

def IdempotentCmdOutput (s : DryRunSystem σ) (cmd : Cmd) (st : σ) :
    (Bytes × Option Error) × σ :=
  s.s.IdempotentCmdOutput cmd st

/-- In the source: `return s.s.Stat(name)`. -/
def Lstat (s : DryRunSystem σ) (name : String) (st : σ) : (Option FileInfo × Option Error) × σ :=
  s.s.Stat name st

def Mkdir (_s : DryRunSystem σ) (_name : String) (_perm : FileMode) (st : σ) :
    Option Error × σ := (none, st)

def ReadDir (s : DryRunSystem σ) (dirname : String) (st : σ) :
    (List FileInfo × Option Error) × σ :=
  s.s.ReadDir dirname st

def ReadFile (s : DryRunSystem σ) (filename : String) (st : σ) : (Bytes × Option Error) × σ :=
  s.s.ReadFile filename st

def Readlink (s : DryRunSystem σ) (name : String) (st : σ) : (String × Option Error) × σ :=
  s.s.Readlink name st

def RemoveAll (_s : DryRunSystem σ) (_name : String) (st : σ) : Option Error × σ := (none, st)

def Rename (_s : DryRunSystem σ) (_oldpath _newpath : String) (st : σ) : Option Error × σ :=
  (none, st)

def RunScript (_s : DryRunSystem σ) (_name : String) (_data : Bytes) (st : σ) :
    Option Error × σ := (none, st)

def Set (_s : DryRunSystem σ) (_bucket _key _value : Bytes) (st : σ) : Option Error × σ :=
  (none, st)

def Stat (s : DryRunSystem σ) (name : String) (st : σ) : (Option FileInfo × Option Error) × σ :=
  s.s.Stat name st

def WriteFile (_s : DryRunSystem σ) (_filename : String) (_data : Bytes) (_perm : FileMode)
    (st : σ) : Option Error × σ := (none, st)

def WriteSymlink (_s : DryRunSystem σ) (_oldname _newname : String) (st : σ) :
    Option Error × σ := (none, st)

/-- A `DryRunSystem` seen through the `System` interface it implements. -/
def toSystem (s : DryRunSystem σ) : System σ where
  Delete := s.Delete
  Set := s.Set
  Get := s.Get
  Glob := s.Glob
  IdempotentCmdOutput := s.IdempotentCmdOutput
  Lstat := s.Lstat
  ReadDir := s.ReadDir
  ReadFile := s.ReadFile
  Readlink := s.Readlink
  Stat := s.Stat
  Chmod := s.Chmod
  Mkdir := s.Mkdir
  RemoveAll := s.RemoveAll
  Rename := s.Rename
  RunScript := s.RunScript
  WriteFile := s.WriteFile
  WriteSymlink := s.WriteSymlink

/-- A sequence of calls on a `DryRunSystem`: the results in order, and the
final state of the world. -/
def run (s : DryRunSystem σ) : List Call → σ → List CallResult × σ
  | [], st => ([], st)
  | c :: cs, st =>
    let r := s.toSystem.call c st
    let rs := run s cs r.2
    (r.1 :: rs.1, rs.2)

end DryRunSystem

/-! ## canarysystem.go -/

/-- The struct `CanarySystem`: the wrapped `System` and the flag `mutated`. -/
structure CanarySystem (σ : Type) where
  s : System σ
  mutated : Bool

/-- The constructor `NewCanarySystem`. -/
def NewCanarySystem {σ : Type} (s : System σ) : CanarySystem σ := { s := s, mutated := false }

namespace CanarySystem

variable {σ : Type}

/-- The assignment `s.mutated = true`. -/
def setMutated (s : CanarySystem σ) : CanarySystem σ := { s with mutated := true }

def Chmod (s : CanarySystem σ) (name : String) (mode : FileMode) (st : σ) :
    (Option Error × σ) × CanarySystem σ :=
  let s := s.setMutated
  (s.s.Chmod name mode st, s)

def Delete (s : CanarySystem σ) (bucket key : Bytes) (st : σ) :
    (Option Error × σ) × CanarySystem σ :=
  let s := s.setMutated
  (s.s.Delete bucket key st, s)

def Get (s : CanarySystem σ) (bucket key : Bytes) (st : σ) :
    ((Bytes × Option Error) × σ) × CanarySystem σ :=
  (s.s.Get bucket key st, s)

def Glob (s : CanarySystem σ) (pattern : String) (st : σ) :
    ((List String × Option Error) × σ) × CanarySystem σ :=
  (s.s.Glob pattern st, s)

def IdempotentCmdOutput (s : CanarySystem σ) (cmd : Cmd) (st : σ) :
    ((Bytes × Option Error) × σ) × CanarySystem σ :=
  (s.s.IdempotentCmdOutput cmd st, s)

def Mkdir (s : CanarySystem σ) (name : String) (perm : FileMode) (st : σ) :
    (Option Error × σ) × CanarySystem σ :=
  let s := s.setMutated
  (s.s.Mkdir name perm st, s)

def Lstat (s : CanarySystem σ) (path : String) (st : σ) :
    ((Option FileInfo × Option Error) × σ) × CanarySystem σ :=
  (s.s.Lstat path st, s)

/-- The method `Mutated`. -/
def Mutated (s : CanarySystem σ) : Bool := s.mutated

def ReadDir (s : CanarySystem σ) (dirname : String) (st : σ) :
    ((List FileInfo × Option Error) × σ) × CanarySystem σ :=
  (s.s.ReadDir dirname st, s)

def ReadFile (s : CanarySystem σ) (filename : String) (st : σ) :
    ((Bytes × Option Error) × σ) × CanarySystem σ :=
  (s.s.ReadFile filename st, s)

def Readlink (s : CanarySystem σ) (name : String) (st : σ) :
    ((String × Option Error) × σ) × CanarySystem σ :=
  (s.s.Readlink name st, s)

def RemoveAll (s : CanarySystem σ) (name : String) (st : σ) :
    (Option Error × σ) × CanarySystem σ :=
  let s := s.setMutated
  (s.s.RemoveAll name st, s)

def Rename (s : CanarySystem σ) (oldpath newpath : String) (st : σ) :
    (Option Error × σ) × CanarySystem σ :=
  let s := s.setMutated
  (s.s.Rename oldpath newpath st, s)

def RunScript (s : CanarySystem σ) (name : String) (data : Bytes) (st : σ) :
    (Option Error × σ) × CanarySystem σ :=
  let s := s.setMutated
  (s.s.RunScript name data st, s)

def Set (s : CanarySystem σ) (bucket key value : Bytes) (st : σ) :
    (Option Error × σ) × CanarySystem σ :=
  let s := s.setMutated
  (s.s.Set bucket key value st, s)

def Stat (s : CanarySystem σ) (path : String) (st : σ) :
    ((Option FileInfo × Option Error) × σ) × CanarySystem σ :=
  (s.s.Stat path st, s)

def WriteFile (s : CanarySystem σ) (name : String) (data : Bytes) (perm : FileMode) (st : σ) :
    (Option Error × σ) × CanarySystem σ :=
  let s := s.setMutated
  (s.s.WriteFile name data perm st, s)

def WriteSymlink (s : CanarySystem σ) (oldname newname : String) (st : σ) :
    (Option Error × σ) × CanarySystem σ :=
  let s := s.setMutated
  (s.s.WriteSymlink oldname newname st, s)

/-- Dispatch a call to the method of the `CanarySystem` it names: what the
call returns, the world after it, and the `CanarySystem` after it. -/
def call (s : CanarySystem σ) (c : Call) (st : σ) : (CallResult × σ) × CanarySystem σ :=
  match c with
  | .Chmod name mode => let r := s.Chmod name mode st; (onError r.1, r.2)
  | .Delete bucket key => let r := s.Delete bucket key st; (onError r.1, r.2)
  | .Get bucket key => let r := s.Get bucket key st; ((.bytes r.1.1.1 r.1.1.2, r.1.2), r.2)
  | .Glob pattern => let r := s.Glob pattern st; ((.strings r.1.1.1 r.1.1.2, r.1.2), r.2)
  | .IdempotentCmdOutput cmd =>
    let r := s.IdempotentCmdOutput cmd st; ((.bytes r.1.1.1 r.1.1.2, r.1.2), r.2)
  | .Lstat name => let r := s.Lstat name st; ((.info r.1.1.1 r.1.1.2, r.1.2), r.2)
  | .Mkdir name perm => let r := s.Mkdir name perm st; (onError r.1, r.2)
  | .ReadDir dirname => let r := s.ReadDir dirname st; ((.infos r.1.1.1 r.1.1.2, r.1.2), r.2)
  | .ReadFile filename => let r := s.ReadFile filename st; ((.bytes r.1.1.1 r.1.1.2, r.1.2), r.2)
  | .Readlink name => let r := s.Readlink name st; ((.string r.1.1.1 r.1.1.2, r.1.2), r.2)
  | .RemoveAll name => let r := s.RemoveAll name st; (onError r.1, r.2)
  | .Rename oldpath newpath => let r := s.Rename oldpath newpath st; (onError r.1, r.2)
  | .RunScript name data => let r := s.RunScript name data st; (onError r.1, r.2)
  | .Set bucket key value => let r := s.Set bucket key value st; (onError r.1, r.2)
  | .Stat name => let r := s.Stat name st; ((.info r.1.1.1 r.1.1.2, r.1.2), r.2)
  | .WriteFile filename data perm => let r := s.WriteFile filename data perm st; (onError r.1, r.2)
  | .WriteSymlink oldname newname => let r := s.WriteSymlink oldname newname st; (onError r.1, r.2)

/-- A sequence of calls on a `CanarySystem`: the results in order, the final
state of the world, and the `CanarySystem` at the end. -/
def run (s : CanarySystem σ) : List Call → σ → (List CallResult × σ) × CanarySystem σ
  | [], st => (([], st), s)
  | c :: cs, st =>
    let r := s.call c st
    let rs := run r.2 cs r.1.2
    ((r.1.1 :: rs.1.1, rs.1.2), rs.2)

end CanarySystem

/-- The same sequence of calls made on a `System` directly. -/
def System.run {σ : Type} (s : System σ) : List Call → σ → List CallResult × σ
  | [], st => ([], st)
  | c :: cs, st =>
    let r := s.call c st
    let rs := System.run s cs r.2
    (r.1 :: rs.1, rs.2)

/-! ## A small file system used in the examples

One regular file `/home/a` and one symbolic link `/home/link` that points to
it; `Stat` follows the link, `Lstat` does not. The state is the list of paths
that were removed. -/

/-- A `System` over a list of removed paths. -/
def linkSystem : System (List String) where
  Delete := fun _ _ st => (none, st)
  Set := fun _ _ _ st => (none, st)
  Get := fun _ _ st => (([], none), st)
  Glob := fun _ st => (([], none), st)
  IdempotentCmdOutput := fun _ st => (([], none), st)
  Lstat := fun name st =>
    if name = "/home/link" then ((some ⟨"link", ModeSymlink + 0o777⟩, none), st)
    else if name = "/home/a" then ((some ⟨"a", 0o644⟩, none), st)
    else ((none, some (.msg "file does not exist")), st)
  ReadDir := fun _ st => (([], none), st)
  ReadFile := fun _ st => (([], none), st)
  Readlink := fun _ st => (("/home/a", none), st)
  Stat := fun name st =>
    if name = "/home/link" then ((some ⟨"a", 0o644⟩, none), st)
    else if name = "/home/a" then ((some ⟨"a", 0o644⟩, none), st)
    else ((none, some (.msg "file does not exist")), st)
  Chmod := fun _ _ st => (none, st)
  Mkdir := fun _ _ st => (none, st)
  RemoveAll := fun name st => (none, st ++ [name])
  Rename := fun _ _ st => (none, st)
  RunScript := fun _ _ st => (none, st)
  WriteFile := fun _ _ _ st => (none, st)
  WriteSymlink := fun _ _ st => (none, st)

/-! ## Go strings, `sort.Strings`, maps

A Go string is the `String` of its bytes, one `Char` below 256 for each byte,
so that ASCII text is written as itself and every byte-wise operation of the
package `strings` is an operation on the character list. -/

/-- The conversion `string(data)`. -/
def stringOf (data : Bytes) : String := String.mk (data.map (fun b => Char.ofNat b.val))

/-- The conversion `[]byte(text)`. -/
def bytesOf (text : String) : Bytes := text.data.map (fun c => Fin.ofNat c.toNat)

/-- The comparison `a < b` of two Go strings: byte-wise lexicographic. -/
def ltChars : List Char → List Char → Bool
  | [], [] => false
  | [], _ :: _ => true
  | _ :: _, [] => false
  | a :: as, b :: bs =>
    if a.toNat < b.toNat then true else if b.toNat < a.toNat then false else ltChars as bs

/-- The Go expression `a < b` on strings. -/
def strLt (a b : String) : Bool := ltChars a.data b.data

/-- The Go expression `a <= b` on strings. -/
def strLe (a b : String) : Bool := !strLt b a

/-- The library function `sort.Strings`: the argument in increasing order. Equal
strings are indistinguishable, so every sorting algorithm returns this list. -/
def sortStrings (names : List String) : List String :=
  names.insertionSort (fun a b => strLe a b = true)

/-- The library function `strings.HasPrefix`. -/
def HasPrefix (s pre : String) : Bool := pre.data.isPrefixOf s.data

/-- The library function `strings.TrimPrefix`. -/
def TrimPrefix (s pre : String) : String :=
  if HasPrefix s pre then String.mk (s.data.drop pre.data.length) else s

/-- The pieces of a character list between the occurrences of `sep`. -/
def splitChars (sep : Char) : List Char → List (List Char)
  | [] => [[]]
  | c :: rest =>
    match splitChars sep rest with
    | [] => [[]]
    | piece :: pieces => if c = sep then [] :: piece :: pieces else (c :: piece) :: pieces

/-- The call `strings.Split(s, pathSeparatorStr)`. -/
def splitSlash (s : String) : List String := (splitChars '/' s.data).map String.mk

/-- The call `strings.Join(names, pathSeparatorStr)`. -/
def joinSlash : List String → String
  | [] => ""
  | [name] => name
  | name :: names => name ++ "/" ++ joinSlash names

/-- A Go `map[string]V`: its entries in the order in which a `range` loop
happens to visit them. Keys are pairwise distinct in a map built with `set`. -/
abbrev GoMap (V : Type) := List (String × V)

/-- The keys a `range` loop over the map yields. -/
def GoMap.keys {V : Type} (m : GoMap V) : List String := m.map Prod.fst

/-- The index expression `v, ok := m[key]`. -/
def GoMap.get? {V : Type} (m : GoMap V) (key : String) : Option V := m.lookup key

/-- The assignment `m[key] = value`. -/
def GoMap.set {V : Type} : GoMap V → String → V → GoMap V
  | [], key, value => [(key, value)]
  | (k, v) :: rest, key, value =>
    if k = key then (k, value) :: rest else (k, v) :: GoMap.set rest key value

/-- The function `multierr.Errors`: the errors an error aggregates. -/
def multierrErrors : Option Error → List Error
  | none => []
  | some (.multi errs) => errs
  | some err => [err]

/-- The function `multierr.Append`: `nil` is neutral, and two errors are
combined into one flat aggregate. -/
def multierrAppend (left right : Option Error) : Option Error :=
  match left, right with
  | none, right => right
  | left, none => left
  | some l, some r => some (.multi (multierrErrors (some l) ++ multierrErrors (some r)))

/-- The test `err == filepath.SkipDir`. -/
def Error.isSkipDir : Error → Bool
  | .skipDir => true
  | _ => false

/-- The Go operator `&^` (bit clear). -/
def bitClear (x y : Nat) : Nat := x ^^^ (x &&& y)

/-! ## The library package `path`

`path.Clean` follows the loop of the Go library one byte at a time: `Scan`
records whether the reader stands at the start of a path element, after a
leading `.` or `..` of one, or inside one; `Lazybuf` is the output buffer
(kept in reverse) with the index `dotdot` below which `..` cannot backtrack. -/

/-- The output buffer of `path.Clean`: the bytes written, last first. -/
structure Lazybuf where
  out : List Char
  dotdot : Nat

/-- Append one byte to the buffer. -/
def Lazybuf.append (b : Lazybuf) (c : Char) : Lazybuf := { b with out := c :: b.out }

/-- The inner loop of the `..` case: drop bytes until the one dropped is a `/`
or the index `dotdot` is reached. -/
def backtrack (dotdot : Nat) : Char → List Char → List Char
  | _, [] => []
  | removed, c :: rev =>
    if dotdot < (c :: rev).length ∧ removed ≠ '/' then backtrack dotdot c rev else c :: rev

/-- The `..` case of `path.Clean`. -/
def dotdotStep (rooted : Bool) (b : Lazybuf) : Lazybuf :=
  if b.dotdot < b.out.length then
    match b.out with
    | [] => b
    | c :: rev => { b with out := backtrack b.dotdot c rev }
  else if !rooted then
    let out := if 0 < b.out.length then '/' :: b.out else b.out
    let out := '.' :: '.' :: out
    { out := out, dotdot := out.length }
  else b

/-- The start of the default case of `path.Clean`: a separator, unless the
buffer holds nothing but the root. -/
def beginElem (rooted : Bool) (b : Lazybuf) : Lazybuf :=
  if (rooted && b.out.length != 1) || (!rooted && b.out.length != 0) then b.append '/' else b

/-- Where the reader of `path.Clean` stands within a path element. -/
inductive Scan where
  | start
  | dot1
  | dot2
  | elem

/-- The main loop of `path.Clean`. -/
def cleanLoop (rooted : Bool) : Scan → List Char → Lazybuf → Lazybuf
  | .start, [], b => b
  | .dot1, [], b => b
  | .dot2, [], b => dotdotStep rooted b
  | .elem, [], b => b
  | .start, c :: rest, b =>
    if c = '/' then cleanLoop rooted .start rest b
    else if c = '.' then cleanLoop rooted .dot1 rest b
    else cleanLoop rooted .elem rest ((beginElem rooted b).append c)
  | .dot1, c :: rest, b =>
    if c = '/' then cleanLoop rooted .start rest b
    else if c = '.' then cleanLoop rooted .dot2 rest b
    else cleanLoop rooted .elem rest (((beginElem rooted b).append '.').append c)
  | .dot2, c :: rest, b =>
    if c = '/' then cleanLoop rooted .start rest (dotdotStep rooted b)
    else cleanLoop rooted .elem rest ((((beginElem rooted b).append '.').append '.').append c)
  | .elem, c :: rest, b =>
    if c = '/' then cleanLoop rooted .start rest b
    else cleanLoop rooted .elem rest (b.append c)

/-- The library function `path.Clean` (and `filepath.Clean` where the separator is `/`). -/
def pathClean (path : String) : String :=
  match path.data with
  | [] => "."
  | c :: _ =>
    let rooted := decide (c = '/')
    let b := cleanLoop rooted .start path.data (if rooted then ⟨['/'], 1⟩ else ⟨[], 0⟩)
    if b.out.length = 0 then "." else String.mk b.out.reverse

/-- The library function `path.Join` (and `filepath.Join`) of two elements. -/
def pathJoin (a b : String) : String :=
  if a = "" ∧ b = "" then ""
  else if a = "" then pathClean b
  else if b = "" then pathClean a
  else pathClean (a ++ "/" ++ b)

/-- The directory part and the file part of `path.Split`, on the reversed
path: the file part is what follows the last `/`. -/
def splitLast : List Char → List Char → List Char × List Char
  | [], file => ([], file)
  | c :: rev, file => if c = '/' then ((c :: rev).reverse, file) else splitLast rev (c :: file)

/-- The library function `path.Split`. -/
def pathSplit (path : String) : String × String :=
  let r := splitLast path.data.reverse []
  (String.mk r.1, String.mk r.2)

/-- The library function `filepath.Dir`, where the separator is `/` and there
is no volume name: the cleaned directory part. -/
def filepathDir (path : String) : String := pathClean (pathSplit path).1

/-! ## The libraries `strings`, `bufio` and `filepath.Walk` as `Read` uses them -/

/-- The table `asciiSpace` of the package `strings`. -/
def isAsciiSpace (c : Char) : Bool :=
  c.toNat = 9 || c.toNat = 10 || c.toNat = 11 || c.toNat = 12 || c.toNat = 13 || c.toNat = 32

/-- Whether the three bytes are the UTF-8 encoding of a rune above U+00FF for
which `unicode.IsSpace` holds: U+1680, U+2000 to U+200A, U+2028, U+2029,
U+202F, U+205F, U+3000. -/
def isSpace3 (a b c : Char) : Bool :=
  (a.toNat = 0xE1 && b.toNat = 0x9A && c.toNat = 0x80) ||
  (a.toNat = 0xE2 && b.toNat = 0x80 &&
    ((0x80 ≤ c.toNat && c.toNat ≤ 0x8A) || c.toNat = 0xA8 || c.toNat = 0xA9 || c.toNat = 0xAF)) ||
  (a.toNat = 0xE2 && b.toNat = 0x81 && c.toNat = 0x9F) ||
  (a.toNat = 0xE3 && b.toNat = 0x80 && c.toNat = 0x80)

/-- Whether the two bytes are the UTF-8 encoding of U+0085 or U+00A0. -/
def isSpace2 (a b : Char) : Bool :=
  a.toNat = 0xC2 && (b.toNat = 0x85 || b.toNat = 0xA0)

/-- Drop the white space runes at the front of a string. -/
def trimSpaceLeft : List Char → List Char
  | [] => []
  | [a] => if isAsciiSpace a then [] else [a]
  | [a, b] =>
    if isAsciiSpace a then trimSpaceLeft [b]
    else if isSpace2 a b then [] else [a, b]
  | a :: b :: c :: rest =>
    if isAsciiSpace a then trimSpaceLeft (b :: c :: rest)
    else if isSpace2 a b then trimSpaceLeft (c :: rest)
    else if isSpace3 a b c then trimSpaceLeft rest
    else a :: b :: c :: rest

/-- Drop the white space runes at the back of a string, given in reverse. -/
def trimSpaceRight : List Char → List Char
  | [] => []
  | [a] => if isAsciiSpace a then [] else [a]
  | [b, a] =>
    if isAsciiSpace b then trimSpaceRight [a]
    else if isSpace2 a b then [] else [b, a]
  | c :: b :: a :: rest =>
    if isAsciiSpace c then trimSpaceRight (b :: a :: rest)
    else if isSpace2 b c then trimSpaceRight (a :: rest)
    else if isSpace3 a b c then trimSpaceRight rest
    else c :: b :: a :: rest

/-- The library function `strings.TrimSpace`. -/
def TrimSpace (s : String) : String :=
  String.mk (trimSpaceRight (trimSpaceLeft s.data).reverse).reverse

/-- The slice `text[:index]` for `index := strings.IndexRune(text, '#')`, when
that index is not -1, and `text` otherwise. -/
def stripComment (text : String) : String := String.mk (text.data.takeWhile (fun c => c ≠ '#'))

/-- The function `dropCR` of `bufio`: without one trailing carriage return. -/
def dropCR (line : List Char) : List Char :=
  match line.reverse with
  | c :: rev => if c.toNat = 13 then rev.reverse else line
  | [] => line

/-- The constant `bufio.MaxScanTokenSize`. -/
def MaxScanTokenSize : Nat := 64 * 1024

/-- The tokens of a `bufio.Scanner` with the split function `ScanLines` over
the pieces between the newlines: a last piece that is empty is no token, and a
piece that does not fit the buffer stops the scanner with `ErrTooLong`. -/
def scanPieces : List (List Char) → List String × Option Error
  | [] => ([], none)
  | [last] =>
    if MaxScanTokenSize ≤ last.length then ([], some (.msg "bufio.Scanner: token too long"))
    else if last = [] then ([], none) else ([String.mk (dropCR last)], none)
  | piece :: pieces =>
    if MaxScanTokenSize ≤ piece.length then ([], some (.msg "bufio.Scanner: token too long"))
    else
      let r := scanPieces pieces
      (String.mk (dropCR piece) :: r.1, r.2)

/-- The lines `scanner.Scan()` and `scanner.Text()` yield over `data`, and `scanner.Err()`. -/
def scanLines (data : Bytes) : List String × Option Error :=
  scanPieces (splitChars (Char.ofNat 10) (stringOf data).data)

/-- The tree below a path as `vfs.Walk` finds it with `Lstat` and `ReadDir`:
the `FileInfo` of the entry, the error of reading it as a directory, and the
entries of the directory in the order of their names. A file has no entries. -/
inductive SourceTree where
  | node (info : FileInfo) (readDirErr : Option Error) (entries : List SourceTree)

/-- The `FileInfo` at the root of a tree. -/
def SourceTree.info : SourceTree → FileInfo
  | .node info _ _ => info

/-- What `Read` sees of the system `ss.s`: the tree below `ss.sourcePath` and
the contents of the files, neither changing while `Read` runs. -/
structure SourceDir where
  lstatErr : Option Error
  tree : SourceTree
  ReadFile : String → Bytes × Option Error

mutual

/-- The function `walk` of `path/filepath`, which `vfs.Walk` is documented to
be the equivalent of: the callback visits the entry, then the entries of a
directory in order; `SkipDir` from a directory skips its entries, `SkipDir`
from a file skips the rest of the directory it is in. -/
def walk {W : Type} (walkFn : String → FileInfo → Option Error → W → Option Error × W)
    (path : String) : SourceTree → W → Option Error × W
  | .node info readDirErr entries, w =>
    if !info.IsDir then walkFn path info none w
    else
      let r := walkFn path info readDirErr w
      if readDirErr.isSome || r.1.isSome then r
      else walkEntries walkFn path entries r.2

/-- The loop of `walk` over the entries of a directory. -/
def walkEntries {W : Type} (walkFn : String → FileInfo → Option Error → W → Option Error × W)
    (path : String) : List SourceTree → W → Option Error × W
  | [], w => (none, w)
  | entry :: entries, w =>
    let r := walk walkFn (pathJoin path entry.info.Name) entry w
    match r.1 with
    | none => walkEntries walkFn path entries r.2
    | some err =>
      if !entry.info.IsDir || !err.isSkipDir then r
      else walkEntries walkFn path entries r.2

end

/-- The function `Walk`: `Lstat` of the root, then `walk`; a `SkipDir` that
reaches the top is no error. -/
def Walk {W : Type} (src : SourceDir) (root : String)
    (walkFn : String → FileInfo → Option Error → W → Option Error × W) (w : W) :
    Option Error × W :=
  let r := match src.lstatErr with
    | some err => walkFn root src.tree.info (some err) w
    | none => walk walkFn root src.tree w
  match r.1 with
  | some err => if err.isSkipDir then (none, r.2) else r
  | none => r

/-! ## The types of the package declared outside `sourcestate.go` -/

/-- The struct `DirAttributes`. -/
structure DirAttributes where
  Name : String
  Exact : Bool
  Private : Bool
deriving DecidableEq, Repr

/-- The enumeration `SourceFileType`. -/
inductive SourceFileType where
  | File
  | Script
  | Symlink
deriving DecidableEq, Repr

/-- The struct `FileAttributes`; the field `Type` is `Type_` here. -/
structure FileAttributes where
  Name : String
  Type_ : SourceFileType
  Empty : Bool
  Executable : Bool
  Once : Bool
  Private : Bool
  Template : Bool
  Encrypted : Bool
deriving DecidableEq, Repr

/-- Modelled from the spec: the variants of `TargetStateEntry`, whose
declarations are not part of the sources at hand: `Dir{perm, exact}`,
`File{lazyContents, perm}`, `Symlink{lazyLinkname}`,
`Script{lazyContents, name, once}`, `Absent{}`. The lazy cells that
`sourcestate.go` builds are made with `newLazyContents(contents)` and
`newLazyLinkname(linkname)`, so they hold a value already. -/
inductive TargetStateEntry where
  | Absent
  | Dir (perm : FileMode) (exact : Bool)
  | File (contents : Bytes) (perm : FileMode)
  | Script (contents : Bytes) (name : String) (once : Bool)
  | Symlink (linkname : String)
deriving DecidableEq, Repr

/-- The two implementations of `SourceStateEntry` that `sourcestate.go`
constructs. A `SourceStateFile` holds two closures, `lazyContents.contentsFunc`
and `targetStateEntryFunc`; both are determined by the source path and the
attributes, and are the function `SourceState.targetStateEntryFunc` below. -/
inductive SourceStateEntry where
  | Dir (path : String) (attributes : DirAttributes) (targetStateEntry : TargetStateEntry)
  | File (path : String) (attributes : FileAttributes)
deriving DecidableEq, Repr

/-- The method `Path` of a source state entry. -/
def SourceStateEntry.Path : SourceStateEntry → String
  | .Dir path _ _ => path
  | .File path _ => path

/-- The functions and methods `sourcestate.go` calls that are declared in
files outside the sources at hand, or in libraries: the attribute codec, the
pattern set (a type `P`), the template engine and the version file (a state
`T`), and the destination state (a type `D`) with `Apply`. -/
structure Env (σ P T D : Type) where
  /-- The function `ParseDirAttributes`. -/
  ParseDirAttributes : String → DirAttributes
  /-- The function `ParseFileAttributes`. -/
  ParseFileAttributes : String → FileAttributes
  /-- The function `isEmpty`. -/
  isEmpty : Bytes → Bool
  /-- The constructor `NewPatternSet`. -/
  NewPatternSet : P
  /-- The keys of the field `includes` of a pattern set, as `range` yields them. -/
  includes : P → List String
  /-- The method `PatternSet.Add`. -/
  Add : P → String → Bool → P × Option Error
  /-- The method `PatternSet.Match`. -/
  Match : P → String → Bool
  /-- Parsing and executing a template (`text/template`) with the options,
  functions, data and named templates of the source state. -/
  executeTemplate : T → String → Bytes → Bytes × Option Error
  /-- The effect of `addTemplatesDir` on the named templates. -/
  addTemplatesDir : T → String → T × Option Error
  /-- The effect of `addVersionFile` on the minimum version. -/
  addVersionFile : T → String → T × Option Error
  /-- The function `NewDestStateEntry`. -/
  NewDestStateEntry : System σ → String → σ → (D × Option Error) × σ
  /-- The method `Apply` of a target state entry. -/
  Apply : TargetStateEntry → System σ → D → σ → Option Error × σ

/-! ## sourcestate.go -/

/-- The loop `for _, targetName := range ... { if err := applyOne(targetName); err != nil
{ return err } }` of `ApplyAll`, for the function `applyOne` it calls. -/
def applyEach {σ : Type} (applyOne : String → σ → Option Error × σ) :
    List String → σ → Option Error × σ
  | [], st => (none, st)
  | targetName :: targetNames, st =>
    let r := applyOne targetName st
    match r.1 with
    | some err => (some err, r.2)
    | none => applyEach applyOne targetNames r.2

/-- The function `applyOne` with a record, oldest first, of the target names
it has been called on. -/
def recorded {σ : Type} (applyOne : String → σ → Option Error × σ) (targetName : String)
    (st : σ × List String) : Option Error × (σ × List String) :=
  ((applyOne targetName st.1).1, ((applyOne targetName st.1).2, st.2 ++ [targetName]))

/-- The struct `SourceState`. The fields `minVersion`, `templateData`,
`templateFuncs`, `templateOptions` and `templates` are the one field `templates`. -/
structure SourceState (σ P T : Type) where
  s : System σ
  sourcePath : String
  umask : FileMode
  sourceEntries : GoMap SourceStateEntry
  ignore : P
  remove : P
  templates : T

namespace SourceState

variable {σ P T D : Type}

/-- The constructor `NewSourceState` with the options `WithSystem(s)` and
`WithSourcePath(sourcePath)`: the umask is `0o22` and everything else is empty. -/
def NewSourceState (env : Env σ P T D) (templates : T) (s : System σ) (sourcePath : String) :
    SourceState σ P T :=
  { s := s, sourcePath := sourcePath, umask := 0o22, sourceEntries := [],
    ignore := env.NewPatternSet, remove := env.NewPatternSet, templates := templates }

/-- The method `ExecuteTemplateData`. -/
def ExecuteTemplateData (env : Env σ P T D) (ss : SourceState σ P T) (name : String)
    (data : Bytes) : Bytes × Option Error :=
  env.executeTemplate ss.templates name data

/-- The method `newSourceStateDir`. -/
def newSourceStateDir (ss : SourceState σ P T) (sourcePath : String)
    (dirAttributes : DirAttributes) : SourceStateEntry :=
  let perm : FileMode := 0o777
  let perm := if dirAttributes.Private then bitClear perm 0o77 else perm
  let perm := bitClear perm ss.umask
  let targetStateDir := TargetStateEntry.Dir perm dirAttributes.Exact
  .Dir sourcePath dirAttributes targetStateDir

/-- The first statements of each closure `targetStateEntryFunc`: the contents
`lazyContents.Contents()`, which is the call `ss.s.ReadFile(sourcePath)` of
`contentsFunc`, rendered with `ExecuteTemplateData` when the attribute
`Template` is set. -/
def renderedContents (env : Env σ P T D) (ss : SourceState σ P T) (sourcePath : String)
    (fileAttributes : FileAttributes) (st : σ) : (Bytes × Option Error) × σ :=
  let r := ss.s.ReadFile sourcePath st
  match r.1.2 with
  | some err => (([], some err), r.2)
  | none =>
    if fileAttributes.Template then (ss.ExecuteTemplateData env sourcePath r.1.1, r.2)
    else ((r.1.1, none), r.2)

/-- The closure `targetStateEntryFunc` that `newSourceStateFile` builds for
`sourcePath` and `fileAttributes`, one case for each `SourceFileType`. -/
def targetStateEntryFunc (env : Env σ P T D) (ss : SourceState σ P T) (sourcePath : String)
    (fileAttributes : FileAttributes) (st : σ) : (Option TargetStateEntry × Option Error) × σ :=
  match fileAttributes.Type_ with
  | .File =>
    let c := ss.renderedContents env sourcePath fileAttributes st
    match c.1.2 with
    | some err => ((none, some err), c.2)
    | none =>
      let contents := c.1.1
      if !fileAttributes.Empty && env.isEmpty contents then ((some .Absent, none), c.2)
      else
        let perm : FileMode := 0o666
        let perm := if fileAttributes.Executable then perm ||| 0o111 else perm
        let perm := if fileAttributes.Private then bitClear perm 0o77 else perm
        let perm := bitClear perm ss.umask
        ((some (.File contents perm), none), c.2)
  | .Script =>
    let c := ss.renderedContents env sourcePath fileAttributes st
    match c.1.2 with
    | some err => ((none, some err), c.2)
    | none => ((some (.Script c.1.1 fileAttributes.Name fileAttributes.Once), none), c.2)
  | .Symlink =>
    let c := ss.renderedContents env sourcePath fileAttributes st
    match c.1.2 with
    | some err => ((none, some err), c.2)
    | none => ((some (.Symlink (stringOf c.1.1)), none), c.2)

/-- The method `newSourceStateFile`. -/
def newSourceStateFile (_ss : SourceState σ P T) (sourcePath : String)
    (fileAttributes : FileAttributes) : SourceStateEntry :=
  .File sourcePath fileAttributes

/-- Modelled from the spec: the method `TargetStateEntry` of a source state
entry, declared outside the sources at hand: a directory entry returns the
target state it was built with, a file entry calls its `targetStateEntryFunc`.
The call on a nil entry (the value of the map at a target name that is not a
key) is a run-time panic. -/
def targetStateEntryOf (env : Env σ P T D) (ss : SourceState σ P T)
    (sourceStateEntry : Option SourceStateEntry) (st : σ) :
    (Option TargetStateEntry × Option Error) × σ :=
  match sourceStateEntry with
  | none => ((none, some (.panic "nil SourceStateEntry")), st)
  | some (.Dir _ _ targetStateEntry) => ((some targetStateEntry, none), st)
  | some (.File path attributes) => ss.targetStateEntryFunc env path attributes st

/-- The method `sortedTargetNames`. -/
def sortedTargetNames (ss : SourceState σ P T) : List String :=
  sortStrings ss.sourceEntries.keys

/-- The base names of the directory entries other than `.` and `..`, sorted:
the slice `baseNames` of `ApplyOne`. -/
def baseNames (infos : List FileInfo) : List String :=
  sortStrings ((infos.map FileInfo.Name).filter (fun baseName => baseName ≠ "." ∧ baseName ≠ ".."))

/-- The last loop of `ApplyOne`: remove every entry of the directory that is
not in the source state, until a removal fails. -/
def removeUnknown (ss : SourceState σ P T) (s : System σ) (targetPath targetName : String) :
    List String → σ → Option Error × σ
  | [], st => (none, st)
  | baseName :: rest, st =>
    match ss.sourceEntries.get? (pathJoin targetName baseName) with
    | some _ => removeUnknown ss s targetPath targetName rest st
    | none =>
      let r := s.RemoveAll (pathJoin targetPath baseName) st
      match r.1 with
      | some err => (some err, r.2)
      | none => removeUnknown ss s targetPath targetName rest r.2

/-- The method `ApplyOne`. -/
def ApplyOne (env : Env σ P T D) (ss : SourceState σ P T) (s : System σ) (_umask : FileMode)
    (targetDir targetName : String) (st : σ) : Option Error × σ :=
  let targetPath := pathJoin targetDir targetName
  let r1 := env.NewDestStateEntry s targetPath st
  match r1.1.2 with
  | some err => (some err, r1.2)
  | none =>
    let r2 := ss.targetStateEntryOf env (ss.sourceEntries.get? targetName) r1.2
    match r2.1.2, r2.1.1 with
    | some err, _ => (some err, r2.2)
    | none, none => (some (.panic "nil TargetStateEntry"), r2.2)
    | none, some targetStateEntry =>
      let r3 := env.Apply targetStateEntry s r1.1.1 r2.2
      match r3.1 with
      | some err => (some err, r3.2)
      | none =>
        match targetStateEntry with
        | .Dir _ true =>
          let r4 := s.ReadDir targetPath r3.2
          match r4.1.2 with
          | some err => (some err, r4.2)
          | none => ss.removeUnknown s targetPath targetName (baseNames r4.1.1) r4.2
        | _ => (none, r3.2)

/-- The method `ApplyAll`. -/
def ApplyAll (env : Env σ P T D) (ss : SourceState σ P T) (s : System σ) (umask : FileMode)
    (targetDir : String) (st : σ) : Option Error × σ :=
  applyEach (ss.ApplyOne env s umask targetDir) ss.sortedTargetNames st

end SourceState

/-- The function `getTargetDirName`. -/
def getTargetDirName {σ P T D : Type} (env : Env σ P T D) (sourceDirName : String) : String :=
  joinSlash ((splitSlash sourceDirName).map (fun sourceName => (env.ParseDirAttributes sourceName).Name))

/-! ## sourcestate.go: `Read` and `Remove` -/

/-- The special file names of `chezmoi.go`. -/
def chezmoiPrefix : String := ".chezmoi"
def ignoreName : String := chezmoiPrefix ++ "ignore"
def removeName : String := chezmoiPrefix ++ "remove"
def templatesDirName : String := chezmoiPrefix ++ "templates"
def versionName : String := chezmoiPrefix ++ "version"

/-- The constant `ignorePrefix` of `chezmoi.go`. -/
def ignorePrefix : String := "."

/-- The variables the callback of `Read` captures and updates: the source
state and the local map `allSourceEntries`. -/
structure Walked (σ P T : Type) where
  ss : SourceState σ P T
  allSourceEntries : GoMap (List SourceStateEntry)

/-- What holds of the captured variables throughout the walk of `Read`: the
target map of the source state is the one `Read` started with, the keys of
`allSourceEntries` are pairwise distinct, and no slice in it is empty. -/
def Walked.Invariant {σ P T : Type} (sourceEntries : GoMap SourceStateEntry)
    (w : Walked σ P T) : Prop :=
  w.ss.sourceEntries = sourceEntries ∧ w.allSourceEntries.keys.Nodup ∧
    ∀ targetName entries, w.allSourceEntries.get? targetName = some entries → entries ≠ []

/-- Modelled from the spec: the type `StringSet`, declared outside the sources
at hand, in which `Remove` collects the matches that remain: a set, so `Add`
of an element it holds changes nothing. -/
abbrev StringSet := List String

/-- The constructor `NewStringSet`. -/
def NewStringSet : StringSet := []

/-- The method `StringSet.Add`. -/
def StringSet.Add (set : StringSet) (element : String) : StringSet :=
  if element ∈ set then set else set ++ [element]

/-- The method `StringSet.Elements`: every element once, in some order. -/
def StringSet.Elements (set : StringSet) : List String := set

namespace SourceState

variable {σ P T D : Type}

/-- The method `executeTemplate`. -/
def executeTemplate (env : Env σ P T D) (ss : SourceState σ P T) (src : SourceDir)
    (path : String) : Bytes × Option Error :=
  let r := src.ReadFile path
  match r.2 with
  | some err => ([], some err)
  | none => ss.ExecuteTemplateData env path r.1

/-- The body of the loop `for scanner.Scan()` of `addPatterns`, over the lines
the scanner yields. -/
def addPatternLines (env : Env σ P T D) (path dir : String) : List String → P → P × Option Error
  | [], ps => (ps, none)
  | line :: lines, ps =>
    let text := TrimSpace (stripComment line)
    if text = "" then addPatternLines env path dir lines ps
    else
      let negated := HasPrefix text "!"
      let text := if negated then TrimPrefix text "!" else text
      let pattern := pathJoin dir text
      let r := env.Add ps pattern (!negated)
      match r.2 with
      | some err => (r.1, some (.wrapped path err))
      | none => addPatternLines env path dir lines r.1

/-- The method `addPatterns`; the pattern set `ps` is returned as the calls of
`ps.Add` leave it. -/
def addPatterns (env : Env σ P T D) (ss : SourceState σ P T) (src : SourceDir) (ps : P)
    (path relPath : String) : P × Option Error :=
  let d := ss.executeTemplate env src path
  match d.2 with
  | some err => (ps, some err)
  | none =>
    let dir := filepathDir relPath
    let lines := scanLines d.1
    let r := addPatternLines env path dir lines.1 ps
    match r.2, lines.2 with
    | some err, _ => (r.1, some err)
    | none, some err => (r.1, some (.wrapped path err))
    | none, none => (r.1, none)

/-- The statement `allSourceEntries[targetName] = append(allSourceEntries[targetName], sourceEntry)`. -/
def appendSourceEntry (all : GoMap (List SourceStateEntry)) (targetName : String)
    (sourceEntry : SourceStateEntry) : GoMap (List SourceStateEntry) :=
  all.set targetName ((all.get? targetName).getD [] ++ [sourceEntry])

/-- The callback `Read` hands to `vfs.Walk`. The separator is `/`, so
`filepath.ToSlash` changes nothing. -/
def readWalkFn (env : Env σ P T D) (src : SourceDir) (sourcePath : String) (info : FileInfo)
    (err : Option Error) (w : Walked σ P T) : Option Error × Walked σ P T :=
  match err with
  | some err => (some err, w)
  | none =>
    if sourcePath = w.ss.sourcePath then (none, w)
    else
      let sourceDirPrefix := w.ss.sourcePath ++ "/"
      let relPath := TrimPrefix sourcePath sourceDirPrefix
      let sourceDirName := (pathSplit relPath).1
      let sourceName := (pathSplit relPath).2
      let targetDirName := getTargetDirName env sourceDirName
      if info.Name = ignoreName then
        let r := w.ss.addPatterns env src w.ss.ignore sourcePath sourceDirName
        (r.2, { w with ss := { w.ss with ignore := r.1 } })
      else if info.Name = removeName then
        let r := w.ss.addPatterns env src w.ss.remove sourcePath targetDirName
        (r.2, { w with ss := { w.ss with remove := r.1 } })
      else if info.Name = templatesDirName then
        let r := env.addTemplatesDir w.ss.templates sourcePath
        match r.2 with
        | some err => (some err, { w with ss := { w.ss with templates := r.1 } })
        | none => (some .skipDir, { w with ss := { w.ss with templates := r.1 } })
      else if info.Name = versionName then
        let r := env.addVersionFile w.ss.templates sourcePath
        (r.2, { w with ss := { w.ss with templates := r.1 } })
      else if HasPrefix info.Name ignorePrefix then
        if info.IsDir then (some .skipDir, w) else (none, w)
      else if info.IsDir then
        let dirAttributes := env.ParseDirAttributes sourceName
        let targetName := pathJoin targetDirName dirAttributes.Name
        if env.Match w.ss.ignore targetName then (none, w)
        else
          let sourceEntry := w.ss.newSourceStateDir sourcePath dirAttributes
          (none, { w with
            allSourceEntries := appendSourceEntry w.allSourceEntries targetName sourceEntry })
      else if info.IsRegular then
        let fileAttributes := env.ParseFileAttributes sourceName
        let targetName := pathJoin targetDirName fileAttributes.Name
        if env.Match w.ss.ignore targetName then (none, w)
        else
          let sourceEntry := w.ss.newSourceStateFile sourcePath fileAttributes
          (none, { w with
            allSourceEntries := appendSourceEntry w.allSourceEntries targetName sourceEntry })
      else (some (.unsupportedFileType sourcePath info.Mode), w)

/-- The first part of `Read`: the walk over the source directory, from an
empty `allSourceEntries`. -/
def readWalk (env : Env σ P T D) (src : SourceDir) (ss : SourceState σ P T) :
    Option Error × Walked σ P T :=
  Walk src ss.sourcePath (readWalkFn env src) { ss := ss, allSourceEntries := [] }

/-- The loop of `Read` over the sorted target names that collects an error
for every target name which does not have exactly one source entry. -/
def checkDuplicates (all : GoMap (List SourceStateEntry)) :
    List String → Option Error → Option Error
  | [], err => err
  | targetName :: targetNames, err =>
    let sourceEntries := (all.get? targetName).getD []
    if sourceEntries.length = 1 then checkDuplicates all targetNames err
    else
      let sourcePaths := sourceEntries.map SourceStateEntry.Path
      checkDuplicates all targetNames
        (multierrAppend err (some (.duplicateTarget targetName sourcePaths)))

/-- The last loop of `Read`: `ss.sourceEntries[targetName] = sourceEntries[0]`
for every entry of `allSourceEntries`. Indexing an empty slice is a panic in
Go; the loop is only reached when every slice has one element. -/
def populate (sourceEntries : GoMap SourceStateEntry) :
    GoMap (List SourceStateEntry) → GoMap SourceStateEntry
  | [] => sourceEntries
  | (targetName, entry :: _) :: all => populate (sourceEntries.set targetName entry) all
  | (_, []) :: all => populate sourceEntries all

/-- The method `Read`: the error it returns and the source state it leaves. -/
def Read (env : Env σ P T D) (src : SourceDir) (ss : SourceState σ P T) :
    Option Error × SourceState σ P T :=
  let r := readWalk env src ss
  match r.1 with
  | some err => (some err, r.2.ss)
  | none =>
    let targetNames := sortStrings r.2.allSourceEntries.keys
    match checkDuplicates r.2.allSourceEntries targetNames none with
    | some err => (some err, r.2.ss)
    | none =>
      (none, { r.2.ss with
        sourceEntries := populate r.2.ss.sourceEntries r.2.allSourceEntries })

/-- The inner loop of `Remove` over the matches of one pattern. -/
def addMatches (env : Env σ P T D) (ss : SourceState σ P T) (targetDirPrefix : String) :
    List String → StringSet → StringSet
  | [], set => set
  | m :: ms, set =>
    if !env.Match ss.remove (TrimPrefix m targetDirPrefix) then
      addMatches env ss targetDirPrefix ms set
    else addMatches env ss targetDirPrefix ms (set.Add m)

/-- The first loop of `Remove`, over the keys of `ss.remove.includes`: the set
of target paths to remove, or the first error of `Glob`. -/
def collectTargets (env : Env σ P T D) (ss : SourceState σ P T) (s : System σ)
    (targetDir : String) : List String → StringSet → σ → (StringSet × Option Error) × σ
  | [], set, st => ((set, none), st)
  | incl :: includes, set, st =>
    let r := s.Glob (pathJoin targetDir incl) st
    match r.1.2 with
    | some err => ((set, some err), r.2)
    | none =>
      collectTargets env ss s targetDir includes
        (addMatches env ss (targetDir ++ "/") r.1.1 set) r.2

/-- The second loop of `Remove`: `RemoveAll` on each path until one fails. -/
def removeEach (s : System σ) : List String → σ → Option Error × σ
  | [], st => (none, st)
  | targetPath :: targetPaths, st =>
    let r := s.RemoveAll targetPath st
    match r.1 with
    | some err => (some err, r.2)
    | none => removeEach s targetPaths r.2

/-- The method `Remove`. -/
def Remove (env : Env σ P T D) (ss : SourceState σ P T) (s : System σ) (targetDir : String)
    (st : σ) : Option Error × σ :=
  let r := collectTargets env ss s targetDir (env.includes ss.remove) NewStringSet st
  match r.1.2 with
  | some err => (some err, r.2)
  | none =>
    let sortedTargetPathsToRemove := sortStrings (StringSet.Elements r.1.1)
    removeEach s sortedTargetPathsToRemove r.2

end SourceState

/-! ## The collaborators, modelled from the spec, and a file system in memory

The theorems below hold for every `Env` and every `System`. The closed
examples need one of each: `specEnv` follows the spec for what the sources at
hand do not contain, and `memSystem` is a small file system in memory. -/

/-- The prefixes and the suffix of `chezmoi.go`. -/
def dotPrefix : String := "dot_"
def emptyPrefix : String := "empty_"
def encryptedPrefix : String := "encrypted_"
def exactPrefix : String := "exact_"
def executablePrefix : String := "executable_"
def oncePrefix : String := "once_"
def privatePrefix : String := "private_"
def runPrefix : String := "run_"
def symlinkPrefix : String := "symlink_"
def templateSuffix : String := ".tmpl"

/-- The variable `scriptOnceStateBucket` of `chezmoi.go`. -/
def scriptOnceStateBucket : Bytes := bytesOf "script"

/-- Strip `pre` from the front of `name` when it is there, and say whether it was. -/
def stripMarker (pre : String) (name : String) : Bool × String :=
  (HasPrefix name pre, TrimPrefix name pre)

/-- Replace a leading `dot_` by a dot. -/
def stripDot (name : String) : String :=
  if HasPrefix name dotPrefix then "." ++ TrimPrefix name dotPrefix else name

/-- Modelled from the spec: the function `ParseDirAttributes`, declared outside
the sources at hand: the prefixes `exact_` and `private_` are interpreted and
removed, and the marker for "hidden in target" is replaced by a leading dot. -/
def ParseDirAttributes (sourceName : String) : DirAttributes :=
  let e := stripMarker exactPrefix sourceName
  let p := stripMarker privatePrefix e.2
  { Name := stripDot p.2, Exact := e.1, Private := p.1 }

/-- Strip the template suffix from the back of `name` when it is there. -/
def stripTemplate (name : String) : Bool × String :=
  if templateSuffix.data.reverse.isPrefixOf name.data.reverse then
    (true, String.mk (name.data.take (name.data.length - templateSuffix.data.length)))
  else (false, name)

/-- Modelled from the spec: the function `ParseFileAttributes`, declared
outside the sources at hand: the "run-script" marker (with the "once" marker,
for scripts only), the "symlink" marker, and for plain files `encrypted_`,
`private_`, `empty_`, `executable_` and the hidden marker; last the suffix that
marks a template. Unrecognised names carry no attribute. -/
def ParseFileAttributes (sourceName : String) : FileAttributes :=
  let t := stripTemplate sourceName
  if HasPrefix t.2 runPrefix then
    let o := stripMarker oncePrefix (TrimPrefix t.2 runPrefix)
    { Name := o.2, Type_ := .Script, Empty := false, Executable := false, Once := o.1,
      Private := false, Template := t.1, Encrypted := false }
  else if HasPrefix t.2 symlinkPrefix then
    { Name := stripDot (TrimPrefix t.2 symlinkPrefix), Type_ := .Symlink, Empty := false,
      Executable := false, Once := false, Private := false, Template := t.1,
      Encrypted := false }
  else
    let c := stripMarker encryptedPrefix t.2
    let p := stripMarker privatePrefix c.2
    let e := stripMarker emptyPrefix p.2
    let x := stripMarker executablePrefix e.2
    { Name := stripDot x.2, Type_ := .File, Empty := e.1, Executable := x.1, Once := false,
      Private := p.1, Template := t.1, Encrypted := c.1 }

/-- Modelled from the spec: the type `PatternSet`, declared outside the
sources at hand: an ordered list of `(glob, include)`. -/
structure PatternSet where
  patterns : List (String × Bool)
deriving DecidableEq, Repr

/-- The constructor `NewPatternSet`. -/
def NewPatternSet : PatternSet := { patterns := [] }

/-- The match of a glob without metacharacters: the name is the glob. The
patterns of the examples are of this kind. -/
def literalMatch (glob name : String) : Bool := glob = name

/-- Modelled from the spec: the method `PatternSet.Add`; no glob without
metacharacters is malformed. -/
def PatternSet.Add (ps : PatternSet) (pattern : String) (incl : Bool) :
    PatternSet × Option Error :=
  ({ patterns := ps.patterns ++ [(pattern, incl)] }, none)

/-- Modelled from the spec: the method `PatternSet.Match`: the last pattern
whose glob matches the path wins, and without one the path is not matched. -/
def PatternSet.Match (ps : PatternSet) (name : String) : Bool :=
  match (ps.patterns.reverse.find? (fun p => literalMatch p.1 name)) with
  | some p => p.2
  | none => false

/-- The globs of the include patterns, each once: the keys of `includes`. -/
def PatternSet.includes (ps : PatternSet) : List String :=
  ((ps.patterns.filter (fun p => p.2)).map Prod.fst).dedup

/-- Modelled from the spec: what `NewDestStateEntry` finds at a target path:
the path and the `FileInfo` of `Lstat`, or none where there is nothing. -/
structure DestStateEntry where
  path : String
  info : Option FileInfo
deriving DecidableEq, Repr

/-- Modelled from the spec: the function `NewDestStateEntry`, declared outside
the sources at hand: the actual state, queried fresh with `Lstat`; a path at
which there is nothing is not an error. -/
def NewDestStateEntry {σ : Type} (s : System σ) (path : String) (st : σ) :
    (DestStateEntry × Option Error) × σ :=
  let r := s.Lstat path st
  match r.1.1 with
  | some info => (({ path := path, info := some info }, r.1.2), r.2)
  | none => (({ path := path, info := none }, none), r.2)

/-- Modelled from the spec (4.4): the method `Apply` of a target state entry,
declared outside the sources at hand: compare the desired state with the actual
one and do the least that makes them agree. The key under which a once script
is recorded stands for its content hash and is the content itself here. -/
def TargetStateEntry.Apply {σ : Type} (t : TargetStateEntry) (s : System σ)
    (dest : DestStateEntry) (st : σ) : Option Error × σ :=
  match t, dest.info with
  | .Absent, none => (none, st)
  | .Absent, some _ => s.RemoveAll dest.path st
  | .Dir perm _, none => s.Mkdir dest.path perm st
  | .Dir perm _, some info =>
    if info.IsDir then
      if info.Mode &&& 0o777 = perm then (none, st) else s.Chmod dest.path perm st
    else
      let r := s.RemoveAll dest.path st
      match r.1 with
      | some err => (some err, r.2)
      | none => s.Mkdir dest.path perm r.2
  | .File contents perm, none => s.WriteFile dest.path contents perm st
  | .File contents perm, some info =>
    if info.IsRegular then
      let r := s.ReadFile dest.path st
      match r.1.2 with
      | some err => (some err, r.2)
      | none =>
        if r.1.1 = contents ∧ info.Mode &&& 0o777 = perm then (none, r.2)
        else s.WriteFile dest.path contents perm r.2
    else
      let r := s.RemoveAll dest.path st
      match r.1 with
      | some err => (some err, r.2)
      | none => s.WriteFile dest.path contents perm r.2
  | .Script contents name once, _ =>
    if once then
      let g := s.Get scriptOnceStateBucket contents st
      match g.1.2 with
      | some err => (some err, g.2)
      | none =>
        if g.1.1 ≠ [] then (none, g.2)
        else
          let r := s.RunScript name contents g.2
          match r.1 with
          | some err => (some err, r.2)
          | none => s.Set scriptOnceStateBucket contents (bytesOf "done") r.2
    else s.RunScript name contents st
  | .Symlink linkname, none => s.WriteSymlink linkname dest.path st
  | .Symlink linkname, some info =>
    if info.Mode &&& ModeSymlink ≠ 0 then
      let r := s.Readlink dest.path st
      match r.1.2 with
      | some err => (some err, r.2)
      | none =>
        if r.1.1 = linkname then (none, r.2) else s.WriteSymlink linkname dest.path r.2
    else s.WriteSymlink linkname dest.path st

/-- The environment of the examples: the collaborators as the spec describes
them; a template without actions renders to itself, and there are no template
directories or version files. -/
def specEnv (σ : Type) : Env σ PatternSet Unit DestStateEntry where
  ParseDirAttributes := ParseDirAttributes
  ParseFileAttributes := ParseFileAttributes
  isEmpty := fun data => data.length = 0
  NewPatternSet := NewPatternSet
  includes := PatternSet.includes
  Add := PatternSet.Add
  Match := PatternSet.Match
  executeTemplate := fun _ _ data => (data, none)
  addTemplatesDir := fun t _ => (t, none)
  addVersionFile := fun t _ => (t, none)
  NewDestStateEntry := NewDestStateEntry
  Apply := TargetStateEntry.Apply

/-- An entry of the file system in memory. -/
structure MemEntry where
  path : String
  mode : FileMode
  data : Bytes
deriving DecidableEq, Repr

/-- A file system in memory: its entries, and the paths it refuses to remove. -/
structure MemFS where
  entries : List MemEntry
  locked : List String
deriving DecidableEq, Repr

/-- The `FileInfo` of an entry: its base name and its mode. -/
def MemEntry.info (e : MemEntry) : FileInfo := { Name := (pathSplit e.path).2, Mode := e.mode }

/-- The entry at a path. -/
def MemFS.find (fs : MemFS) (name : String) : Option MemEntry :=
  fs.entries.find? (fun e => e.path = name)

/-- The file system with the entry at a path replaced or added. -/
def MemFS.put (fs : MemFS) (e : MemEntry) : MemFS :=
  { fs with entries := fs.entries.filter (fun x => x.path ≠ e.path) ++ [e] }

/-- The error of a path at which there is nothing. -/
def errNotExist : Error := .msg "file does not exist"

/-- The error of a removal that is refused. -/
def errPermission : Error := .msg "operation not permitted"

/-- The `System` of the file system in memory. Its persistent state is
empty, it runs no script, and `Glob` knows patterns without metacharacters. -/
def memSystem : System MemFS where
  Delete := fun _ _ fs => (none, fs)
  Set := fun _ _ _ fs => (none, fs)
  Get := fun _ _ fs => (([], none), fs)
  Glob := fun pattern fs =>
    match fs.find pattern with
    | some _ => (([pattern], none), fs)
    | none => (([], none), fs)
  IdempotentCmdOutput := fun _ fs => (([], none), fs)
  Lstat := fun name fs =>
    match fs.find name with
    | some e => ((some e.info, none), fs)
    | none => ((none, some errNotExist), fs)
  ReadDir := fun dirname fs =>
    match fs.find dirname with
    | some _ =>
      ((((fs.entries.filter (fun e => (pathSplit e.path).1 = dirname ++ "/")).map MemEntry.info),
        none), fs)
    | none => (([], some errNotExist), fs)
  ReadFile := fun filename fs =>
    match fs.find filename with
    | some e => ((e.data, none), fs)
    | none => (([], some errNotExist), fs)
  Readlink := fun name fs =>
    match fs.find name with
    | some e => ((stringOf e.data, none), fs)
    | none => (("", some errNotExist), fs)
  Stat := fun name fs =>
    match fs.find name with
    | some e => ((some e.info, none), fs)
    | none => ((none, some errNotExist), fs)
  Chmod := fun name mode fs =>
    match fs.find name with
    | some e => (none, fs.put { e with mode := bitClear e.mode 0o777 ||| mode })
    | none => (some errNotExist, fs)
  Mkdir := fun name perm fs => (none, fs.put { path := name, mode := ModeDir ||| perm, data := [] })
  RemoveAll := fun name fs =>
    if name ∈ fs.locked then (some errPermission, fs)
    else (none, { fs with
      entries := fs.entries.filter (fun e => e.path ≠ name ∧ ¬ HasPrefix e.path (name ++ "/")) })
  Rename := fun oldpath newpath fs =>
    match fs.find oldpath with
    | some e =>
      (none, { fs with
        entries := fs.entries.filter (fun x => x.path ≠ oldpath) ++ [{ e with path := newpath }] })
    | none => (some errNotExist, fs)
  RunScript := fun _ _ fs => (none, fs)
  WriteFile := fun filename data perm fs =>
    (none, fs.put { path := filename, mode := perm, data := data })
  WriteSymlink := fun oldname newname fs =>
    (none, fs.put { path := newname, mode := ModeSymlink ||| 0o777, data := bytesOf oldname })

/-! ## The example: an exact directory

The source directory `/src` holds `exact_dir/x`; the target directory
`/home/user` holds `dir` with the files `x`, `y` and `z`. -/

/-- A directory entry of the file system in memory. -/
def memDir (path : String) : MemEntry := { path := path, mode := ModeDir ||| 0o755, data := [] }

/-- A file entry of the file system in memory. -/
def memFile (path : String) (text : String) : MemEntry :=
  { path := path, mode := 0o644, data := bytesOf text }

/-- The file system of the example, refusing to remove the paths `locked`. -/
def homeFS (locked : List String) : MemFS where
  entries := [memDir "/src", memDir "/src/exact_dir", memFile "/src/exact_dir/x" "x",
    memDir "/home", memDir "/home/user", memDir "/home/user/dir",
    memFile "/home/user/dir/x" "x", memFile "/home/user/dir/y" "y",
    memFile "/home/user/dir/z" "z"]
  locked := locked

/-- The source state that `Read` builds from `/src`: the exact directory `dir`
and the file `dir/x`. -/
def exactSS {σ : Type} (s : System σ) : SourceState σ PatternSet Unit where
  s := s
  sourcePath := "/src"
  umask := 0o22
  sourceEntries := [
    ("dir", .Dir "/src/exact_dir" { Name := "dir", Exact := true, Private := false }
      (.Dir 0o755 true)),
    ("dir/x", .File "/src/exact_dir/x"
      { Name := "x", Type_ := .File, Empty := false, Executable := false, Once := false,
        Private := false, Template := false, Encrypted := false })]
  ignore := NewPatternSet
  remove := NewPatternSet
  templates := ()

/-- The source directory `/src` of the example as `Read` sees it. -/
def exactSrc : SourceDir where
  lstatErr := none
  tree := .node ⟨"src", ModeDir ||| 0o755⟩ none
    [.node ⟨"exact_dir", ModeDir ||| 0o755⟩ none [.node ⟨"x", 0o644⟩ none []]]
  ReadFile := fun path => (memSystem.ReadFile path (homeFS [])).1

/-! ## The examples for `Read` -/

/-- A source directory with two pairs of source entries that have the same
target name: `a/b` and `a/empty_b` are both the target `a/b`, and `c` and
`private_c` are both the target `c`. -/
def duplicateSrc : SourceDir where
  lstatErr := none
  tree := .node ⟨"src", ModeDir ||| 0o755⟩ none
    [.node ⟨"a", ModeDir ||| 0o755⟩ none
      [.node ⟨"b", 0o644⟩ none [], .node ⟨"empty_b", 0o644⟩ none []],
     .node ⟨"c", 0o644⟩ none [],
     .node ⟨"private_c", 0o644⟩ none []]
  ReadFile := fun _ => ([], none)

/-- A source directory whose ignore file holds the one pattern `foo`, with a
directory `foo` that holds a file `bar`. -/
def ignoredSrc : SourceDir where
  lstatErr := none
  tree := .node ⟨"src", ModeDir ||| 0o755⟩ none
    [.node ⟨".chezmoiignore", 0o644⟩ none [],
     .node ⟨"foo", ModeDir ||| 0o755⟩ none [.node ⟨"bar", 0o644⟩ none []]]
  ReadFile := fun path =>
    if path = "/src/.chezmoiignore" then (bytesOf "foo\n", none) else ([], none)

/-- A fresh source state for the source directory `/src`. -/
def freshSS : SourceState MemFS PatternSet Unit :=
  SourceState.NewSourceState (specEnv MemFS) () memSystem "/src"

/-- The attributes of a plain file: a name without any prefix or suffix. -/
def plainFile (name : String) : FileAttributes :=
  { Name := name, Type_ := .File, Empty := false, Executable := false, Once := false,
    Private := false, Template := false, Encrypted := false }

/-- A file system with an empty file and a file of one line in `/src`. -/
def emptyFS : MemFS where
  entries := [memDir "/src", memFile "/src/nothing" "", memFile "/src/hello" "hello\n"]
  locked := []

/-- The matches `Glob` returns when it is called, as in the first loop of
`Remove`, on `path.Join(targetDir, include)` for each pattern in turn, up to
the first call that fails. -/
def globMatches {σ : Type} (s : System σ) (targetDir : String) : List String → σ → List String
  | [], _ => []
  | incl :: includes, st =>
    let r := s.Glob (pathJoin targetDir incl) st
    match r.1.2 with
    | some _ => []
    | none => r.1.1 ++ globMatches s targetDir includes r.2

/-- The state of the world after those calls of `Glob`. -/
def globState {σ : Type} (s : System σ) (targetDir : String) : List String → σ → σ
  | [], st => st
  | incl :: includes, st =>
    let r := s.Glob (pathJoin targetDir incl) st
    match r.1.2 with
    | some _ => r.2
    | none => globState s targetDir includes r.2

/-! ## The example for `Remove`

The remove file of the source directory holds the patterns `d`, `a/c`, `b`, `a`
and `!b`; the target directory `/home/user` holds `a`, `a/c`, `b` and `d`. -/

/-- The file system of the example, refusing to remove the paths `locked`. -/
def removeFS (locked : List String) : MemFS where
  entries := [memDir "/home", memDir "/home/user", memDir "/home/user/a",
    memFile "/home/user/a/c" "c", memFile "/home/user/b" "b", memFile "/home/user/d" "d"]
  locked := locked

/-- A source state whose remove file held the lines `d`, `a/c`, `b`, `a` and `!b`. -/
def removeSS {σ : Type} (s : System σ) : SourceState σ PatternSet Unit where
  s := s
  sourcePath := "/src"
  umask := 0o22
  sourceEntries := []
  ignore := NewPatternSet
  remove := ⟨[("d", true), ("a/c", true), ("b", true), ("a", true), ("b", false)]⟩
  templates := ()

/-! ## Pattern files: what `addPatterns` is to add -/

/-- The pattern a line of a pattern file stands for: nothing when the line is
empty once everything from the first `#` on is deleted and the white space
around the rest is trimmed; otherwise that text joined onto `dir`, as an
include, or, when the text starts with `!`, the text after that one `!` joined
onto `dir`, as an exclude. -/
def patternOfLine (dir line : String) : Option (String × Bool) :=
  let text := TrimSpace (stripComment line)
  if text = "" then none
  else if HasPrefix text "!" then some (pathJoin dir (String.mk (text.data.drop 1)), false)
  else some (pathJoin dir text, true)

/-- The patterns the lines of a pattern file stand for, in line order. -/
def patternsOfLines (dir : String) (lines : List String) : List (String × Bool) :=
  lines.filterMap (patternOfLine dir)

/-- Call `add` on each pattern in turn and stop at the first one it rejects;
the error is wrapped with `path`, as `addPatterns` wraps it. -/
def addEach {P : Type} (add : P → String → Bool → P × Option Error) (path : String) :
    List (String × Bool) → P → P × Option Error
  | [], ps => (ps, none)
  | pattern :: patterns, ps =>
    let r := add ps pattern.1 pattern.2
    match r.2 with
    | some err => (r.1, some (.wrapped path err))
    | none => addEach add path patterns r.1

/-- The method `Add` with a record, oldest first, of the patterns it has been
called with. -/
def recordedAdd {P : Type} (add : P → String → Bool → P × Option Error)
    (ps : P × List (String × Bool)) (pattern : String) (incl : Bool) :
    (P × List (String × Bool)) × Option Error :=
  (((add ps.1 pattern incl).1, ps.2 ++ [(pattern, incl)]), (add ps.1 pattern incl).2)

/-- The environment `env` with pattern sets that record the calls of `Add`. -/
def Env.recordingAdd {σ P T D : Type} (env : Env σ P T D) :
    Env σ (P × List (String × Bool)) T D where
  ParseDirAttributes := env.ParseDirAttributes
  ParseFileAttributes := env.ParseFileAttributes
  isEmpty := env.isEmpty
  NewPatternSet := (env.NewPatternSet, [])
  includes := fun ps => env.includes ps.1
  Add := recordedAdd env.Add
  Match := fun ps name => env.Match ps.1 name
  executeTemplate := env.executeTemplate
  addTemplatesDir := env.addTemplatesDir
  addVersionFile := env.addVersionFile
  NewDestStateEntry := env.NewDestStateEntry
  Apply := env.Apply

/-- A pattern file with a comment line, a blank line, an include with a
trailing comment, and an exclude. -/
def patternSrc : SourceDir where
  lstatErr := none
  tree := .node ⟨"src", ModeDir ||| 0o755⟩ none [.node ⟨".chezmoiremove", 0o644⟩ none []]
  ReadFile := fun path =>
    if path = "/src/dir/.chezmoiremove" then
      (bytesOf "# stale files\n\n  *.bak  # backups\n!keep.bak\n", none)
    else ([], some errNotExist)

/-- A fresh source state over recording pattern sets. -/
def recordingSS : SourceState MemFS (PatternSet × List (String × Bool)) Unit :=
  SourceState.NewSourceState (specEnv MemFS).recordingAdd () memSystem "/src"

/-! ## realsystem.go: `WriteFile` -/

/-- The flags `os.O_WRONLY`, `os.O_CREATE` and `os.O_TRUNC` (their values on Linux). -/
def O_WRONLY : Nat := 0x1
def O_CREATE : Nat := 0x40
def O_TRUNC : Nat := 0x200

/-- What `WriteFile` uses of a `vfs.FS` and of the `*os.File` it opens, over a
world state `σ`; `F` is the type of open files. -/
structure FileOps (σ F : Type) where
  /-- The method `OpenFile` of the file system. -/
  OpenFile : String → Nat → FileMode → σ → (F × Option Error) × σ
  /-- The method `Chmod` of an open file. -/
  Chmod : F → FileMode → σ → Option Error × σ
  /-- The method `Write` of an open file: the number of bytes written and the error. -/
  Write : F → Bytes → σ → (Nat × Option Error) × σ
  /-- The method `Close` of an open file. -/
  Close : F → σ → Option Error × σ

/-- One call of a method of `FileOps`, with its arguments. -/
inductive FileCall (F : Type) where
  | OpenFile (name : String) (flag : Nat) (perm : FileMode)
  | Chmod (f : F) (mode : FileMode)
  | Write (f : F) (data : Bytes)
  | Close (f : F)
deriving DecidableEq, Repr

/-- Whether the call sets permission bits after the file is open: a `Chmod`. -/
def FileCall.isChmod {F : Type} : FileCall F → Bool
  | .Chmod _ _ => true
  | _ => false

/-- The file operations `fs` with a log of every call, oldest first. -/
def FileOps.traced {σ F : Type} (fs : FileOps σ F) : FileOps (σ × List (FileCall F)) F where
  OpenFile := fun name flag perm st =>
    ((fs.OpenFile name flag perm st.1).1,
      ((fs.OpenFile name flag perm st.1).2, st.2 ++ [.OpenFile name flag perm]))
  Chmod := fun f mode st => ((fs.Chmod f mode st.1).1, ((fs.Chmod f mode st.1).2, st.2 ++ [.Chmod f mode]))
  Write := fun f data st => ((fs.Write f data st.1).1, ((fs.Write f data st.1).2, st.2 ++ [.Write f data]))
  Close := fun f st => ((fs.Close f st.1).1, ((fs.Close f st.1).2, st.2 ++ [.Close f]))

/-- The function `WriteFile` of `realsystem.go`. -/
def WriteFile {σ F : Type} (fs : FileOps σ F) (filename : String) (data : Bytes)
    (perm : FileMode) (st : σ) : Option Error × σ :=
  -- Create a new file, or truncate any existing one.
  let o := fs.OpenFile filename (O_WRONLY ||| O_CREATE ||| O_TRUNC) perm st
  match o.1.2 with
  | some err => (some err, o.2)
  | none =>
    let f := o.1.1
    -- err = f.Chmod(perm)
    let c := fs.Chmod f perm o.2
    -- if err == nil { _, err = f.Write(data) }
    let w : Option Error × σ :=
      match c.1 with
      | none => ((fs.Write f data c.2).1.2, (fs.Write f data c.2).2)
      | some err => (some err, c.2)
    -- if err1 := f.Close(); err == nil { err = err1 }
    let cl := fs.Close f w.2
    match w.1 with
    | none => (cl.1, cl.2)
    | some err => (some err, cl.2)

/-- File operations on the file system in memory; an open file is its path.
`OpenFile` creates the file with the permission given, or empties it and
leaves its mode alone; a path in `locked` cannot be opened. -/
def memFileOps : FileOps MemFS String where
  OpenFile := fun name _ perm fs =>
    if name ∈ fs.locked then (("", some errPermission), fs)
    else
      match fs.find name with
      | some e => ((name, none), fs.put { e with data := [] })
      | none => ((name, none), fs.put { path := name, mode := perm, data := [] })
  Chmod := fun f mode fs =>
    match fs.find f with
    | some e => (none, fs.put { e with mode := bitClear e.mode 0o777 ||| mode })
    | none => (some errNotExist, fs)
  Write := fun f data fs =>
    match fs.find f with
    | some e => ((data.length, none), fs.put { e with data := e.data ++ data })
    | none => ((0, some errNotExist), fs)
  Close := fun _ fs => (none, fs)

/-- A file system with one file that anyone can read. -/
def secretFS : MemFS where
  entries := [memDir "/home", { path := "/home/secret", mode := 0o644, data := bytesOf "old" }]
  locked := []

/-! ## gpgencryptiontool.go -/

/-- The library function `filepath.Base`, where the separator is `/` and
there is no volume name. -/
def filepathBase (path : String) : String :=
  if path = "" then "."
  else
    let stripped := (path.data.reverse.dropWhile (fun c => c = '/')).reverse
    let last := (stripped.reverse.takeWhile (fun c => c ≠ '/')).reverse
    if last = [] then "/" else String.mk last

/-- What `gpgencryptiontool.go` uses of the packages `ioutil`, `os` and
`os/exec`, over a world state `σ`. A temporary file is known by its name, so
`Chmod` is the method `Chmod` of the `*os.File` that `TempFile` returned, and
`Run` is the method `Run` of the command. -/
structure Host (σ : Type) where
  TempFile : String → String → σ → (String × Option Error) × σ
  TempDir : String → String → σ → (String × Option Error) × σ
  Chmod : String → FileMode → σ → Option Error × σ
  WriteFile : String → Bytes → FileMode → σ → Option Error × σ
  ReadFile : String → σ → (Bytes × Option Error) × σ
  RemoveAll : String → σ → Option Error × σ
  Run : Cmd → σ → Option Error × σ

/-- The struct `GPGEncryptionTool`. -/
structure GPGEncryptionTool where
  Command : String
  Recipient : String
  Symmetric : Bool
deriving DecidableEq, Repr

/-- The function `exec.Command`: the arguments start with the name. -/
def execCommand (name : String) (args : List String) : Cmd := { Path := name, Args := name :: args }

/-- The method `GPGEncryptionTool.EncryptFile`; the deferred function runs
last and combines its error with the one of the body. -/
def GPGEncryptionTool.EncryptFile {σ : Type} (g : GPGEncryptionTool) (h : Host σ)
    (filename : String) (st : σ) : (Bytes × Option Error) × σ :=
  let t := h.TempDir "" "chezmoi-gpg-encrypt" st
  match t.1.2 with
  | some err => (([], some err), t.2)
  | none =>
    let tempDir := t.1.1
    let outputFilename := pathJoin tempDir (filepathBase filename ++ ".gpg")
    let args := ["--armor", "--output", outputFilename, "--quiet"]
    let args :=
      if g.Symmetric then args ++ ["--symmetric"]
      else (if g.Recipient ≠ "" then args ++ ["--recipient", g.Recipient] else args)
        ++ ["--encrypt"]
    let args := args ++ [filename]
    let c := h.Run (execCommand g.Command args) t.2
    let body : (Bytes × Option Error) × σ :=
      match c.1 with
      | some err => (([], some err), c.2)
      | none => h.ReadFile outputFilename c.2
    let d := h.RemoveAll tempDir body.2
    ((body.1.1, multierrAppend body.1.2 d.1), d.2)

/-- The method `GPGEncryptionTool.Encrypt`. The named result `ciphertext` is
nil until `EncryptFile` returns, and it is `ciphertext` that the source passes
to `ioutil.WriteFile`. -/
def GPGEncryptionTool.Encrypt {σ : Type} (g : GPGEncryptionTool) (h : Host σ)
    (plaintext : Bytes) (st : σ) : (Bytes × Option Error) × σ :=
  let _ := plaintext
  let t := h.TempFile "" "chezmoi-gpg-encrypt" st
  match t.1.2 with
  | some err => (([], some err), t.2)
  | none =>
    let tempFile := t.1.1
    let ciphertext : Bytes := []
    let c := h.Chmod tempFile 0o600 t.2
    let body : (Bytes × Option Error) × σ :=
      match c.1 with
      | some err => ((ciphertext, some err), c.2)
      | none =>
        let w := h.WriteFile tempFile ciphertext 0o600 c.2
        match w.1 with
        | some err => ((ciphertext, some err), w.2)
        | none => g.EncryptFile h tempFile w.2
    let d := h.RemoveAll tempFile body.2
    ((body.1.1, multierrAppend body.1.2 d.1), d.2)

/-- A host in memory: the files with their contents, and the number of
temporary names handed out. -/
structure HostState where
  files : List (String × Bytes)
  next : Nat
deriving DecidableEq, Repr

/-- The contents of a file of the host in memory. -/
def HostState.read (w : HostState) (name : String) : Option Bytes := w.files.lookup name

/-- The host in memory with a file written. -/
def HostState.write (w : HostState) (name : String) (data : Bytes) : HostState :=
  { w with files := w.files.filter (fun f => f.1 ≠ name) ++ [(name, data)] }

/-- A fresh temporary name. -/
def HostState.temp (w : HostState) (pattern : String) : String :=
  "/tmp/" ++ pattern ++ String.singleton (Char.ofNat (48 + w.next))

/-- The argument after `--output` in the arguments of a command. -/
def outputArg : List String → Option String
  | [] => none
  | [_] => none
  | a :: b :: rest => if a = "--output" then some b else outputArg (b :: rest)

/-- The host in memory. The command it runs stands for `gpg`: it reads the
file named by its last argument and writes those bytes, behind the header
`gpg:`, to the file named after `--output`, so that the output shows what
the input file held. -/
def memHost : Host HostState where
  TempFile := fun _ pattern w =>
    ((w.temp pattern, none), { (w.write (w.temp pattern) []) with next := w.next + 1 })
  TempDir := fun _ pattern w => ((w.temp pattern, none), { w with next := w.next + 1 })
  Chmod := fun name _ w =>
    match w.read name with
    | some _ => (none, w)
    | none => (some errNotExist, w)
  WriteFile := fun name data _ w => (none, w.write name data)
  ReadFile := fun name w =>
    match w.read name with
    | some data => ((data, none), w)
    | none => (([], some errNotExist), w)
  RemoveAll := fun name w =>
    (none, { w with files := w.files.filter (fun f => f.1 ≠ name ∧ ¬ HasPrefix f.1 (name ++ "/")) })
  Run := fun cmd w =>
    match cmd.Args.getLast?, outputArg cmd.Args with
    | some input, some output =>
      match w.read input with
      | some data => (none, w.write output (bytesOf "gpg:" ++ data))
      | none => (some errNotExist, w)
    | _, _ => (some (.msg "usage"), w)

/-- A tool that encrypts with a passphrase. -/
def symmetricTool : GPGEncryptionTool := { Command := "gpg", Recipient := "", Symmetric := true }

/-- A host with the one file `/home/plain`, which holds the word `secret`. -/
def plainHost : HostState := { files := [("/home/plain", bytesOf "secret")], next := 0 }

/-! ## encryptiontool_test.go -/

/-- The struct `testEncryptionTool`. -/
structure testEncryptionTool where
  key : Fin 256
deriving DecidableEq, Repr

/-- The Go expression `b ^ key` on bytes. -/
def xorByte (b key : Fin 256) : Fin 256 := Fin.ofNat (b.val ^^^ key.val)

/-- The option `withKey`. -/
def withKey (key : Fin 256) (t : testEncryptionTool) : testEncryptionTool := { t with key := key }

/-- The constructor `newTestEncryptionTool`, for the value `randInt` that
`rand.Int()` returns: the key is `byte(rand.Int() + 1)`, the sum of two `int`
of 64 bits cut down to its low byte; then the options are applied in turn. -/
def newTestEncryptionTool (randInt : Nat)
    (options : List (testEncryptionTool → testEncryptionTool)) : testEncryptionTool :=
  options.foldl (fun t option => option t) { key := Fin.ofNat (((randInt + 1) % 2 ^ 64) % 256) }

namespace testEncryptionTool

/-- The method `xorWithKey`: the loop appends `b ^ t.key` for each byte `b`. -/
def xorWithKey (t : testEncryptionTool) (input : Bytes) : Bytes :=
  input.foldl (fun output b => output ++ [xorByte b t.key]) []

/-- The method `Decrypt`. -/
def Decrypt (t : testEncryptionTool) (_filenameHint : String) (ciphertext : Bytes) :
    Bytes × Option Error :=
  (t.xorWithKey ciphertext, none)

/-- The method `Encrypt`. -/
def Encrypt (t : testEncryptionTool) (plaintext : Bytes) : Bytes × Option Error :=
  (t.xorWithKey plaintext, none)

end testEncryptionTool

/-! ## The example for ignore files in a hidden directory -/

/-- A source directory whose directory `dot_config` holds an ignore file and a
remove file, each with the one line `foo`, and a file `foo`. -/
def hiddenSrc : SourceDir where
  lstatErr := none
  tree := .node ⟨"src", ModeDir ||| 0o755⟩ none
    [.node ⟨"dot_config", ModeDir ||| 0o755⟩ none
      [.node ⟨".chezmoiignore", 0o644⟩ none [],
       .node ⟨".chezmoiremove", 0o644⟩ none [],
       .node ⟨"foo", 0o644⟩ none []]]
  ReadFile := fun path =>
    if path = "/src/dot_config/.chezmoiignore" ∨ path = "/src/dot_config/.chezmoiremove" then
      (bytesOf "foo\n", none)
    else ([], none)

/-! ## Pattern files: the lines of a file -/

/-- The lines of a text: the pieces between its newlines, where a last piece
that is empty is no line (the text is empty or it ends with a newline). A line
is without its newline; it may still end with a carriage return. -/
def textLines (data : Bytes) : List (List Char) :=
  let pieces := splitChars (Char.ofNat 10) (stringOf data).data
  if pieces.getLast? = some [] then pieces.dropLast else pieces

/-- A text of two lines: `n` times the letter `a`, then `foo`. -/
def longLineText (n : Nat) : Bytes := List.replicate n 97 ++ bytesOf "\nfoo\n"

/-- A source directory whose remove file in the directory `dir` has a first
line of 65536 letters `a` and the second line `foo`. -/
def longLineSrc : SourceDir where
  lstatErr := none
  tree := .node ⟨"src", ModeDir ||| 0o755⟩ none
    [.node ⟨"dir", ModeDir ||| 0o755⟩ none [.node ⟨".chezmoiremove", 0o644⟩ none []]]
  ReadFile := fun path =>
    if path = "/src/dir/.chezmoiremove" then (longLineText 65536, none)
    else ([], some errNotExist)

/-! ## Theorems: the decorators -/

theorem DryRunSystem.call_of_isMutating {σ : Type} (s : DryRunSystem σ) (c : Call)
    (h : c.isMutating = true) (st : σ) : s.toSystem.call c st = (.error none, st) := by
  cases c <;> first | rfl | (simp [Call.isMutating] at h)

/-- C1: every sequence of calls of mutating methods on a `DryRunSystem` returns
no error at each call and leaves the state of the world, whatever the wrapped
`System` is, exactly as it was; on a wrapped system that logs its invocations
the log does not grow, so no method of the wrapped system is invoked. -/
theorem DryRunSystem_mutating_calls_have_no_effect {σ : Type} (s : System σ)
    (calls : List Call) (h : ∀ c ∈ calls, c.isMutating = true) (st : σ) (log : List Call) :
    (NewDryRunSystem s).run calls st = (calls.map (fun _ => CallResult.error none), st) ∧
    (NewDryRunSystem s.traced).run calls (st, log)
      = (calls.map (fun _ => CallResult.error none), (st, log)) := by
  have key : ∀ {τ : Type} (t : System τ) (x : τ),
      (NewDryRunSystem t).run calls x = (calls.map (fun _ => CallResult.error none), x) := by
    intro τ t
    induction calls with
    | nil => intro x; rfl
    | cons c cs ih =>
      intro x
      have hc := DryRunSystem.call_of_isMutating (NewDryRunSystem t) c (h c (by simp)) x
      have hcs := ih (fun d hd => h d (by simp [hd])) x
      simp [DryRunSystem.run, hc, hcs]
  exact ⟨key s st, key s.traced (st, log)⟩

/-- C1 at an instance: three mutating calls through a `DryRunSystem` around `linkSystem`. -/
theorem DryRunSystem_mutating_calls_have_no_effect_witness :
    (∀ c ∈ [Call.RemoveAll "/home/a", Call.Chmod "/home/a" 0o600, Call.Set [1] [2] [3]],
        c.isMutating = true) ∧
    ((NewDryRunSystem linkSystem).run
        [Call.RemoveAll "/home/a", Call.Chmod "/home/a" 0o600, Call.Set [1] [2] [3]] []
      = ([Call.RemoveAll "/home/a", Call.Chmod "/home/a" 0o600, Call.Set [1] [2] [3]].map
          (fun _ => CallResult.error none), []) ∧
     (NewDryRunSystem linkSystem.traced).run
        [Call.RemoveAll "/home/a", Call.Chmod "/home/a" 0o600, Call.Set [1] [2] [3]] ([], [])
      = ([Call.RemoveAll "/home/a", Call.Chmod "/home/a" 0o600, Call.Set [1] [2] [3]].map
          (fun _ => CallResult.error none), ([], []))) :=
  ⟨by decide, DryRunSystem_mutating_calls_have_no_effect linkSystem _ (by decide) [] []⟩

/-- Every read method of a `DryRunSystem` other than `Lstat` is the read method
of the same name of the wrapped system; `Lstat` is the wrapped `Stat`. -/
theorem DryRunSystem.call_of_isRead {σ : Type} (s : System σ) (c : Call)
    (h : c.isRead = true) (st : σ) :
    (NewDryRunSystem s).toSystem.call c st =
      match c with
      | .Lstat name => s.call (.Stat name) st
      | c => s.call c st := by
  cases c <;> first | rfl | (simp [Call.isRead, Call.isMutating] at h)

/-- C2, at the failing input: on `linkSystem`, where `/home/link` is a symbolic
link to the regular file `/home/a`, `DryRunSystem.Lstat` returns the `FileInfo`
of the file the link points to (what the wrapped `Stat` returns), not the
`FileInfo` of the link that the wrapped `Lstat` returns. -/
theorem DryRunSystem_Lstat_returns_wrapped_Stat :
    (NewDryRunSystem linkSystem).Lstat "/home/link" [] = linkSystem.Stat "/home/link" [] ∧
    ((NewDryRunSystem linkSystem).Lstat "/home/link" []).1.1 = some ⟨"a", 0o644⟩ ∧
    (linkSystem.Lstat "/home/link" []).1.1 = some ⟨"link", ModeSymlink + 0o777⟩ ∧
    ((NewDryRunSystem linkSystem).Lstat "/home/link" []).1.1
      ≠ (linkSystem.Lstat "/home/link" []).1.1 := by
  refine ⟨rfl, by decide, by decide, by decide⟩

theorem CanarySystem.call_eq {σ : Type} (cs : CanarySystem σ) (c : Call) (st : σ) :
    (cs.call c st).1 = cs.s.call c st ∧ (cs.call c st).2.s = cs.s := by
  cases c <;> exact ⟨rfl, rfl⟩

theorem CanarySystem.run_eq {σ : Type} (cs : CanarySystem σ) (calls : List Call) (st : σ) :
    (cs.run calls st).1 = cs.s.run calls st := by
  induction calls generalizing cs st with
  | nil => rfl
  | cons c cs' ih =>
    simp only [CanarySystem.run, System.run]
    rw [ih, (CanarySystem.call_eq cs c st).1, (CanarySystem.call_eq cs c st).2]

/-- C3: a call of any method on a `CanarySystem` returns exactly what the same
call on the wrapped `System` returns and leaves the world in the state the
direct call leaves it in; on a wrapped system that logs its invocations the log
grows by exactly that one call, with the same arguments; the wrapped system
itself is not replaced; and so a sequence of calls on the `CanarySystem` returns
what the sequence returns on the wrapped system and ends in the same state. -/
theorem CanarySystem_forwards_every_call {σ : Type} (s : System σ) (mutated : Bool)
    (c : Call) (st : σ) (log : List Call) (calls : List Call) :
    (CanarySystem.call ⟨s, mutated⟩ c st).1 = s.call c st ∧
    (CanarySystem.call ⟨s.traced, mutated⟩ c (st, log)).1
      = ((s.call c st).1, ((s.call c st).2, log ++ [c])) ∧
    (CanarySystem.call ⟨s, mutated⟩ c st).2.s = s ∧
    (CanarySystem.run ⟨s, mutated⟩ calls st).1 = s.run calls st := by
  refine ⟨?_, ?_, ?_, CanarySystem.run_eq ⟨s, mutated⟩ calls st⟩
  all_goals cases c <;> rfl

theorem CanarySystem.call_mutated {σ : Type} (s : CanarySystem σ) (c : Call) (st : σ) :
    (s.call c st).2.Mutated = (s.Mutated || c.isMutating) := by
  cases c <;> simp [CanarySystem.call, CanarySystem.Mutated, Call.isMutating,
    CanarySystem.Chmod, CanarySystem.Delete, CanarySystem.Get, CanarySystem.Glob,
    CanarySystem.IdempotentCmdOutput, CanarySystem.Lstat, CanarySystem.Mkdir,
    CanarySystem.ReadDir, CanarySystem.ReadFile, CanarySystem.Readlink, CanarySystem.RemoveAll,
    CanarySystem.Rename, CanarySystem.RunScript, CanarySystem.Set, CanarySystem.Stat,
    CanarySystem.WriteFile, CanarySystem.WriteSymlink, CanarySystem.setMutated]

theorem CanarySystem.run_mutated {σ : Type} (s : CanarySystem σ) (calls : List Call) (st : σ) :
    (s.run calls st).2.Mutated = (s.Mutated || calls.any Call.isMutating) := by
  induction calls generalizing s st with
  | nil => simp [CanarySystem.run]
  | cons c cs ih =>
    simp only [CanarySystem.run, ih, CanarySystem.call_mutated, List.any_cons, Bool.or_assoc]

/-- C4: `Mutated()` is false on a `CanarySystem` fresh from `NewCanarySystem`;
after any sequence of calls on it, `Mutated()` is true exactly when the sequence
contains a call of a mutating method; a call of a read method leaves the flag
as it was; and once the flag is true every further call leaves it true. -/
theorem CanarySystem_Mutated_iff_mutating_call {σ : Type} (s : System σ) :
    (NewCanarySystem s).Mutated = false ∧
    (∀ (calls : List Call) (st : σ),
      ((NewCanarySystem s).run calls st).2.Mutated = true ↔ ∃ c ∈ calls, c.isMutating = true) ∧
    (∀ (cs : CanarySystem σ) (c : Call) (st : σ),
      c.isRead = true → (cs.call c st).2.Mutated = cs.Mutated) ∧
    (∀ (cs : CanarySystem σ) (calls : List Call) (st : σ),
      cs.Mutated = true → (cs.run calls st).2.Mutated = true) := by
  refine ⟨rfl, ?_, ?_, ?_⟩
  · intro calls st
    rw [CanarySystem.run_mutated]
    simp [NewCanarySystem, CanarySystem.Mutated]
  · intro cs c st h
    rw [CanarySystem.call_mutated]
    simp only [Call.isRead, Bool.not_eq_true'] at h
    simp [h]
  · intro cs calls st h
    rw [CanarySystem.run_mutated, h]
    rfl

/-- C4 at an instance, on `linkSystem`: a read call keeps the flag false, and a
flag set by `RemoveAll` survives a later read. -/
theorem CanarySystem_Mutated_iff_mutating_call_witness :
    (Call.Lstat "/home/a").isRead = true ∧
    ((NewCanarySystem linkSystem).call (Call.Lstat "/home/a") []).2.Mutated
      = (NewCanarySystem linkSystem).Mutated ∧
    ((NewCanarySystem linkSystem).call (Call.RemoveAll "/home/a") []).2.Mutated = true ∧
    ((((NewCanarySystem linkSystem).call (Call.RemoveAll "/home/a") []).2).run
      [Call.Lstat "/home/a"] []).2.Mutated = true :=
  ⟨rfl,
   (CanarySystem_Mutated_iff_mutating_call linkSystem).2.2.1 _ (Call.Lstat "/home/a") [] rfl,
   rfl,
   (CanarySystem_Mutated_iff_mutating_call linkSystem).2.2.2 _ [Call.Lstat "/home/a"] [] rfl⟩

/-! ## Theorems: the order of target names -/

theorem ltChars_irrefl (a : List Char) : ltChars a a = false := by
  induction a with
  | nil => rfl
  | cons c cs ih => simp [ltChars, ih]

theorem ltChars_trans {a b c : List Char} (hab : ltChars a b = true) (hbc : ltChars b c = true) :
    ltChars a c = true := by
  induction a generalizing b c with
  | nil =>
    cases b with
    | nil => simp [ltChars] at hab
    | cons y ys =>
      cases c with
      | nil => simp [ltChars] at hbc
      | cons z zs => simp [ltChars]
  | cons x xs ih =>
    cases b with
    | nil => simp [ltChars] at hab
    | cons y ys =>
      cases c with
      | nil => simp [ltChars] at hbc
      | cons z zs =>
        simp only [ltChars] at hab hbc ⊢
        split_ifs at hab hbc ⊢ <;> first
          | rfl
          | omega
          | exact ih hab hbc

theorem ltChars_total (a b : List Char) : ltChars a b = true ∨ a = b ∨ ltChars b a = true := by
  induction a generalizing b with
  | nil =>
    cases b with
    | nil => exact Or.inr (Or.inl rfl)
    | cons y ys => exact Or.inl rfl
  | cons x xs ih =>
    cases b with
    | nil => exact Or.inr (Or.inr rfl)
    | cons y ys =>
      simp only [ltChars]
      by_cases h1 : x.toNat < y.toNat
      · simp [h1]
      · by_cases h2 : y.toNat < x.toNat
        · simp [h1, h2]
        · have hxy : x = y := by
            apply Char.ext
            apply UInt32.ext
            have : x.toNat = y.toNat := by omega
            simpa [Char.toNat, UInt32.toNat] using this
          subst hxy
          simp only [h1, if_false]
          rcases ih ys with h | h | h
          · exact Or.inl h
          · exact Or.inr (Or.inl (by rw [h]))
          · exact Or.inr (Or.inr h)

theorem ltChars_append (a b : List Char) (hb : b ≠ []) : ltChars a (a ++ b) = true := by
  induction a with
  | nil =>
    cases b with
    | nil => exact absurd rfl hb
    | cons y ys => rfl
  | cons x xs ih => simp [ltChars, ih]

theorem strLt_irrefl (a : String) : strLt a a = false := ltChars_irrefl a.data

theorem strLt_trans {a b c : String} (hab : strLt a b = true) (hbc : strLt b c = true) :
    strLt a c = true := ltChars_trans hab hbc

theorem strLt_asymm {a b : String} (hab : strLt a b = true) : strLt b a = false := by
  cases h : strLt b a with
  | false => rfl
  | true => have := strLt_trans hab h; rw [strLt_irrefl] at this; exact absurd this (by simp)

theorem strLt_total (a b : String) : strLt a b = true ∨ a = b ∨ strLt b a = true := by
  rcases ltChars_total a.data b.data with h | h | h
  · exact Or.inl h
  · exact Or.inr (Or.inl (String.ext h))
  · exact Or.inr (Or.inr h)

theorem strLe_iff {a b : String} : strLe a b = true ↔ strLt a b = true ∨ a = b := by
  unfold strLe
  constructor
  · intro h
    rcases strLt_total a b with h1 | h1 | h1
    · exact Or.inl h1
    · exact Or.inr h1
    · simp [h1] at h
  · rintro (h | h)
    · simp [strLt_asymm h]
    · subst h; simp [strLt_irrefl]

/-- A path is below every path that continues it. -/
theorem strLt_append (p q : String) (hq : q ≠ "") : strLt p (p ++ q) = true := by
  unfold strLt
  rw [String.data_append]
  apply ltChars_append
  intro h
  exact hq (String.ext h)

theorem strLe_isTotal : IsTotal String (fun a b => strLe a b = true) where
  total a b := by
    rcases strLt_total a b with h | h | h
    · exact Or.inl (strLe_iff.2 (Or.inl h))
    · exact Or.inl (strLe_iff.2 (Or.inr h))
    · exact Or.inr (strLe_iff.2 (Or.inl h))

theorem strLe_isTrans : IsTrans String (fun a b => strLe a b = true) where
  trans a b c hab hbc := by
    rcases strLe_iff.1 hab with h1 | h1
    · rcases strLe_iff.1 hbc with h2 | h2
      · exact strLe_iff.2 (Or.inl (strLt_trans h1 h2))
      · subst h2; exact hab
    · subst h1; exact hbc

theorem sortStrings_perm (names : List String) : (sortStrings names).Perm names :=
  List.perm_insertionSort _ names

theorem mem_sortStrings {names : List String} {name : String} :
    name ∈ sortStrings names ↔ name ∈ names :=
  (sortStrings_perm names).mem_iff

theorem sortStrings_sorted_le (names : List String) :
    (sortStrings names).Sorted (fun a b => strLe a b = true) :=
  @List.sorted_insertionSort _ _ _ strLe_isTotal strLe_isTrans names

/-- Sorting names that are pairwise distinct gives a strictly increasing list. -/
theorem sortStrings_sorted (names : List String) (h : names.Nodup) :
    (sortStrings names).Sorted (fun a b => strLt a b = true) := by
  have hnd : (sortStrings names).Nodup := (sortStrings_perm names).nodup_iff.2 h
  have hle := sortStrings_sorted_le names
  unfold List.Sorted at hle ⊢
  unfold List.Nodup at hnd
  refine (hle.and hnd).imp ?_
  intro a b hab
  rcases strLe_iff.1 hab.1 with h1 | h1
  · exact h1
  · exact absurd h1 hab.2

/-- In a strictly increasing list a smaller element stands before a larger one. -/
theorem sorted_before {l : List String} (hs : l.Sorted (fun a b => strLt a b = true))
    {p c : String} (hp : p ∈ l) (hc : c ∈ l) (hpc : strLt p c = true) :
    ∃ l1 l2 l3, l = l1 ++ p :: (l2 ++ c :: l3) := by
  obtain ⟨l1, r, rfl⟩ := List.append_of_mem hp
  have hpw : List.Pairwise (fun a b => strLt a b = true) (l1 ++ p :: r) := hs
  rw [List.pairwise_append] at hpw
  obtain ⟨_, hr, hcross⟩ := hpw
  rw [List.pairwise_cons] at hr
  have hc' : c ∈ l1 ∨ c = p ∨ c ∈ r := by
    simpa [List.mem_append, List.mem_cons] using hc
  rcases hc' with h | h | h
  · have := hcross c h p (by simp)
    rw [strLt_asymm hpc] at this
    exact absurd this (by simp)
  · subst h
    rw [strLt_irrefl] at hpc
    exact absurd hpc (by simp)
  · obtain ⟨l2, l3, rfl⟩ := List.append_of_mem h
    exact ⟨l1, l2, l3, rfl⟩


/-! ## Theorems: `ApplyAll` -/

/-- The loop `applyEach` with a recording `applyOne` returns what the loop
returns without the record, and the record it adds is the list of names up to
and including the first one on which `applyOne` fails. -/
theorem applyEach_recorded {σ : Type} (f : String → σ → Option Error × σ) (names : List String)
    (st : σ) (log : List String) :
    ∃ called : List String,
      applyEach (recorded f) names (st, log)
        = ((applyEach f names st).1, ((applyEach f names st).2, log ++ called)) ∧
      called <+: names ∧
      ((applyEach f names st).1 = none → called = names) ∧
      (∀ err, (applyEach f names st).1 = some err →
        ∃ done failed, called = done ++ [failed] ∧ (applyEach f done st).1 = none ∧
          f failed (applyEach f done st).2 = (some err, (applyEach f names st).2)) := by
  induction names generalizing st log with
  | nil => exact ⟨[], by simp [applyEach], List.prefix_refl _, fun _ => rfl, by simp [applyEach]⟩
  | cons n ns ih =>
    cases hf : (f n st).1 with
    | some e =>
      refine ⟨[n], ?_, ?_, ?_, ?_⟩
      · simp [applyEach, recorded, hf]
      · exact ⟨ns, rfl⟩
      · simp [applyEach, hf]
      · intro err herr
        refine ⟨[], n, rfl, rfl, ?_⟩
        simp only [applyEach, hf] at herr ⊢
        cases herr
        exact Prod.ext hf rfl
    | none =>
      obtain ⟨called, h1, h2, h3, h4⟩ := ih (f n st).2 (log ++ [n])
      refine ⟨n :: called, ?_, ?_, ?_, ?_⟩
      · simp only [applyEach, recorded, hf]
        rw [h1]
        simp
      · obtain ⟨t, ht⟩ := h2
        exact ⟨t, by simp [← ht]⟩
      · intro h
        simp only [applyEach, hf] at h
        rw [h3 h]
      · intro err herr
        simp only [applyEach, hf] at herr
        obtain ⟨done, failed, hc, hd, hfail⟩ := h4 err herr
        refine ⟨n :: done, failed, by simp [hc], ?_, ?_⟩
        · simpa only [applyEach, hf] using hd
        · simpa only [applyEach, hf] using hfail

/-- C5: `sortedTargetNames` lists the keys of the target map, each once, in
strictly increasing order. `ApplyAll` calls `ApplyOne` on these names in that
order: the names it is called on are an initial part of the list, all of it when
`ApplyAll` returns no error, and otherwise the part that ends with the first
name on which `ApplyOne` returns an error, which is the error of `ApplyAll`.
Hence a key `p` stands before every key `p/r` in the list, and whenever `p/r`
is applied `p` was applied before it. -/
theorem ApplyAll_applies_targets_in_order {σ P T D : Type} (env : Env σ P T D)
    (ss : SourceState σ P T) (s : System σ) (umask : FileMode) (targetDir : String) (st : σ)
    (hkeys : ss.sourceEntries.keys.Nodup) :
    ss.sortedTargetNames.Sorted (fun a b => strLt a b = true) ∧
    ss.sortedTargetNames.Perm ss.sourceEntries.keys ∧
    ∃ called : List String,
      applyEach (recorded (ss.ApplyOne env s umask targetDir)) ss.sortedTargetNames (st, [])
        = ((ss.ApplyAll env s umask targetDir st).1,
           ((ss.ApplyAll env s umask targetDir st).2, called)) ∧
      called <+: ss.sortedTargetNames ∧
      ((ss.ApplyAll env s umask targetDir st).1 = none → called = ss.sortedTargetNames) ∧
      (∀ err, (ss.ApplyAll env s umask targetDir st).1 = some err →
        ∃ done failed, called = done ++ [failed] ∧
          (applyEach (ss.ApplyOne env s umask targetDir) done st).1 = none ∧
          ss.ApplyOne env s umask targetDir failed
              (applyEach (ss.ApplyOne env s umask targetDir) done st).2
            = (some err, (ss.ApplyAll env s umask targetDir st).2)) ∧
      (∀ p r : String, p ∈ ss.sourceEntries.keys → p ++ "/" ++ r ∈ ss.sourceEntries.keys →
        r ≠ "" →
        (∃ l1 l2 l3, ss.sortedTargetNames = l1 ++ p :: (l2 ++ (p ++ "/" ++ r) :: l3)) ∧
        (p ++ "/" ++ r ∈ called → ∃ l1 l2 l3, called = l1 ++ p :: (l2 ++ (p ++ "/" ++ r) :: l3))) := by
  have hsorted := sortStrings_sorted ss.sourceEntries.keys hkeys
  refine ⟨hsorted, sortStrings_perm _, ?_⟩
  obtain ⟨called, h1, h2, h3, h4⟩ :=
    applyEach_recorded (ss.ApplyOne env s umask targetDir) ss.sortedTargetNames st []
  refine ⟨called, by simpa using h1, h2, h3, h4, ?_⟩
  intro p r hp hc _
  have hlt : strLt p (p ++ "/" ++ r) = true := by
    rw [String.append_assoc]
    exact strLt_append p ("/" ++ r) (by
      intro h
      have := congrArg String.length h
      simp only [String.length_append] at this
      have h1 : "/".length = 1 := by decide
      have h0 : "".length = 0 := by decide
      omega)
  refine ⟨sorted_before hsorted (mem_sortStrings.2 hp) (mem_sortStrings.2 hc) hlt, ?_⟩
  intro hcalled
  obtain ⟨t, ht⟩ := h2
  have hsc : called.Sorted (fun a b => strLt a b = true) := by
    have : (called ++ t).Sorted (fun a b => strLt a b = true) := by
      rw [ht]; exact hsorted
    exact (List.pairwise_append.1 this).1
  have hpc : p ∈ called := by
    have hp' : p ∈ called ++ t := by rw [ht]; exact mem_sortStrings.2 hp
    rcases List.mem_append.1 hp' with h | h
    · exact h
    · exfalso
      have hpw : List.Pairwise (fun a b => strLt a b = true) (called ++ t) := by
        rw [ht]; exact hsorted
      have := (List.pairwise_append.1 hpw).2.2 _ hcalled _ h
      rw [strLt_asymm hlt] at this
      exact absurd this (by simp)
  exact sorted_before hsc hpc hcalled hlt


/-! ## Theorems: `ApplyOne` and exact directories -/

theorem GoMap.get?_eq_none_iff {V : Type} (m : GoMap V) (key : String) :
    m.get? key = none ↔ key ∉ m.keys := by
  induction m with
  | nil => simp [GoMap.get?, GoMap.keys]
  | cons kv rest ih =>
    obtain ⟨k, v⟩ := kv
    simp only [GoMap.get?, GoMap.keys, List.lookup, List.map_cons, List.mem_cons, not_or] at ih ⊢
    by_cases h : key = k
    · subst h; simp
    · have h' : (key == k) = false := by simpa using h
      rw [h']
      simp [h, ih]

/-- The loop `removeEach` on a system that logs its invocations: the log grows
by one `RemoveAll` for each path up to and including the first whose removal
fails, and the result and the state are those of the loop on the system itself. -/
theorem removeEach_traced {σ : Type} (s : System σ) (paths : List String) (st : σ)
    (log : List Call) :
    ∃ removed : List String,
      SourceState.removeEach s.traced paths (st, log)
        = ((SourceState.removeEach s paths st).1,
           ((SourceState.removeEach s paths st).2, log ++ removed.map Call.RemoveAll)) ∧
      removed <+: paths ∧
      ((SourceState.removeEach s paths st).1 = none → removed = paths) ∧
      (∀ err, (SourceState.removeEach s paths st).1 = some err →
        ∃ done failed, removed = done ++ [failed] ∧
          (SourceState.removeEach s done st).1 = none ∧
          (s.RemoveAll failed (SourceState.removeEach s done st).2).1 = some err) := by
  induction paths generalizing st log with
  | nil =>
    exact ⟨[], by simp [SourceState.removeEach], List.prefix_refl _, fun _ => rfl,
      by simp [SourceState.removeEach]⟩
  | cons n ns ih =>
    cases hf : (s.RemoveAll n st).1 with
    | some e =>
      refine ⟨[n], ?_, ⟨ns, rfl⟩, ?_, ?_⟩
      · simp [SourceState.removeEach, System.traced, logged, hf]
      · simp [SourceState.removeEach, hf]
      · intro err herr
        refine ⟨[], n, rfl, rfl, ?_⟩
        simp only [SourceState.removeEach, hf] at herr ⊢
        exact herr
    | none =>
      obtain ⟨removed, h1, h2, h3, h4⟩ := ih (s.RemoveAll n st).2 (log ++ [Call.RemoveAll n])
      refine ⟨n :: removed, ?_, ?_, ?_, ?_⟩
      · simp only [SourceState.removeEach, System.traced, logged, hf]
        simp only [System.traced, logged] at h1
        rw [h1]
        simp
      · obtain ⟨t, ht⟩ := h2
        exact ⟨t, by simp [← ht]⟩
      · intro h
        simp only [SourceState.removeEach, hf] at h
        rw [h3 h]
      · intro err herr
        simp only [SourceState.removeEach, hf] at herr
        obtain ⟨done, failed, hc, hd, hfail⟩ := h4 err herr
        refine ⟨n :: done, failed, by simp [hc], ?_, ?_⟩
        · simpa only [SourceState.removeEach, hf] using hd
        · simpa only [SourceState.removeEach, hf] using hfail

/-- The last loop of `ApplyOne` is the loop `removeEach` over the paths of the
base names whose target name is not a key of the source map. -/
theorem removeUnknown_eq_removeEach {σ P T : Type} (ss : SourceState σ P T) (s : System σ)
    (targetPath targetName : String) (names : List String) (st : σ) :
    ss.removeUnknown s targetPath targetName names st
      = SourceState.removeEach s
          ((names.filter
            (fun b => (ss.sourceEntries.get? (pathJoin targetName b)).isNone)).map
            (pathJoin targetPath)) st := by
  induction names generalizing st with
  | nil => rfl
  | cons n ns ih =>
    cases hk : ss.sourceEntries.get? (pathJoin targetName n) with
    | some e => simp [SourceState.removeUnknown, hk, ih]
    | none =>
      simp only [SourceState.removeUnknown, hk, List.filter_cons, Option.isNone_none, if_true,
        List.map_cons, SourceState.removeEach]
      cases hr : (s.RemoveAll (pathJoin targetPath n) st).1 with
      | some err => rfl
      | none => exact ih _


theorem prefix_map_inv {α β : Type} (f : α → β) (l : List β) (xs : List α)
    (h : l <+: xs.map f) : ∃ ys, ys <+: xs ∧ l = ys.map f := by
  obtain ⟨t, ht⟩ := h
  refine ⟨xs.take l.length, List.take_prefix _ _, ?_⟩
  have : (xs.map f).take l.length = l := by
    rw [← ht]; simp
  rw [← List.map_take] at this
  exact this.symm

theorem mem_baseNames {infos : List FileInfo} {b : String} :
    b ∈ SourceState.baseNames infos ↔ b ∈ infos.map FileInfo.Name ∧ b ≠ "." ∧ b ≠ ".." := by
  simp [SourceState.baseNames, mem_sortStrings, List.mem_filter]

theorem baseNames_sorted (infos : List FileInfo) (h : (infos.map FileInfo.Name).Nodup) :
    (SourceState.baseNames infos).Sorted (fun a b => strLt a b = true) :=
  sortStrings_sorted _ (h.filter _)

/-- C6, as amended: `ApplyOne` on a target whose target state is a directory,
when `NewDestStateEntry` and `Apply` succeed. If the directory is not exact,
`ApplyOne` returns with no further call. If it is exact and `ReadDir`
succeeds, then after `ReadDir` the only calls are `RemoveAll` on children of
the target directory: the candidates are the children other than `.` and `..`
whose target name `path.Join(targetName, baseName)` is not a key of the
source map, once for each entry that `ReadDir` lists, in ascending order of
base name (strictly ascending when the listed names are pairwise distinct);
`RemoveAll` is called on an initial part of them, in that order, on all of
them when `ApplyOne` returns no error and otherwise up to and including the
first child whose removal fails, whose error `ApplyOne` returns. -/
theorem ApplyOne_prunes_exact_directory {σ P T D : Type} (env : Env (σ × List Call) P T D)
    (ss : SourceState (σ × List Call) P T) (s : System σ) (umask : FileMode)
    (targetDir targetName targetPath : String) (st st1 st2 st3 : σ × List Call) (dest : D)
    (perm : FileMode) (exact : Bool)
    (hpath : targetPath = pathJoin targetDir targetName)
    (hdest : env.NewDestStateEntry s.traced targetPath st = ((dest, none), st1))
    (htarget : ss.targetStateEntryOf env (ss.sourceEntries.get? targetName) st1
      = ((some (.Dir perm exact), none), st2))
    (happly : env.Apply (.Dir perm exact) s.traced dest st2 = (none, st3)) :
    (exact = false → ss.ApplyOne env s.traced umask targetDir targetName st = (none, st3)) ∧
    (exact = true → ∀ infos : List FileInfo,
      (s.ReadDir targetPath st3.1).1 = (infos, none) →
      ∀ toRemove : List String,
      toRemove = (SourceState.baseNames infos).filter
        (fun b => (ss.sourceEntries.get? (pathJoin targetName b)).isNone) →
      (∀ b, b ∈ toRemove ↔
        b ∈ infos.map FileInfo.Name ∧ b ≠ "." ∧ b ≠ ".." ∧
          pathJoin targetName b ∉ ss.sourceEntries.keys) ∧
      toRemove.Perm ((infos.map FileInfo.Name).filter
        (fun b => b ≠ "." ∧ b ≠ ".." ∧ pathJoin targetName b ∉ ss.sourceEntries.keys)) ∧
      toRemove.Sorted (fun a b => strLe a b = true) ∧
      ((infos.map FileInfo.Name).Nodup → toRemove.Sorted (fun a b => strLt a b = true)) ∧
      ∃ removed : List String,
        removed <+: toRemove ∧
        (ss.ApplyOne env s.traced umask targetDir targetName st).2.2
          = st3.2 ++ [Call.ReadDir targetPath]
              ++ removed.map (fun b => Call.RemoveAll (pathJoin targetPath b)) ∧
        ((ss.ApplyOne env s.traced umask targetDir targetName st).1 = none →
          removed = toRemove) ∧
        (∀ err, (ss.ApplyOne env s.traced umask targetDir targetName st).1 = some err →
          ∃ done failed, removed = done ++ [failed] ∧
            (SourceState.removeEach s (done.map (pathJoin targetPath))
              (s.ReadDir targetPath st3.1).2).1 = none ∧
            (s.RemoveAll (pathJoin targetPath failed)
              (SourceState.removeEach s (done.map (pathJoin targetPath))
                (s.ReadDir targetPath st3.1).2).2).1 = some err)) := by
  subst hpath
  constructor
  · intro hex
    subst hex
    simp [SourceState.ApplyOne, hdest, htarget, happly]
  · intro hex infos hread toRemove htoRemove
    subst hex
    refine ⟨?_, ?_, ?_, ?_, ?_⟩
    · intro b
      rw [htoRemove, List.mem_filter, mem_baseNames, Option.isNone_iff_eq_none,
        GoMap.get?_eq_none_iff]
      tauto
    · rw [htoRemove]
      refine ((sortStrings_perm _).filter _).trans ?_
      rw [List.filter_filter]
      refine List.Perm.of_eq (List.filter_congr ?_)
      intro b _
      have hkey : (ss.sourceEntries.get? (pathJoin targetName b)).isNone
          = !decide (pathJoin targetName b ∈ ss.sourceEntries.keys) := by
        by_cases hk : pathJoin targetName b ∈ ss.sourceEntries.keys
        · have hne : ss.sourceEntries.get? (pathJoin targetName b) ≠ none :=
            fun h => (GoMap.get?_eq_none_iff _ _).1 h hk
          cases hg : ss.sourceEntries.get? (pathJoin targetName b) with
          | none => exact absurd hg hne
          | some e => simp [hk]
        · rw [(GoMap.get?_eq_none_iff _ _).2 hk]
          simp [hk]
      by_cases h1 : b = "." <;> by_cases h2 : b = ".." <;> simp [h1, h2, hkey]
    · rw [htoRemove]
      exact (sortStrings_sorted_le _).filter _
    · intro hnodup
      rw [htoRemove]
      exact (baseNames_sorted infos hnodup).filter _
    · have hrun : ss.ApplyOne env s.traced umask targetDir targetName st
          = SourceState.removeEach s.traced (toRemove.map (pathJoin (pathJoin targetDir targetName)))
              ((s.ReadDir (pathJoin targetDir targetName) st3.1).2,
                st3.2 ++ [Call.ReadDir (pathJoin targetDir targetName)]) := by
        have hr : (s.traced.ReadDir (pathJoin targetDir targetName) st3)
            = ((infos, none), ((s.ReadDir (pathJoin targetDir targetName) st3.1).2,
                st3.2 ++ [Call.ReadDir (pathJoin targetDir targetName)])) := by
          simp [System.traced, logged, hread]
        simp only [SourceState.ApplyOne, hdest, htarget, happly, hr]
        rw [removeUnknown_eq_removeEach, htoRemove]
      obtain ⟨removedPaths, h1, h2, h3, h4⟩ :=
        removeEach_traced s (toRemove.map (pathJoin (pathJoin targetDir targetName)))
          (s.ReadDir (pathJoin targetDir targetName) st3.1).2
          (st3.2 ++ [Call.ReadDir (pathJoin targetDir targetName)])
      obtain ⟨removed, hpre, hmap⟩ := prefix_map_inv _ _ _ h2
      refine ⟨removed, hpre, ?_, ?_, ?_⟩
      · rw [hrun, h1, hmap]
        simp [List.map_map, Function.comp_def]
      · intro hnone
        rw [hrun, h1] at hnone
        have := h3 hnone
        rw [hmap] at this
        obtain ⟨t, ht⟩ := hpre
        have hlen := congrArg List.length this
        simp only [List.length_map] at hlen
        have htl : t = [] := by
          have := congrArg List.length ht
          simp only [List.length_append] at this
          exact List.eq_nil_of_length_eq_zero (by omega)
        rw [← ht, htl]
        simp
      · intro err herr
        rw [hrun, h1] at herr
        obtain ⟨donePaths, failedPath, hc, hd, hfail⟩ := h4 err herr
        rw [hmap] at hc
        have hlen : removed.length = donePaths.length + 1 := by
          have := congrArg List.length hc
          simpa using this
        have hne : removed ≠ [] := by
          intro h; rw [h] at hlen; simp at hlen
        refine ⟨removed.dropLast, removed.getLast hne, (List.dropLast_append_getLast hne).symm,
          ?_, ?_⟩
        · have : donePaths = removed.dropLast.map (pathJoin (pathJoin targetDir targetName)) := by
            have h5 := congrArg List.dropLast hc
            simpa [List.dropLast_concat, List.map_dropLast] using h5.symm
          rw [← this]; exact hd
        · have hd' : donePaths
              = removed.dropLast.map (pathJoin (pathJoin targetDir targetName)) := by
            have h5 := congrArg List.dropLast hc
            simpa [List.dropLast_concat, List.map_dropLast] using h5.symm
          have hf' : failedPath = pathJoin (pathJoin targetDir targetName) (removed.getLast hne) := by
            have h5 := congrArg List.getLast? hc
            rw [List.getLast?_map, List.getLast?_eq_getLast _ hne] at h5
            simpa using h5.symm
          rw [← hd', ← hf']; exact hfail


/-- C5 at an instance, on the source state with the keys `dir` and `dir/x`:
`ApplyAll` applies `dir`, then `dir/x`. -/
theorem ApplyAll_applies_targets_in_order_witness :
    (exactSS memSystem).sourceEntries.keys.Nodup ∧
    (exactSS memSystem).sortedTargetNames = ["dir", "dir/x"] ∧
    (exactSS memSystem).sortedTargetNames.Sorted (fun a b => strLt a b = true) ∧
    (exactSS memSystem).sortedTargetNames.Perm (exactSS memSystem).sourceEntries.keys :=
  ⟨by decide, by decide,
   (ApplyAll_applies_targets_in_order (specEnv MemFS) (exactSS memSystem) memSystem 0o22
      "/home/user" (homeFS []) (by decide)).1,
   (ApplyAll_applies_targets_in_order (specEnv MemFS) (exactSS memSystem) memSystem 0o22
      "/home/user" (homeFS []) (by decide)).2.1⟩

/-- C6 as stated fails: `/home/user/dir` is an exact directory with
the children `x`, `y`, `z`, of which only `dir/x` is a key of the source map,
and the file system refuses to remove `y`. `NewDestStateEntry`, `Apply` and
`ReadDir` succeed, but `ApplyOne` returns the error of `RemoveAll` on `y`
and never calls `RemoveAll` on `z`, which stays in the directory. -/
theorem ApplyOne_stops_pruning_at_failed_RemoveAll :
    (specEnv (MemFS × List Call)).NewDestStateEntry memSystem.traced "/home/user/dir"
        (homeFS ["/home/user/dir/y"], [])
      = ((⟨"/home/user/dir", some ⟨"dir", ModeDir ||| 0o755⟩⟩, none),
         (homeFS ["/home/user/dir/y"], [Call.Lstat "/home/user/dir"])) ∧
    (exactSS memSystem.traced).targetStateEntryOf (specEnv (MemFS × List Call))
        ((exactSS memSystem.traced).sourceEntries.get? "dir")
        (homeFS ["/home/user/dir/y"], [Call.Lstat "/home/user/dir"])
      = ((some (.Dir 0o755 true), none),
         (homeFS ["/home/user/dir/y"], [Call.Lstat "/home/user/dir"])) ∧
    (specEnv (MemFS × List Call)).Apply (.Dir 0o755 true) memSystem.traced
        ⟨"/home/user/dir", some ⟨"dir", ModeDir ||| 0o755⟩⟩
        (homeFS ["/home/user/dir/y"], [Call.Lstat "/home/user/dir"])
      = (none, (homeFS ["/home/user/dir/y"], [Call.Lstat "/home/user/dir"])) ∧
    (memSystem.ReadDir "/home/user/dir" (homeFS ["/home/user/dir/y"])).1
      = ([⟨"x", 0o644⟩, ⟨"y", 0o644⟩, ⟨"z", 0o644⟩], none) ∧
    pathJoin "dir" "z" ∉ (exactSS memSystem.traced).sourceEntries.keys ∧
    ((exactSS memSystem.traced).ApplyOne (specEnv (MemFS × List Call)) memSystem.traced 0o22
        "/home/user" "dir" (homeFS ["/home/user/dir/y"], [])).1 = some errPermission ∧
    ((exactSS memSystem.traced).ApplyOne (specEnv (MemFS × List Call)) memSystem.traced 0o22
        "/home/user" "dir" (homeFS ["/home/user/dir/y"], [])).2.2
      = [Call.Lstat "/home/user/dir", Call.ReadDir "/home/user/dir",
         Call.RemoveAll "/home/user/dir/y"] ∧
    Call.RemoveAll (pathJoin "/home/user/dir" "z")
      ∉ ((exactSS memSystem.traced).ApplyOne (specEnv (MemFS × List Call)) memSystem.traced 0o22
          "/home/user" "dir" (homeFS ["/home/user/dir/y"], [])).2.2 ∧
    (((exactSS memSystem.traced).ApplyOne (specEnv (MemFS × List Call)) memSystem.traced 0o22
        "/home/user" "dir" (homeFS ["/home/user/dir/y"], [])).2.1.find "/home/user/dir/z").isSome
      = true := by
  refine ⟨rfl, rfl, rfl, rfl, by decide, rfl, by decide, by decide, by decide⟩

/-- C6 at an instance, the same directory when nothing is locked:
`NewDestStateEntry`, `Apply` and `ReadDir` succeed, and the children `y` and
`z` are removed, in this order, while `x` is not. -/
theorem ApplyOne_prunes_exact_directory_witness :
    ("/home/user/dir" = pathJoin "/home/user" "dir" ∧
     (specEnv (MemFS × List Call)).NewDestStateEntry memSystem.traced "/home/user/dir"
        (homeFS [], [])
      = ((⟨"/home/user/dir", some ⟨"dir", ModeDir ||| 0o755⟩⟩, none),
         (homeFS [], [Call.Lstat "/home/user/dir"])) ∧
     (exactSS memSystem.traced).targetStateEntryOf (specEnv (MemFS × List Call))
        ((exactSS memSystem.traced).sourceEntries.get? "dir")
        (homeFS [], [Call.Lstat "/home/user/dir"])
      = ((some (.Dir 0o755 true), none), (homeFS [], [Call.Lstat "/home/user/dir"])) ∧
     (specEnv (MemFS × List Call)).Apply (.Dir 0o755 true) memSystem.traced
        ⟨"/home/user/dir", some ⟨"dir", ModeDir ||| 0o755⟩⟩
        (homeFS [], [Call.Lstat "/home/user/dir"])
      = (none, (homeFS [], [Call.Lstat "/home/user/dir"])) ∧
     (memSystem.ReadDir "/home/user/dir" (homeFS [])).1
      = ([⟨"x", 0o644⟩, ⟨"y", 0o644⟩, ⟨"z", 0o644⟩], none)) ∧
    ((exactSS memSystem.traced).ApplyOne (specEnv (MemFS × List Call)) memSystem.traced 0o22
        "/home/user" "dir" (homeFS [], [])).2.2
      = [Call.Lstat "/home/user/dir", Call.ReadDir "/home/user/dir",
         Call.RemoveAll "/home/user/dir/y", Call.RemoveAll "/home/user/dir/z"] ∧
    (∃ removed : List String,
      removed <+: ["y", "z"] ∧
      ((exactSS memSystem.traced).ApplyOne (specEnv (MemFS × List Call)) memSystem.traced 0o22
          "/home/user" "dir" (homeFS [], [])).2.2
        = [Call.Lstat "/home/user/dir"] ++ [Call.ReadDir "/home/user/dir"]
            ++ removed.map (fun b => Call.RemoveAll (pathJoin "/home/user/dir" b)) ∧
      (((exactSS memSystem.traced).ApplyOne (specEnv (MemFS × List Call)) memSystem.traced 0o22
          "/home/user" "dir" (homeFS [], [])).1 = none → removed = ["y", "z"]) ∧
      (∀ err, ((exactSS memSystem.traced).ApplyOne (specEnv (MemFS × List Call))
          memSystem.traced 0o22 "/home/user" "dir" (homeFS [], [])).1 = some err →
        ∃ done failed, removed = done ++ [failed] ∧
          (SourceState.removeEach memSystem (done.map (pathJoin "/home/user/dir"))
            (memSystem.ReadDir "/home/user/dir" (homeFS [])).2).1 = none ∧
          (memSystem.RemoveAll (pathJoin "/home/user/dir" failed)
            (SourceState.removeEach memSystem (done.map (pathJoin "/home/user/dir"))
              (memSystem.ReadDir "/home/user/dir" (homeFS [])).2).2).1 = some err)) :=
  ⟨⟨by decide, rfl, rfl, rfl, rfl⟩, by decide,
   ((ApplyOne_prunes_exact_directory (specEnv (MemFS × List Call)) (exactSS memSystem.traced)
    memSystem 0o22 "/home/user" "dir" "/home/user/dir" (homeFS [], [])
    (homeFS [], [Call.Lstat "/home/user/dir"]) (homeFS [], [Call.Lstat "/home/user/dir"])
    (homeFS [], [Call.Lstat "/home/user/dir"])
    ⟨"/home/user/dir", some ⟨"dir", ModeDir ||| 0o755⟩⟩ 0o755 true
    (by decide) rfl rfl rfl).2 rfl
    [⟨"x", 0o644⟩, ⟨"y", 0o644⟩, ⟨"z", 0o644⟩] rfl ["y", "z"] (by decide)).2.2.2.2⟩

/-! ## Theorems: `Read` -/

theorem GoMap.keys_set {V : Type} (m : GoMap V) (key : String) (value : V) :
    (m.set key value).keys = if key ∈ m.keys then m.keys else m.keys ++ [key] := by
  induction m with
  | nil => simp [GoMap.set, GoMap.keys]
  | cons kv rest ih =>
    obtain ⟨k, v⟩ := kv
    simp only [GoMap.keys, GoMap.set, List.map_cons, List.mem_cons] at ih ⊢
    by_cases h : k = key
    · subst h; simp
    · have h' : ¬ key = k := fun e => h e.symm
      simp only [h, h', if_false, List.map_cons, false_or]
      rw [ih]
      split_ifs <;> simp

theorem GoMap.get?_set {V : Type} (m : GoMap V) (key : String) (value : V) (other : String) :
    (m.set key value).get? other = if other = key then some value else m.get? other := by
  induction m with
  | nil =>
    by_cases h : other = key
    · subst h; simp [GoMap.set, GoMap.get?, List.lookup]
    · have h' : (other == key) = false := by simpa using h
      simp [GoMap.set, GoMap.get?, List.lookup, h, h']
  | cons kv rest ih =>
    obtain ⟨k, v⟩ := kv
    simp only [GoMap.get?, GoMap.set] at ih ⊢
    by_cases hk : k = key
    · subst hk
      by_cases h : other = k
      · subst h; simp [List.lookup]
      · have h' : (other == k) = false := by simpa using h
        simp [List.lookup, h, h']
    · simp only [hk, if_false, List.lookup]
      by_cases h : other = k
      · subst h
        simp [hk]
      · have h' : (other == k) = false := by simpa using h
        rw [h', ih]

theorem GoMap.nodup_keys_set {V : Type} (m : GoMap V) (key : String) (value : V)
    (h : m.keys.Nodup) : (m.set key value).keys.Nodup := by
  rw [GoMap.keys_set]
  split_ifs with hk
  · exact h
  · exact List.Nodup.append h (List.nodup_singleton _) (by simpa using hk)

theorem GoMap.get?_isSome_iff {V : Type} (m : GoMap V) (key : String) :
    (∃ v, m.get? key = some v) ↔ key ∈ m.keys := by
  have := GoMap.get?_eq_none_iff m key
  cases h : m.get? key with
  | none => simp [this.1 h]
  | some v =>
    have hk : key ∈ m.keys := by
      by_contra hn
      rw [this.2 hn] at h
      exact absurd h (by simp)
    simp [hk]

mutual

/-- A property of the state of the walk that every call of the callback keeps
holds after `walk`. -/
theorem walk_preserves {W : Type} (I : W → Prop)
    (walkFn : String → FileInfo → Option Error → W → Option Error × W)
    (hfn : ∀ path info err w, I w → I (walkFn path info err w).2) :
    ∀ (path : String) (t : SourceTree) (w : W), I w → I (walk walkFn path t w).2
  | path, .node info readDirErr entries, w, hw => by
    unfold walk
    dsimp only
    split
    · exact hfn _ _ _ _ hw
    · split
      · exact hfn _ _ _ _ hw
      · exact walkEntries_preserves I walkFn hfn path entries _ (hfn _ _ _ _ hw)

/-- The same for the loop over the entries of a directory. -/
theorem walkEntries_preserves {W : Type} (I : W → Prop)
    (walkFn : String → FileInfo → Option Error → W → Option Error × W)
    (hfn : ∀ path info err w, I w → I (walkFn path info err w).2) :
    ∀ (path : String) (ts : List SourceTree) (w : W), I w → I (walkEntries walkFn path ts w).2
  | _, [], w, hw => by
    unfold walkEntries
    exact hw
  | path, t :: ts, w, hw => by
    unfold walkEntries
    have h1 := walk_preserves I walkFn hfn (pathJoin path t.info.Name) t w hw
    dsimp only
    split
    · exact walkEntries_preserves I walkFn hfn path ts _ h1
    · split
      · exact h1
      · exact walkEntries_preserves I walkFn hfn path ts _ h1

end

theorem Walk_preserves {W : Type} (I : W → Prop) (src : SourceDir) (root : String)
    (walkFn : String → FileInfo → Option Error → W → Option Error × W)
    (hfn : ∀ path info err w, I w → I (walkFn path info err w).2) (w : W) (hw : I w) :
    I (Walk src root walkFn w).2 := by
  unfold Walk
  have h : I (match src.lstatErr with
      | some err => walkFn root src.tree.info (some err) w
      | none => walk walkFn root src.tree w).2 := by
    split
    · exact hfn _ _ _ _ hw
    · exact walk_preserves I walkFn hfn root src.tree w hw
  dsimp only
  generalize (match src.lstatErr with
      | some err => walkFn root src.tree.info (some err) w
      | none => walk walkFn root src.tree w) = r at h ⊢
  cases hr : r.1 with
  | none => exact h
  | some err =>
    dsimp only
    split <;> exact h


theorem appendSourceEntry_invariant {σ P T : Type} (sourceEntries : GoMap SourceStateEntry)
    (w : Walked σ P T) (ss' : SourceState σ P T) (targetName : String)
    (sourceEntry : SourceStateEntry) (hss : ss'.sourceEntries = w.ss.sourceEntries)
    (h : w.Invariant sourceEntries) :
    Walked.Invariant sourceEntries
      { ss := ss', allSourceEntries :=
          SourceState.appendSourceEntry w.allSourceEntries targetName sourceEntry } := by
  obtain ⟨h1, h2, h3⟩ := h
  refine ⟨hss.trans h1, GoMap.nodup_keys_set _ _ _ h2, ?_⟩
  intro k es hk
  simp only [SourceState.appendSourceEntry] at hk
  rw [GoMap.get?_set] at hk
  split_ifs at hk with hkk
  · cases hk
    simp
  · exact h3 k es hk

theorem Walked.Invariant.of_eq {σ P T : Type} {sourceEntries : GoMap SourceStateEntry}
    {w : Walked σ P T} (h : w.Invariant sourceEntries) (w' : Walked σ P T)
    (h1 : w'.ss.sourceEntries = w.ss.sourceEntries)
    (h2 : w'.allSourceEntries = w.allSourceEntries) : w'.Invariant sourceEntries := by
  unfold Walked.Invariant at h ⊢
  rw [h1, h2]
  exact h

theorem readWalkFn_invariant {σ P T D : Type} (env : Env σ P T D) (src : SourceDir)
    (sourceEntries : GoMap SourceStateEntry) (path : String) (info : FileInfo)
    (err : Option Error) (w : Walked σ P T) (h : w.Invariant sourceEntries) :
    (SourceState.readWalkFn env src path info err w).2.Invariant sourceEntries := by
  unfold SourceState.readWalkFn
  cases err with
  | some e => exact h
  | none =>
    dsimp only
    split
    · exact h
    split
    · exact h.of_eq _ rfl rfl
    split
    · exact h.of_eq _ rfl rfl
    split
    · split <;> exact h.of_eq _ rfl rfl
    split
    · exact h.of_eq _ rfl rfl
    split
    · split <;> exact h
    split
    · split
      · exact h
      · exact appendSourceEntry_invariant sourceEntries w w.ss _ _ rfl h
    split
    · split
      · exact h
      · exact appendSourceEntry_invariant sourceEntries w w.ss _ _ rfl h
    · exact h

theorem readWalk_invariant {σ P T D : Type} (env : Env σ P T D) (src : SourceDir)
    (ss : SourceState σ P T) : (ss.readWalk env src).2.Invariant ss.sourceEntries := by
  unfold SourceState.readWalk
  apply Walk_preserves (fun w => Walked.Invariant ss.sourceEntries w)
  · intro path info err w hw
    exact readWalkFn_invariant env src _ path info err w hw
  · exact ⟨rfl, by simp [GoMap.keys], by simp [GoMap.get?]⟩

theorem multierrErrors_append_duplicate (err : Option Error) (targetName : String)
    (sourcePaths : List String) :
    multierrErrors (multierrAppend err (some (.duplicateTarget targetName sourcePaths)))
      = multierrErrors err ++ [.duplicateTarget targetName sourcePaths] := by
  cases err with
  | none => rfl
  | some e => cases e <;> rfl

theorem multierrAppend_isSome (err : Option Error) (e : Error) :
    (multierrAppend err (some e)).isSome = true := by
  cases err <;> rfl

/-- The error `checkDuplicates` collects: its errors are the ones collected
before, then one `duplicateTarget` for each name, in order, whose slice does
not hold exactly one source entry. -/
theorem checkDuplicates_errors (all : GoMap (List SourceStateEntry)) (names : List String)
    (err : Option Error) :
    multierrErrors (SourceState.checkDuplicates all names err)
      = multierrErrors err ++
        (names.filter (fun k => ((all.get? k).getD []).length ≠ 1)).map
          (fun k => Error.duplicateTarget k (((all.get? k).getD []).map SourceStateEntry.Path)) ∧
    ((SourceState.checkDuplicates all names err).isSome = true ↔
      err.isSome = true ∨ ∃ k ∈ names, ((all.get? k).getD []).length ≠ 1) := by
  induction names generalizing err with
  | nil => simp [SourceState.checkDuplicates]
  | cons n ns ih =>
    by_cases h : ((all.get? n).getD []).length = 1
    · simp only [SourceState.checkDuplicates, h, if_true]
      obtain ⟨h1, h2⟩ := ih err
      refine ⟨?_, ?_⟩
      · rw [h1]; simp [List.filter_cons, h]
      · rw [h2]; simp [h]
    · simp only [SourceState.checkDuplicates, h, if_false]
      obtain ⟨h1, h2⟩ := ih (multierrAppend err (some (.duplicateTarget n
        (((all.get? n).getD []).map SourceStateEntry.Path))))
      refine ⟨?_, ?_⟩
      · rw [h1, multierrErrors_append_duplicate]
        simp [List.filter_cons, h]
      · rw [h2, multierrAppend_isSome]
        simp only [true_or, true_iff]
        exact Or.inr ⟨n, by simp, h⟩


theorem Read_of_walk {σ P T D : Type} (env : Env σ P T D) (src : SourceDir)
    (ss : SourceState σ P T) (hwalk : (ss.readWalk env src).1 = none) :
    (SourceState.Read env src ss).1
      = SourceState.checkDuplicates (ss.readWalk env src).2.allSourceEntries
          (sortStrings (ss.readWalk env src).2.allSourceEntries.keys) none ∧
    ((SourceState.Read env src ss).1.isSome = true →
      (SourceState.Read env src ss).2.sourceEntries = (ss.readWalk env src).2.ss.sourceEntries) := by
  unfold SourceState.Read
  simp only [hwalk]
  cases hcd : SourceState.checkDuplicates (ss.readWalk env src).2.allSourceEntries
      (sortStrings (ss.readWalk env src).2.allSourceEntries.keys) none with
  | none => simp
  | some err => simp

/-- C7: when the walk of the source directory succeeds, `Read` returns an
error exactly when some target name has more than one source entry in
`allSourceEntries`; the errors that error aggregates are one
`duplicateTargetError` for each such target name, in strictly increasing order
of target name, each with the paths of all the source entries of that target
name; and when `Read` returns the error the target map of the source state is
the one it had before the call. -/
theorem Read_reports_every_duplicate_target {σ P T D : Type} (env : Env σ P T D)
    (src : SourceDir) (ss : SourceState σ P T) (hwalk : (ss.readWalk env src).1 = none) :
    ((SourceState.Read env src ss).1.isSome = true ↔
      ∃ targetName sourceEntries,
        (ss.readWalk env src).2.allSourceEntries.get? targetName = some sourceEntries ∧
          2 ≤ sourceEntries.length) ∧
    (∃ duplicates : List String,
      duplicates.Sorted (fun a b => strLt a b = true) ∧
      (∀ targetName, targetName ∈ duplicates ↔
        ∃ sourceEntries,
          (ss.readWalk env src).2.allSourceEntries.get? targetName = some sourceEntries ∧
            2 ≤ sourceEntries.length) ∧
      multierrErrors (SourceState.Read env src ss).1
        = duplicates.map (fun targetName =>
            Error.duplicateTarget targetName
              ((((ss.readWalk env src).2.allSourceEntries.get? targetName).getD []).map
                SourceStateEntry.Path))) ∧
    ((SourceState.Read env src ss).1.isSome = true →
      (SourceState.Read env src ss).2.sourceEntries = ss.sourceEntries) := by
  obtain ⟨hfst, hsnd⟩ := Read_of_walk env src ss hwalk
  obtain ⟨hss, hnodup, hne⟩ := readWalk_invariant env src ss
  obtain ⟨herrs, hsome⟩ := checkDuplicates_errors (ss.readWalk env src).2.allSourceEntries
    (sortStrings (ss.readWalk env src).2.allSourceEntries.keys) none
  have hdup : ∀ targetName,
      (targetName ∈ sortStrings (ss.readWalk env src).2.allSourceEntries.keys ∧
        (((ss.readWalk env src).2.allSourceEntries.get? targetName).getD []).length ≠ 1) ↔
      ∃ sourceEntries,
        (ss.readWalk env src).2.allSourceEntries.get? targetName = some sourceEntries ∧
          2 ≤ sourceEntries.length := by
    intro k
    constructor
    · rintro ⟨hk, hlen⟩
      obtain ⟨es, hes⟩ := (GoMap.get?_isSome_iff _ k).2 (mem_sortStrings.1 hk)
      refine ⟨es, hes, ?_⟩
      have h0 : es.length ≠ 0 := fun h => hne k es hes (List.eq_nil_of_length_eq_zero h)
      rw [hes] at hlen
      simp only [Option.getD_some] at hlen
      omega
    · rintro ⟨es, hes, hlen⟩
      refine ⟨mem_sortStrings.2 ((GoMap.get?_isSome_iff _ k).1 ⟨es, hes⟩), ?_⟩
      rw [hes]
      simp only [Option.getD_some]
      omega
  refine ⟨?_, ?_, ?_⟩
  · rw [hfst, hsome]
    simp only [Option.isSome_none, Bool.false_eq_true, false_or]
    constructor
    · rintro ⟨k, hk, hlen⟩
      obtain ⟨es, h1, h2⟩ := (hdup k).1 ⟨hk, hlen⟩
      exact ⟨k, es, h1, h2⟩
    · rintro ⟨k, es, h1, h2⟩
      obtain ⟨h3, h4⟩ := (hdup k).2 ⟨es, h1, h2⟩
      exact ⟨k, h3, h4⟩
  · refine ⟨(sortStrings (ss.readWalk env src).2.allSourceEntries.keys).filter
      (fun k => (((ss.readWalk env src).2.allSourceEntries.get? k).getD []).length ≠ 1),
      (sortStrings_sorted _ hnodup).filter _, ?_, ?_⟩
    · intro k
      rw [List.mem_filter, ← hdup k]
      simp
    · rw [hfst, herrs]
      simp [multierrErrors]
  · intro h
    rw [hsnd h, hss]


/-- C7 at an instance, on `duplicateSrc`: the walk succeeds, `Read` returns one
error that aggregates a `duplicateTargetError` for `a/b` and one for `c`, each
with both source paths, and the target map stays empty. -/
theorem Read_reports_every_duplicate_target_witness :
    (freshSS.readWalk (specEnv MemFS) duplicateSrc).1 = none ∧
    (SourceState.Read (specEnv MemFS) duplicateSrc freshSS).1
      = some (.multi [.duplicateTarget "a/b" ["/src/a/b", "/src/a/empty_b"],
          .duplicateTarget "c" ["/src/c", "/src/private_c"]]) ∧
    (SourceState.Read (specEnv MemFS) duplicateSrc freshSS).2.sourceEntries
      = freshSS.sourceEntries :=
  ⟨rfl, rfl,
   (Read_reports_every_duplicate_target (specEnv MemFS) duplicateSrc freshSS rfl).2.2 rfl⟩

/-- C8, at the failing input: in `ignoredSrc` the ignore file is read first and
registers the pattern `foo`; the directory `foo` matches it and is not added,
but the callback returns no `SkipDir` for it, so the walk descends, and
`Read` adds the file `foo/bar` beneath the ignored directory to the target map. -/
theorem Read_descends_into_ignored_directory :
    (SourceState.Read (specEnv MemFS) ignoredSrc freshSS).1 = none ∧
    (SourceState.Read (specEnv MemFS) ignoredSrc freshSS).2.ignore = ⟨[("foo", true)]⟩ ∧
    (specEnv MemFS).Match (SourceState.Read (specEnv MemFS) ignoredSrc freshSS).2.ignore "foo"
      = true ∧
    (SourceState.readWalkFn (specEnv MemFS) ignoredSrc "/src/foo" ⟨"foo", ModeDir ||| 0o755⟩ none
        { ss := { freshSS with ignore := ⟨[("foo", true)]⟩ }, allSourceEntries := [] }).1
      = none ∧
    (SourceState.Read (specEnv MemFS) ignoredSrc freshSS).2.sourceEntries
      = [("foo/bar", .File "/src/foo/bar" (plainFile "bar"))] := by
  refine ⟨rfl, by decide, by decide, rfl, by decide⟩

/-- C9: for a source entry of type `File` whose contents are read, and
rendered when `Template` is set, without error, the target state is `Absent`
exactly when `Empty` is not set and `isEmpty` holds of the final contents;
otherwise it is a `File` with the final contents. The final contents are the
output of the template when `Template` is set and the bytes read otherwise. -/
theorem targetStateEntryFunc_empty_file_policy {σ P T D : Type} (env : Env σ P T D)
    (ss : SourceState σ P T) (sourcePath : String) (fileAttributes : FileAttributes)
    (st st' : σ) (raw final : Bytes)
    (htype : fileAttributes.Type_ = .File)
    (hread : ss.s.ReadFile sourcePath st = ((raw, none), st'))
    (hfinal : if fileAttributes.Template = true
      then ss.ExecuteTemplateData env sourcePath raw = (final, none) else final = raw) :
    ((ss.targetStateEntryFunc env sourcePath fileAttributes st).1 = (some .Absent, none) ↔
      fileAttributes.Empty = false ∧ env.isEmpty final = true) ∧
    (¬ (fileAttributes.Empty = false ∧ env.isEmpty final = true) →
      ∃ perm, (ss.targetStateEntryFunc env sourcePath fileAttributes st).1
        = (some (.File final perm), none)) := by
  have hc : ss.renderedContents env sourcePath fileAttributes st = ((final, none), st') := by
    unfold SourceState.renderedContents
    simp only [hread]
    split_ifs at hfinal with ht
    · simp [ht, hfinal]
    · simp [ht, hfinal]
  unfold SourceState.targetStateEntryFunc
  simp only [htype, hc]
  by_cases h : fileAttributes.Empty = false ∧ env.isEmpty final = true
  · simp [h.1, h.2, h]
  · have hcond : (!fileAttributes.Empty && env.isEmpty final) = false := by
      cases he : fileAttributes.Empty <;> cases hi : env.isEmpty final <;> simp_all
    simp [hcond, h]

/-- C9 at an instance: a plain file without contents is `Absent`, and a plain
file of one line is a `File` with that line. -/
theorem targetStateEntryFunc_empty_file_policy_witness :
    ((plainFile "nothing").Type_ = .File ∧
      memSystem.ReadFile "/src/nothing" emptyFS = (([], none), emptyFS)) ∧
    ((freshSS.targetStateEntryFunc (specEnv MemFS) "/src/nothing" (plainFile "nothing")
        emptyFS).1 = (some .Absent, none) ↔
      (plainFile "nothing").Empty = false ∧ (specEnv MemFS).isEmpty [] = true) ∧
    (freshSS.targetStateEntryFunc (specEnv MemFS) "/src/nothing" (plainFile "nothing")
        emptyFS).1 = (some .Absent, none) ∧
    (freshSS.targetStateEntryFunc (specEnv MemFS) "/src/hello" (plainFile "hello")
        emptyFS).1 = (some (.File (bytesOf "hello\n") 0o644), none) :=
  ⟨⟨rfl, rfl⟩,
   (targetStateEntryFunc_empty_file_policy (specEnv MemFS) freshSS "/src/nothing"
      (plainFile "nothing") emptyFS emptyFS [] [] rfl rfl rfl).1,
   rfl, rfl⟩


/-! ## Theorems: `Remove` -/

theorem StringSet.mem_Add (set : StringSet) (element x : String) :
    x ∈ StringSet.Add set element ↔ x ∈ set ∨ x = element := by
  unfold StringSet.Add
  split_ifs with h
  · constructor
    · exact Or.inl
    · rintro (h1 | h1)
      · exact h1
      · rw [h1]; exact h
  · simp

theorem StringSet.nodup_Add (set : StringSet) (element : String) (h : set.Nodup) :
    (StringSet.Add set element).Nodup := by
  unfold StringSet.Add
  split_ifs with hm
  · exact h
  · exact List.Nodup.append h (List.nodup_singleton _) (by simpa using hm)

theorem addMatches_spec {σ P T D : Type} (env : Env σ P T D) (ss : SourceState σ P T)
    (pre : String) (ms : List String) (set : StringSet) :
    (∀ m, m ∈ SourceState.addMatches env ss pre ms set ↔
      m ∈ set ∨ (m ∈ ms ∧ env.Match ss.remove (TrimPrefix m pre) = true)) ∧
    (set.Nodup → (SourceState.addMatches env ss pre ms set).Nodup) := by
  induction ms generalizing set with
  | nil => simp [SourceState.addMatches]
  | cons x xs ih =>
    unfold SourceState.addMatches
    by_cases hx : env.Match ss.remove (TrimPrefix x pre) = true
    · simp only [hx, Bool.not_true, Bool.false_eq_true, if_false]
      obtain ⟨h1, h2⟩ := ih (StringSet.Add set x)
      refine ⟨?_, fun hn => h2 (StringSet.nodup_Add _ _ hn)⟩
      intro m
      rw [h1, StringSet.mem_Add]
      constructor
      · rintro ((h | h) | h)
        · exact Or.inl h
        · subst h; exact Or.inr ⟨by simp, hx⟩
        · exact Or.inr ⟨by simp [h.1], h.2⟩
      · rintro (h | ⟨h, hm⟩)
        · exact Or.inl (Or.inl h)
        · rcases List.mem_cons.1 h with h | h
          · exact Or.inl (Or.inr h)
          · exact Or.inr ⟨h, hm⟩
    · have hx' : env.Match ss.remove (TrimPrefix x pre) = false := by simpa using hx
      simp only [hx', Bool.not_false, if_true]
      obtain ⟨h1, h2⟩ := ih set
      refine ⟨?_, h2⟩
      intro m
      rw [h1]
      constructor
      · rintro (h | h)
        · exact Or.inl h
        · exact Or.inr ⟨by simp [h.1], h.2⟩
      · rintro (h | ⟨h, hm⟩)
        · exact Or.inl h
        · rcases List.mem_cons.1 h with h | h
          · subst h; rw [hx'] at hm; exact absurd hm (by simp)
          · exact Or.inr ⟨h, hm⟩

/-- The first loop of `Remove` on a system that logs its invocations, when no
call of `Glob` fails: one `Glob` is logged for each pattern, and the set holds,
each once, what it held before and the matches that the remove set accepts. -/
theorem collectTargets_traced {σ P T D : Type} (env : Env (σ × List Call) P T D)
    (ss : SourceState (σ × List Call) P T) (s : System σ) (targetDir : String)
    (includes : List String) (set : StringSet) (st : σ) (log : List Call)
    (h : (SourceState.collectTargets env ss s.traced targetDir includes set (st, log)).1.2
      = none) :
    (SourceState.collectTargets env ss s.traced targetDir includes set (st, log)).2
      = (globState s targetDir includes st,
          log ++ includes.map (fun incl => Call.Glob (pathJoin targetDir incl))) ∧
    (∀ m, m ∈ (SourceState.collectTargets env ss s.traced targetDir includes set (st, log)).1.1 ↔
      m ∈ set ∨ (m ∈ globMatches s targetDir includes st ∧
        env.Match ss.remove (TrimPrefix m (targetDir ++ "/")) = true)) ∧
    (set.Nodup →
      (SourceState.collectTargets env ss s.traced targetDir includes set (st, log)).1.1.Nodup) := by
  induction includes generalizing set st log with
  | nil => simp [SourceState.collectTargets, globState, globMatches]
  | cons i is ih =>
    have htr : s.traced.Glob (pathJoin targetDir i) (st, log)
        = ((s.Glob (pathJoin targetDir i) st).1,
            ((s.Glob (pathJoin targetDir i) st).2, log ++ [Call.Glob (pathJoin targetDir i)])) :=
      rfl
    cases hg : (s.Glob (pathJoin targetDir i) st).1.2 with
    | some err =>
      simp [SourceState.collectTargets, htr, hg] at h
    | none =>
      simp only [SourceState.collectTargets, htr, hg] at h ⊢
      obtain ⟨h1, h2, h3⟩ := ih _ _ _ h
      obtain ⟨a1, a2⟩ := addMatches_spec env ss (targetDir ++ "/")
        (s.Glob (pathJoin targetDir i) st).1.1 set
      refine ⟨?_, ?_, ?_⟩
      · rw [h1]
        simp [globState, hg]
      · intro m
        rw [h2, a1]
        simp only [globMatches, hg, List.mem_append]
        tauto
      · intro hn
        exact h3 (a2 hn)


/-- C10, as amended: when every call of `Glob` succeeds, `Remove` calls `Glob`
once for each include pattern of the remove set and then only `RemoveAll`. The
targets are the paths `m` that `Glob` returned for `path.Join(targetDir,
include)` for some include pattern and for which the remove set's `Match`
accepts `m` without the leading `targetDir + "/"`; in strictly increasing
order, so each once. `RemoveAll` is called on an initial part of the targets in
that order, on all of them when `Remove` returns no error and otherwise up to
and including the first target whose removal fails. Among the paths removed a
directory comes before every path beneath it. -/
theorem Remove_removes_matches_in_order {σ P T D : Type} (env : Env (σ × List Call) P T D)
    (ss : SourceState (σ × List Call) P T) (s : System σ) (targetDir : String)
    (st : σ × List Call)
    (hglob : (SourceState.collectTargets env ss s.traced targetDir (env.includes ss.remove)
      NewStringSet st).1.2 = none) :
    ∃ targets : List String,
      targets.Sorted (fun a b => strLt a b = true) ∧
      (∀ m, m ∈ targets ↔
        m ∈ globMatches s targetDir (env.includes ss.remove) st.1 ∧
          env.Match ss.remove (TrimPrefix m (targetDir ++ "/")) = true) ∧
      ∃ removed : List String,
        removed <+: targets ∧
        (ss.Remove env s.traced targetDir st).2.2
          = st.2 ++ (env.includes ss.remove).map (fun incl => Call.Glob (pathJoin targetDir incl))
              ++ removed.map Call.RemoveAll ∧
        ((ss.Remove env s.traced targetDir st).1 = none → removed = targets) ∧
        (∀ err, (ss.Remove env s.traced targetDir st).1 = some err →
          ∃ done failed, removed = done ++ [failed] ∧
            (SourceState.removeEach s done
              (globState s targetDir (env.includes ss.remove) st.1)).1 = none ∧
            (s.RemoveAll failed (SourceState.removeEach s done
              (globState s targetDir (env.includes ss.remove) st.1)).2).1 = some err) ∧
        (∀ d r : String, d ∈ removed → d ++ "/" ++ r ∈ removed → r ≠ "" →
          ∃ l1 l2 l3, removed = l1 ++ d :: (l2 ++ (d ++ "/" ++ r) :: l3)) := by
  obtain ⟨st0, log⟩ := st
  obtain ⟨h1, h2, h3⟩ := collectTargets_traced env ss s targetDir (env.includes ss.remove)
    NewStringSet st0 log hglob
  have hsorted := sortStrings_sorted _ (h3 (by simp [NewStringSet]))
  refine ⟨sortStrings (SourceState.collectTargets env ss s.traced targetDir
    (env.includes ss.remove) NewStringSet (st0, log)).1.1, hsorted, ?_, ?_⟩
  · intro m
    rw [mem_sortStrings, h2]
    simp [NewStringSet]
  · have hrun : ss.Remove env s.traced targetDir (st0, log)
        = SourceState.removeEach s.traced
            (sortStrings (SourceState.collectTargets env ss s.traced targetDir
              (env.includes ss.remove) NewStringSet (st0, log)).1.1)
            (globState s targetDir (env.includes ss.remove) st0,
              log ++ (env.includes ss.remove).map
                (fun incl => Call.Glob (pathJoin targetDir incl))) := by
      unfold SourceState.Remove
      simp only [hglob, StringSet.Elements]
      rw [h1]
    obtain ⟨removed, r1, r2, r3, r4⟩ := removeEach_traced s
      (sortStrings (SourceState.collectTargets env ss s.traced targetDir
        (env.includes ss.remove) NewStringSet (st0, log)).1.1)
      (globState s targetDir (env.includes ss.remove) st0)
      (log ++ (env.includes ss.remove).map (fun incl => Call.Glob (pathJoin targetDir incl)))
    refine ⟨removed, r2, ?_, ?_, ?_, ?_⟩
    · rw [hrun, r1]
    · intro hn
      rw [hrun, r1] at hn
      exact r3 hn
    · intro err herr
      rw [hrun, r1] at herr
      exact r4 err herr
    · intro d r hd hc _
      have hlt : strLt d (d ++ "/" ++ r) = true := by
        rw [String.append_assoc]
        exact strLt_append d ("/" ++ r) (by
          intro h
          have := congrArg String.length h
          simp only [String.length_append] at this
          have h1 : "/".length = 1 := by decide
          have h0 : "".length = 0 := by decide
          omega)
      obtain ⟨t, ht⟩ := r2
      have hsr : removed.Sorted (fun a b => strLt a b = true) := by
        have : (removed ++ t).Sorted (fun a b => strLt a b = true) := by
          rw [ht]; exact hsorted
        exact (List.pairwise_append.1 this).1
      exact sorted_before hsr hd hc hlt

/-- C10 as stated fails: the target directory holds `a`, `a/c`, `b`
and `d`, the remove set accepts `a`, `a/c` and `d`, every call of `Glob`
succeeds, and the file system refuses to remove `a`. `Remove` returns the
error of `RemoveAll` on `/home/user/a` and never calls `RemoveAll` on
`/home/user/d`, a match the remove set accepts, which stays where it is. -/
theorem Remove_stops_at_failed_RemoveAll :
    (SourceState.collectTargets (specEnv (MemFS × List Call)) (removeSS memSystem.traced)
        memSystem.traced "/home/user" ((specEnv (MemFS × List Call)).includes
          (removeSS memSystem.traced).remove) NewStringSet
        (removeFS ["/home/user/a"], [])).1
      = (["/home/user/d", "/home/user/a/c", "/home/user/a"], none) ∧
    (specEnv (MemFS × List Call)).Match (removeSS memSystem.traced).remove
        (TrimPrefix "/home/user/d" ("/home/user" ++ "/")) = true ∧
    ((removeSS memSystem.traced).Remove (specEnv (MemFS × List Call)) memSystem.traced
        "/home/user" (removeFS ["/home/user/a"], [])).1 = some errPermission ∧
    ((removeSS memSystem.traced).Remove (specEnv (MemFS × List Call)) memSystem.traced
        "/home/user" (removeFS ["/home/user/a"], [])).2.2
      = [Call.Glob "/home/user/d", Call.Glob "/home/user/a/c", Call.Glob "/home/user/b",
         Call.Glob "/home/user/a", Call.RemoveAll "/home/user/a"] ∧
    Call.RemoveAll "/home/user/d"
      ∉ ((removeSS memSystem.traced).Remove (specEnv (MemFS × List Call)) memSystem.traced
          "/home/user" (removeFS ["/home/user/a"], [])).2.2 ∧
    (((removeSS memSystem.traced).Remove (specEnv (MemFS × List Call)) memSystem.traced
        "/home/user" (removeFS ["/home/user/a"], [])).2.1.find "/home/user/d").isSome = true := by
  refine ⟨rfl, by decide, rfl, by decide, by decide, by decide⟩

/-- C10 at an instance, on the same directory when nothing is locked: `a`,
`a/c` and `d` are removed in this order, each once, and `b`, which the
pattern `!b` excludes, is kept. -/
theorem Remove_removes_matches_in_order_witness :
    (SourceState.collectTargets (specEnv (MemFS × List Call)) (removeSS memSystem.traced)
        memSystem.traced "/home/user" ((specEnv (MemFS × List Call)).includes
          (removeSS memSystem.traced).remove) NewStringSet (removeFS [], [])).1.2 = none ∧
    ((removeSS memSystem.traced).Remove (specEnv (MemFS × List Call)) memSystem.traced
        "/home/user" (removeFS [], [])).2.2
      = [Call.Glob "/home/user/d", Call.Glob "/home/user/a/c", Call.Glob "/home/user/b",
         Call.Glob "/home/user/a", Call.RemoveAll "/home/user/a",
         Call.RemoveAll "/home/user/a/c", Call.RemoveAll "/home/user/d"] ∧
    (∃ targets : List String,
      targets.Sorted (fun a b => strLt a b = true) ∧
      (∀ m, m ∈ targets ↔
        m ∈ globMatches memSystem "/home/user" ((specEnv (MemFS × List Call)).includes
            (removeSS memSystem.traced).remove) (removeFS []) ∧
          (specEnv (MemFS × List Call)).Match (removeSS memSystem.traced).remove
            (TrimPrefix m ("/home/user" ++ "/")) = true)) := by
  refine ⟨rfl, by decide, ?_⟩
  obtain ⟨targets, h1, h2, _⟩ := Remove_removes_matches_in_order (specEnv (MemFS × List Call))
    (removeSS memSystem.traced) memSystem "/home/user" (removeFS [], []) rfl
  exact ⟨targets, h1, h2⟩

/-! ## Theorems: `addPatterns` -/

theorem TrimPrefix_bang (text : String) (h : HasPrefix text "!" = true) :
    TrimPrefix text "!" = String.mk (text.data.drop 1) := by
  simp [TrimPrefix, h]

/-- The loop of `addPatterns` over the lines is `addEach` over the patterns
the lines stand for. -/
theorem addPatternLines_eq_addEach {σ P T D : Type} (env : Env σ P T D) (path dir : String)
    (lines : List String) (ps : P) :
    SourceState.addPatternLines env path dir lines ps
      = addEach env.Add path (patternsOfLines dir lines) ps := by
  induction lines generalizing ps with
  | nil => rfl
  | cons line lines ih =>
    unfold SourceState.addPatternLines patternsOfLines
    by_cases h : TrimSpace (stripComment line) = ""
    · simp only [h, if_true, List.filterMap_cons, patternOfLine]
      exact ih ps
    · by_cases hb : HasPrefix (TrimSpace (stripComment line)) "!" = true
      · simp only [h, hb, if_false, if_true, List.filterMap_cons, patternOfLine, addEach,
          TrimPrefix_bang _ hb, Bool.not_true]
        cases (env.Add ps (pathJoin dir (String.mk ((TrimSpace (stripComment line)).data.drop 1)))
          false).2 with
        | some err => rfl
        | none => exact ih _
      · have hb' : HasPrefix (TrimSpace (stripComment line)) "!" = false := by simpa using hb
        simp only [h, hb', if_false, List.filterMap_cons, patternOfLine, addEach,
          Bool.not_false, Bool.false_eq_true]
        cases (env.Add ps (pathJoin dir (TrimSpace (stripComment line))) true).2 with
        | some err => rfl
        | none => exact ih _

/-- The loop `addEach` with a recording `Add`: the patterns recorded are
those up to and including the first one that `Add` rejects, and the result
is that of the loop without the record. -/
theorem addEach_recorded {P : Type} (add : P → String → Bool → P × Option Error)
    (path : String) (patterns : List (String × Bool)) (ps : P) (log : List (String × Bool)) :
    ∃ added : List (String × Bool),
      addEach (recordedAdd add) path patterns (ps, log)
        = (((addEach add path patterns ps).1, log ++ added), (addEach add path patterns ps).2) ∧
      added <+: patterns ∧
      ((addEach add path patterns ps).2 = none → added = patterns) ∧
      (∀ err, (addEach add path patterns ps).2 = some err →
        ∃ done rejected cause, added = done ++ [rejected] ∧
          (addEach add path done ps).2 = none ∧
          (add (addEach add path done ps).1 rejected.1 rejected.2).2 = some cause ∧
          err = .wrapped path cause) := by
  induction patterns generalizing ps log with
  | nil => exact ⟨[], by simp [addEach], List.prefix_refl _, fun _ => rfl, by simp [addEach]⟩
  | cons p patterns ih =>
    cases hf : (add ps p.1 p.2).2 with
    | some e =>
      refine ⟨[p], ?_, ⟨patterns, rfl⟩, ?_, ?_⟩
      · simp [addEach, recordedAdd, hf]
      · simp [addEach, hf]
      · intro err herr
        refine ⟨[], p, e, rfl, rfl, hf, ?_⟩
        simp only [addEach, hf] at herr
        cases herr
        rfl
    | none =>
      obtain ⟨added, h1, h2, h3, h4⟩ := ih (add ps p.1 p.2).1 (log ++ [p])
      refine ⟨p :: added, ?_, ?_, ?_, ?_⟩
      · simp only [addEach, recordedAdd, hf]
        rw [h1]
        simp
      · obtain ⟨t, ht⟩ := h2
        exact ⟨t, by simp [← ht]⟩
      · intro h
        simp only [addEach, hf] at h
        rw [h3 h]
      · intro err herr
        simp only [addEach, hf] at herr
        obtain ⟨done, rejected, cause, hc, hd, hrej, herr'⟩ := h4 err herr
        refine ⟨p :: done, rejected, cause, by simp [hc], ?_, ?_, herr'⟩
        · simpa only [addEach, hf] using hd
        · simpa only [addEach, hf] using hrej

theorem splitChars_ne_nil (sep : Char) (l : List Char) : splitChars sep l ≠ [] := by
  cases l with
  | nil => simp [splitChars]
  | cons c rest =>
    unfold splitChars
    split
    · simp
    · split <;> simp

/-- Splitting at the first separator. -/
theorem splitChars_append_sep (sep : Char) (l rest : List Char) (h : sep ∉ l) :
    splitChars sep (l ++ sep :: rest) = l :: splitChars sep rest := by
  induction l with
  | nil =>
    simp only [List.nil_append]
    rw [splitChars]
    split
    · rename_i heq
      exact absurd heq (splitChars_ne_nil sep rest)
    · rename_i piece pieces heq
      simp [heq]
  | cons c l ih =>
    have hc : c ≠ sep := fun e => h (by simp [e])
    have hl : sep ∉ l := fun e => h (by simp [e])
    simp only [List.cons_append]
    rw [splitChars, ih hl]
    simp [hc]

/-- The scanner over the pieces between the newlines: its tokens are the lines
before the first line that does not fit the buffer, each without a trailing
carriage return, and its error is `ErrTooLong` when there is such a line. -/
theorem scanPieces_eq (pieces : List (List Char)) :
    scanPieces pieces
      = ((((if pieces.getLast? = some [] then pieces.dropLast else pieces).takeWhile
            (fun l => decide (l.length < MaxScanTokenSize))).map (fun l => String.mk (dropCR l))),
         if ∀ l ∈ (if pieces.getLast? = some [] then pieces.dropLast else pieces),
              l.length < MaxScanTokenSize
         then none else some (.msg "bufio.Scanner: token too long")) := by
  induction pieces with
  | nil => simp [scanPieces]
  | cons p ps ih =>
    cases ps with
    | nil =>
      by_cases hlong : MaxScanTokenSize ≤ p.length
      · have hne : p ≠ [] := by
          intro h; rw [h] at hlong; simp [MaxScanTokenSize] at hlong
        have hnot : ¬ p.length < MaxScanTokenSize := by omega
        simp [scanPieces, hlong, hne, hnot]
      · have hshort : p.length < MaxScanTokenSize := by omega
        by_cases he : p = []
        · subst he
          simp [scanPieces, MaxScanTokenSize]
        · simp [scanPieces, hlong, he, hshort]
    | cons q qs =>
      have hlast : (p :: q :: qs).getLast? = (q :: qs).getLast? := by simp [List.getLast?_cons_cons]
      have hdrop : (p :: q :: qs).dropLast = p :: (q :: qs).dropLast := by simp
      have hlines : (if (p :: q :: qs).getLast? = some [] then (p :: q :: qs).dropLast
            else p :: q :: qs)
          = p :: (if (q :: qs).getLast? = some [] then (q :: qs).dropLast else q :: qs) := by
        rw [hlast, hdrop]
        split <;> rfl
      rw [hlines]
      by_cases hlong : MaxScanTokenSize ≤ p.length
      · have hnot : ¬ p.length < MaxScanTokenSize := by omega
        simp [scanPieces, hlong, hnot]
      · have hshort : p.length < MaxScanTokenSize := by omega
        rw [scanPieces]
        simp only [hlong, if_false]
        rw [ih]
        simp only [List.takeWhile_cons, hshort, decide_True, if_true, List.map_cons,
          List.forall_mem_cons, true_and]
        all_goals simp

/-- The lines the scanner yields are the lines of the text before the first
line of `MaxScanTokenSize` bytes or more; without such a line there is no
error, and with one the error is `ErrTooLong`. -/
theorem scanLines_eq (data : Bytes) :
    scanLines data
      = (((textLines data).takeWhile (fun l => decide (l.length < MaxScanTokenSize))).map
            (fun l => String.mk (dropCR l)),
         if ∀ l ∈ textLines data, l.length < MaxScanTokenSize
         then none else some (.msg "bufio.Scanner: token too long")) :=
  scanPieces_eq _

/-- The lines of the text `longLineText n`. -/
theorem textLines_longLineText (n : Nat) :
    textLines (longLineText n) = [List.replicate n 'a', ['f', 'o', 'o']] := by
  have hdata : (stringOf (longLineText n)).data
      = List.replicate n 'a' ++ Char.ofNat 10 :: ['f', 'o', 'o', Char.ofNat 10] := by
    have h1 : (bytesOf "\nfoo\n").map (fun b => Char.ofNat b.val)
        = Char.ofNat 10 :: ['f', 'o', 'o', Char.ofNat 10] := by decide
    have h2 : Char.ofNat (97 : Fin 256).val = 'a' := by decide
    simp only [stringOf, longLineText, List.map_append, List.map_replicate, h1, h2]
  have hsep : Char.ofNat 10 ∉ List.replicate n 'a' := by
    intro h
    have := (List.mem_replicate.1 h).2
    exact absurd this (by decide)
  have htail : splitChars (Char.ofNat 10) ['f', 'o', 'o', Char.ofNat 10] = [['f', 'o', 'o'], []] := by
    decide
  unfold textLines
  simp only [hdata, splitChars_append_sep _ _ _ hsep, htail]
  simp

/-- The scanner on a text whose first line does not fit the buffer yields no
line and stops with `ErrTooLong`. -/
theorem scanLines_longLineText (n : Nat) (h : MaxScanTokenSize ≤ n) :
    scanLines (longLineText n) = ([], some (.msg "bufio.Scanner: token too long")) := by
  have hnot : ¬ n < MaxScanTokenSize := by omega
  rw [scanLines_eq, textLines_longLineText]
  simp [hnot]

/-- When the scanner yields no line and stops with an error, `addPatterns`
leaves the pattern set as it is and returns that error wrapped with the path
of the file. -/
theorem addPatterns_of_no_line {σ P T D : Type} (env : Env σ P T D) (ss : SourceState σ P T)
    (src : SourceDir) (ps : P) (path relPath : String) (data : Bytes) (cause : Error)
    (hrender : ss.executeTemplate env src path = (data, none))
    (hscan : scanLines data = ([], some cause)) :
    ss.addPatterns env src ps path relPath = (ps, some (.wrapped path cause)) := by
  unfold SourceState.addPatterns
  simp only [hrender, hscan, SourceState.addPatternLines]

/-- C11, as amended: for a pattern file that renders without error, let the
lines scanned be the lines of the rendered text before the first line of
`MaxScanTokenSize` (65536) bytes or more, each without a trailing carriage
return. `addPatterns` calls `Add` on the patterns these lines stand for, one
for each line that `patternOfLine` does not skip, in line order: on an initial
part of them, and on all of them when it returns no error. It returns no
error exactly when `Add` rejects none of these patterns and no line has 65536
bytes or more. When it returns an error, either the last pattern added is the
first one `Add` rejected and the error wraps the error of `Add` with the path
of the file, or `Add` rejected none, the patterns of all lines scanned were
added, some line has 65536 bytes or more, and the error wraps the scanner's
`ErrTooLong` with the path of the file. -/
theorem addPatterns_adds_one_pattern_per_line {σ P T D : Type} (env : Env σ P T D)
    (ss : SourceState σ (P × List (String × Bool)) T) (src : SourceDir) (ps : P)
    (log : List (String × Bool)) (path relPath : String) (data : Bytes)
    (hrender : ss.executeTemplate env.recordingAdd src path = (data, none)) :
    ∀ lines : List String,
    lines = ((textLines data).takeWhile (fun l => decide (l.length < MaxScanTokenSize))).map
      (fun l => String.mk (dropCR l)) →
    ∃ added : List (String × Bool),
      (ss.addPatterns env.recordingAdd src (ps, log) path relPath).1.2 = log ++ added ∧
      added <+: patternsOfLines (filepathDir relPath) lines ∧
      ((ss.addPatterns env.recordingAdd src (ps, log) path relPath).2 = none ↔
        (addEach env.Add path (patternsOfLines (filepathDir relPath) lines) ps).2 = none ∧
        ∀ l ∈ textLines data, l.length < MaxScanTokenSize) ∧
      ((ss.addPatterns env.recordingAdd src (ps, log) path relPath).2 = none →
        added = patternsOfLines (filepathDir relPath) lines) ∧
      (∀ err, (ss.addPatterns env.recordingAdd src (ps, log) path relPath).2 = some err →
        (∃ done rejected cause, added = done ++ [rejected] ∧
          (addEach env.Add path done ps).2 = none ∧
          (env.Add (addEach env.Add path done ps).1 rejected.1 rejected.2).2 = some cause ∧
          err = .wrapped path cause) ∨
        (added = patternsOfLines (filepathDir relPath) lines ∧
          (addEach env.Add path added ps).2 = none ∧
          (∃ l ∈ textLines data, MaxScanTokenSize ≤ l.length) ∧
          err = .wrapped path (.msg "bufio.Scanner: token too long"))) := by
  intro lines hlines
  have hs1 : (scanLines data).1 = lines := by rw [scanLines_eq, hlines]
  have hs2 : (scanLines data).2
      = if ∀ l ∈ textLines data, l.length < MaxScanTokenSize
        then none else some (.msg "bufio.Scanner: token too long") := by rw [scanLines_eq]
  obtain ⟨added, h1, h2, h3, h4⟩ := addEach_recorded env.Add path
    (patternsOfLines (filepathDir relPath) lines) ps log
  have hrun : SourceState.addPatternLines env.recordingAdd path (filepathDir relPath)
      (scanLines data).1 (ps, log)
      = (((addEach env.Add path (patternsOfLines (filepathDir relPath) lines) ps).1,
          log ++ added),
         (addEach env.Add path (patternsOfLines (filepathDir relPath) lines) ps).2) := by
    rw [addPatternLines_eq_addEach, hs1]
    exact h1
  have hres : ss.addPatterns env.recordingAdd src (ps, log) path relPath
      = (((addEach env.Add path (patternsOfLines (filepathDir relPath) lines) ps).1,
          log ++ added),
         match (addEach env.Add path (patternsOfLines (filepathDir relPath) lines) ps).2,
            (scanLines data).2 with
         | some err, _ => some err
         | none, some err => some (.wrapped path err)
         | none, none => none) := by
    unfold SourceState.addPatterns
    simp only [hrender, hrun]
    cases (addEach env.Add path (patternsOfLines (filepathDir relPath) lines) ps).2
      <;> cases (scanLines data).2 <;> rfl
  rw [hres, hs2]
  refine ⟨added, rfl, h2, ?_, ?_, ?_⟩
  · cases ha : (addEach env.Add path (patternsOfLines (filepathDir relPath) lines) ps).2 with
    | some e => simp
    | none =>
      by_cases hall : ∀ l ∈ textLines data, l.length < MaxScanTokenSize
      · rw [if_pos hall]
        exact ⟨fun _ => ⟨rfl, hall⟩, fun _ => rfl⟩
      · rw [if_neg hall]
        exact ⟨fun h => by simp at h, fun h => absurd h.2 hall⟩
  · cases ha : (addEach env.Add path (patternsOfLines (filepathDir relPath) lines) ps).2 with
    | some e => simp
    | none => intro _; exact h3 ha
  · intro err
    cases ha : (addEach env.Add path (patternsOfLines (filepathDir relPath) lines) ps).2 with
    | some e =>
      intro herr
      simp only [Option.some.injEq] at herr
      subst herr
      obtain ⟨done, rejected, cause, hc, hd, hrej, hw⟩ := h4 e ha
      exact Or.inl ⟨done, rejected, cause, hc, hd, hrej, hw⟩
    | none =>
      by_cases hall : ∀ l ∈ textLines data, l.length < MaxScanTokenSize
      · rw [if_pos hall]
        intro herr
        simp at herr
      · rw [if_neg hall]
        intro herr
        simp only [Option.some.injEq] at herr
        subst herr
        have hadd := h3 ha
        refine Or.inr ⟨hadd, by rw [hadd]; exact ha, ?_, rfl⟩
        by_contra hno
        apply hall
        intro l hl
        by_contra hlt
        exact hno ⟨l, hl, by omega⟩

/-- C11 as stated fails: the rendered remove file of `longLineSrc` has a first
line of 65536 letters `a` and the second line `foo`, which is not empty after
stripping and stands for the include `dir/foo`. The scanner stops at the first
line, so `addPatterns` adds no pattern at all, and it returns the scanner's
error wrapped with the path of the file although `Add` rejected nothing. -/
theorem addPatterns_stops_at_long_line :
    recordingSS.executeTemplate (specEnv MemFS).recordingAdd longLineSrc "/src/dir/.chezmoiremove"
      = (longLineText 65536, none) ∧
    longLineText 65536 = List.replicate 65536 (97 : Fin 256) ++ bytesOf "\nfoo\n" ∧
    textLines (longLineText 65536) = [List.replicate 65536 'a', ['f', 'o', 'o']] ∧
    TrimSpace (stripComment "foo") = "foo" ∧
    patternOfLine (filepathDir "dir/") "foo" = some ("dir/foo", true) ∧
    scanLines (longLineText 65536) = ([], some (.msg "bufio.Scanner: token too long")) ∧
    (recordingSS.addPatterns (specEnv MemFS).recordingAdd longLineSrc (NewPatternSet, [])
        "/src/dir/.chezmoiremove" "dir/").1.2 = [] ∧
    (recordingSS.addPatterns (specEnv MemFS).recordingAdd longLineSrc (NewPatternSet, [])
        "/src/dir/.chezmoiremove" "dir/").2
      = some (.wrapped "/src/dir/.chezmoiremove" (.msg "bufio.Scanner: token too long")) := by
  have hrender : recordingSS.executeTemplate (specEnv MemFS).recordingAdd longLineSrc
      "/src/dir/.chezmoiremove" = (longLineText 65536, none) := rfl
  have hscan : scanLines (longLineText 65536)
      = ([], some (.msg "bufio.Scanner: token too long")) :=
    scanLines_longLineText 65536 (by decide)
  have hrun : recordingSS.addPatterns (specEnv MemFS).recordingAdd longLineSrc (NewPatternSet, [])
      "/src/dir/.chezmoiremove" "dir/"
      = ((NewPatternSet, []),
         some (.wrapped "/src/dir/.chezmoiremove" (.msg "bufio.Scanner: token too long"))) :=
    addPatterns_of_no_line _ _ _ _ _ _ _ _ hrender hscan
  refine ⟨hrender, rfl, textLines_longLineText 65536, by decide, by decide, hscan, ?_, ?_⟩
  · rw [hrun]
  · rw [hrun]

/-- C11 at an instance: the remove file of `patternSrc` in the directory `dir`
has a comment line, a blank line, the line `*.bak` with a trailing comment and
the line `!keep.bak`; `addPatterns` adds the include `dir/*.bak` and then the
exclude `dir/keep.bak`, and returns no error. -/
theorem addPatterns_adds_one_pattern_per_line_witness :
    recordingSS.executeTemplate (specEnv MemFS).recordingAdd patternSrc "/src/dir/.chezmoiremove"
      = (bytesOf "# stale files\n\n  *.bak  # backups\n!keep.bak\n", none) ∧
    ["# stale files", "", "  *.bak  # backups", "!keep.bak"]
      = ((textLines (bytesOf "# stale files\n\n  *.bak  # backups\n!keep.bak\n")).takeWhile
          (fun l => decide (l.length < MaxScanTokenSize))).map (fun l => String.mk (dropCR l)) ∧
    (recordingSS.addPatterns (specEnv MemFS).recordingAdd patternSrc (NewPatternSet, [])
        "/src/dir/.chezmoiremove" "dir/").1.2
      = [("dir/*.bak", true), ("dir/keep.bak", false)] ∧
    (∃ added : List (String × Bool),
      (recordingSS.addPatterns (specEnv MemFS).recordingAdd patternSrc (NewPatternSet, [])
          "/src/dir/.chezmoiremove" "dir/").1.2 = [] ++ added ∧
      added <+: patternsOfLines (filepathDir "dir/")
        ["# stale files", "", "  *.bak  # backups", "!keep.bak"]) := by
  refine ⟨rfl, by decide, by decide, ?_⟩
  obtain ⟨added, h1, h2, _⟩ := addPatterns_adds_one_pattern_per_line (specEnv MemFS)
    recordingSS patternSrc NewPatternSet [] "/src/dir/.chezmoiremove" "dir/"
    (bytesOf "# stale files\n\n  *.bak  # backups\n!keep.bak\n") rfl
    ["# stale files", "", "  *.bak  # backups", "!keep.bak"] (by decide)
  exact ⟨added, h1, h2⟩

/-! ## Theorems: permission bits -/

/-- Clearing bits keeps cleared bits cleared. -/
theorem bitClear_and_eq_zero (x y z : Nat) (h : x &&& z = 0) : bitClear x y &&& z = 0 := by
  apply Nat.eq_of_testBit_eq
  intro i
  have hi := congrArg (fun n => n.testBit i) h
  simp only [Nat.testBit_and, Nat.zero_testBit] at hi
  simp only [bitClear, Nat.testBit_and, Nat.testBit_xor, Nat.zero_testBit]
  cases hx : x.testBit i <;> cases hy : y.testBit i <;> cases hz : z.testBit i <;> simp_all

/-- The bits cleared are not set. -/
theorem bitClear_and_self (x y : Nat) : bitClear x y &&& y = 0 := by
  apply Nat.eq_of_testBit_eq
  intro i
  simp only [bitClear, Nat.testBit_and, Nat.testBit_xor, Nat.zero_testBit]
  cases hx : x.testBit i <;> cases hy : y.testBit i <;> simp

/-- C12: the permission of the target directory is `0o777`, without `0o77`
when `Private` is set, without the bits of the umask; the permission of a
target file is `0o666`, with `0o111` when `Executable` is set, without `0o77`
when `Private` is set, without the bits of the umask. With `Private` set
neither has a group or other bit, whatever the umask and whether or not
`Executable` is set. -/
theorem private_permissions_have_no_group_or_other_bits {σ P T D : Type} (env : Env σ P T D)
    (ss : SourceState σ P T) (sourcePath : String) :
    (∀ dirAttributes : DirAttributes,
      ss.newSourceStateDir sourcePath dirAttributes
        = .Dir sourcePath dirAttributes
            (.Dir (bitClear (if dirAttributes.Private = true then bitClear 0o777 0o77 else 0o777)
              ss.umask) dirAttributes.Exact) ∧
      (dirAttributes.Private = true →
        bitClear (if dirAttributes.Private = true then bitClear 0o777 0o77 else 0o777) ss.umask
          &&& 0o77 = 0)) ∧
    (∀ (fileAttributes : FileAttributes) (st : σ) (contents : Bytes) (perm : FileMode),
      (ss.targetStateEntryFunc env sourcePath fileAttributes st).1.1
          = some (.File contents perm) →
        perm = bitClear
          (if fileAttributes.Private = true
            then bitClear (if fileAttributes.Executable = true then 0o666 ||| 0o111 else 0o666) 0o77
            else (if fileAttributes.Executable = true then 0o666 ||| 0o111 else 0o666))
          ss.umask ∧
        (fileAttributes.Private = true → perm &&& 0o77 = 0)) := by
  constructor
  · intro dirAttributes
    refine ⟨rfl, ?_⟩
    intro hp
    rw [if_pos hp]
    exact bitClear_and_eq_zero _ _ _ (by decide)
  · intro fileAttributes st contents perm h
    have hperm : perm = bitClear
        (if fileAttributes.Private = true
          then bitClear (if fileAttributes.Executable = true then 0o666 ||| 0o111 else 0o666) 0o77
          else (if fileAttributes.Executable = true then 0o666 ||| 0o111 else 0o666))
        ss.umask := by
      unfold SourceState.targetStateEntryFunc at h
      cases ht : fileAttributes.Type_ with
      | File =>
        simp only [ht] at h
        cases hc : (ss.renderedContents env sourcePath fileAttributes st).1.2 with
        | some err => simp [hc] at h
        | none =>
          simp only [hc] at h
          split at h
          · simp at h
          · simp only [Option.some.injEq, TargetStateEntry.File.injEq] at h
            exact h.2.symm
      | Script =>
        simp only [ht] at h
        cases hc : (ss.renderedContents env sourcePath fileAttributes st).1.2 with
        | some err => simp [hc] at h
        | none => simp [hc] at h
      | Symlink =>
        simp only [ht] at h
        cases hc : (ss.renderedContents env sourcePath fileAttributes st).1.2 with
        | some err => simp [hc] at h
        | none => simp [hc] at h
    refine ⟨hperm, ?_⟩
    intro hp
    rw [hperm, if_pos hp]
    apply bitClear_and_eq_zero
    exact bitClear_and_self _ _

/-- C12 at an instance: with the umask `0o22`, the private executable file
`/src/hello` of `emptyFS` has the permission `0o700`. -/
theorem private_permissions_have_no_group_or_other_bits_witness :
    (freshSS.targetStateEntryFunc (specEnv MemFS) "/src/hello"
        { plainFile "hello" with Private := true, Executable := true } emptyFS).1.1
      = some (.File (bytesOf "hello\n") 0o700) ∧
    (0o700 = bitClear (bitClear (0o666 ||| 0o111) 0o77) 0o22 ∧ 0o700 &&& 0o77 = 0) :=
  ⟨rfl,
   ⟨by decide,
    ((private_permissions_have_no_group_or_other_bits (specEnv MemFS) freshSS "/src/hello").2
      { plainFile "hello" with Private := true, Executable := true } emptyFS
      (bytesOf "hello\n") 0o700 rfl).2 rfl⟩⟩

/-! ## Theorems: `WriteFile` -/

/-- What `WriteFile` does on file operations that log their calls, case by
case: the result, the state of the world and the calls made. -/
theorem WriteFile_traced {σ F : Type} (fs : FileOps σ F) (filename : String) (data : Bytes)
    (perm : FileMode) (st : σ) (log : List (FileCall F)) :
    (∀ err, (fs.OpenFile filename (O_WRONLY ||| O_CREATE ||| O_TRUNC) perm st).1.2 = some err →
      WriteFile fs.traced filename data perm (st, log)
        = (some err, ((fs.OpenFile filename (O_WRONLY ||| O_CREATE ||| O_TRUNC) perm st).2,
            log ++ [.OpenFile filename (O_WRONLY ||| O_CREATE ||| O_TRUNC) perm]))) ∧
    (∀ (f : F) (st1 : σ),
      fs.OpenFile filename (O_WRONLY ||| O_CREATE ||| O_TRUNC) perm st = ((f, none), st1) →
      (∀ err, (fs.Chmod f perm st1).1 = some err →
        WriteFile fs.traced filename data perm (st, log)
          = (some err, ((fs.Close f (fs.Chmod f perm st1).2).2,
              log ++ [.OpenFile filename (O_WRONLY ||| O_CREATE ||| O_TRUNC) perm,
                .Chmod f perm, .Close f]))) ∧
      ((fs.Chmod f perm st1).1 = none →
        (∀ err, (fs.Write f data (fs.Chmod f perm st1).2).1.2 = some err →
          WriteFile fs.traced filename data perm (st, log)
            = (some err,
                ((fs.Close f (fs.Write f data (fs.Chmod f perm st1).2).2).2,
                  log ++ [.OpenFile filename (O_WRONLY ||| O_CREATE ||| O_TRUNC) perm,
                    .Chmod f perm, .Write f data, .Close f]))) ∧
        ((fs.Write f data (fs.Chmod f perm st1).2).1.2 = none →
          WriteFile fs.traced filename data perm (st, log)
            = ((fs.Close f (fs.Write f data (fs.Chmod f perm st1).2).2).1,
                ((fs.Close f (fs.Write f data (fs.Chmod f perm st1).2).2).2,
                  log ++ [.OpenFile filename (O_WRONLY ||| O_CREATE ||| O_TRUNC) perm,
                    .Chmod f perm, .Write f data, .Close f]))))) := by
  refine ⟨?_, ?_⟩
  · intro err h
    simp [WriteFile, FileOps.traced, h]
  · intro f st1 hopen
    refine ⟨?_, ?_⟩
    · intro err h
      simp [WriteFile, FileOps.traced, hopen, h]
    · intro hc
      refine ⟨?_, ?_⟩
      · intro err h
        simp [WriteFile, FileOps.traced, hopen, hc, h]
      · intro h
        simp [WriteFile, FileOps.traced, hopen, hc, h]

/-- C13 as stated fails: `WriteFile` of three bytes with the permission `0o600`
over the file `/home/secret` of mode `0o644` succeeds with four calls,
`OpenFile`, `Chmod`, `Write` and `Close`: the only `Chmod` comes before the
`Write`, and after the `Write` nothing sets the permission bits. -/
theorem WriteFile_sets_permissions_once :
    WriteFile memFileOps.traced "/home/secret" (bytesOf "new") 0o600 (secretFS, [])
      = (none,
         ({ entries := [memDir "/home",
              { path := "/home/secret", mode := 0o600, data := bytesOf "new" }],
            locked := [] },
          [.OpenFile "/home/secret" (O_WRONLY ||| O_CREATE ||| O_TRUNC) 0o600,
           .Chmod "/home/secret" 0o600, .Write "/home/secret" (bytesOf "new"),
           .Close "/home/secret"])) ∧
    ((WriteFile memFileOps.traced "/home/secret" (bytesOf "new") 0o600
        (secretFS, [])).2.2.filter FileCall.isChmod).length = 1 ∧
    ((WriteFile memFileOps.traced "/home/secret" (bytesOf "new") 0o600
        (secretFS, [])).2.2.dropWhile (fun c => c ≠ .Write "/home/secret" (bytesOf "new")))
      = [.Write "/home/secret" (bytesOf "new"), .Close "/home/secret"] := by
  refine ⟨rfl, by decide, by decide⟩

/-- C13, as amended: every successful `WriteFile` makes exactly four calls, in
this order: `OpenFile` with the flags of truncate and create and with `perm`,
`Chmod(perm)` on the file opened, `Write` of the data, and `Close`. The
permission bits are set by that one `Chmod`, before the data is written, and
are not set again after it. -/
theorem WriteFile_success_is_open_chmod_write_close {σ F : Type} (fs : FileOps σ F)
    (filename : String) (data : Bytes) (perm : FileMode) (st : σ) (log : List (FileCall F))
    (hok : (WriteFile fs.traced filename data perm (st, log)).1 = none) :
    ∃ f : F,
      (WriteFile fs.traced filename data perm (st, log)).2.2
        = log ++ [.OpenFile filename (O_WRONLY ||| O_CREATE ||| O_TRUNC) perm,
            .Chmod f perm, .Write f data, .Close f] := by
  obtain ⟨h1, h2⟩ := WriteFile_traced fs filename data perm st log
  cases ho : (fs.OpenFile filename (O_WRONLY ||| O_CREATE ||| O_TRUNC) perm st).1.2 with
  | some err =>
    rw [h1 err ho] at hok
    exact absurd hok (by simp)
  | none =>
    have hopen : fs.OpenFile filename (O_WRONLY ||| O_CREATE ||| O_TRUNC) perm st
        = (((fs.OpenFile filename (O_WRONLY ||| O_CREATE ||| O_TRUNC) perm st).1.1, none),
            (fs.OpenFile filename (O_WRONLY ||| O_CREATE ||| O_TRUNC) perm st).2) := by
      rw [← ho]
    obtain ⟨h3, h4⟩ := h2 _ _ hopen
    refine ⟨(fs.OpenFile filename (O_WRONLY ||| O_CREATE ||| O_TRUNC) perm st).1.1, ?_⟩
    cases hc : (fs.Chmod (fs.OpenFile filename (O_WRONLY ||| O_CREATE ||| O_TRUNC) perm st).1.1
        perm (fs.OpenFile filename (O_WRONLY ||| O_CREATE ||| O_TRUNC) perm st).2).1 with
    | some err =>
      rw [h3 err hc] at hok
      exact absurd hok (by simp)
    | none =>
      obtain ⟨h5, h6⟩ := h4 hc
      cases hw : (fs.Write (fs.OpenFile filename (O_WRONLY ||| O_CREATE ||| O_TRUNC) perm st).1.1
          data (fs.Chmod (fs.OpenFile filename (O_WRONLY ||| O_CREATE ||| O_TRUNC) perm st).1.1
            perm (fs.OpenFile filename (O_WRONLY ||| O_CREATE ||| O_TRUNC) perm st).2).2).1.2 with
      | some err =>
        rw [h5 err hw] at hok
        exact absurd hok (by simp)
      | none => rw [h6 hw]

/-- C13 at an instance: the successful write over `/home/secret`. -/
theorem WriteFile_success_is_open_chmod_write_close_witness :
    (WriteFile memFileOps.traced "/home/secret" (bytesOf "new") 0o600 (secretFS, [])).1 = none ∧
    ∃ f : String,
      (WriteFile memFileOps.traced "/home/secret" (bytesOf "new") 0o600 (secretFS, [])).2.2
        = [] ++ [.OpenFile "/home/secret" (O_WRONLY ||| O_CREATE ||| O_TRUNC) 0o600,
            .Chmod f 0o600, .Write f (bytesOf "new"), .Close f] :=
  ⟨rfl, WriteFile_success_is_open_chmod_write_close memFileOps "/home/secret" (bytesOf "new")
    0o600 secretFS [] rfl⟩

/-- C14: `WriteFile` on file operations that log their calls. If `OpenFile`
fails, its error is returned and nothing else is called. Otherwise `Chmod(perm)`
is called next, before any `Write`; `Write` is called only if `Chmod`
succeeded; `Close` is called once, last, in every case; and the result is the
error of `Chmod` if it failed, else the error of `Write` if it failed, else
what `Close` returned, so it is nil exactly when all of them succeed. -/
theorem WriteFile_returns_first_error {σ F : Type} (fs : FileOps σ F) (filename : String)
    (data : Bytes) (perm : FileMode) (st : σ) (log : List (FileCall F)) :
    (∀ err, (fs.OpenFile filename (O_WRONLY ||| O_CREATE ||| O_TRUNC) perm st).1.2 = some err →
      (WriteFile fs.traced filename data perm (st, log)).1 = some err ∧
      (WriteFile fs.traced filename data perm (st, log)).2.2
        = log ++ [.OpenFile filename (O_WRONLY ||| O_CREATE ||| O_TRUNC) perm]) ∧
    (∀ (f : F) (st1 : σ),
      fs.OpenFile filename (O_WRONLY ||| O_CREATE ||| O_TRUNC) perm st = ((f, none), st1) →
      (∀ err, (fs.Chmod f perm st1).1 = some err →
        (WriteFile fs.traced filename data perm (st, log)).1 = some err ∧
        (WriteFile fs.traced filename data perm (st, log)).2.2
          = log ++ [.OpenFile filename (O_WRONLY ||| O_CREATE ||| O_TRUNC) perm,
              .Chmod f perm, .Close f]) ∧
      ((fs.Chmod f perm st1).1 = none →
        (WriteFile fs.traced filename data perm (st, log)).2.2
          = log ++ [.OpenFile filename (O_WRONLY ||| O_CREATE ||| O_TRUNC) perm,
              .Chmod f perm, .Write f data, .Close f] ∧
        (∀ err, (fs.Write f data (fs.Chmod f perm st1).2).1.2 = some err →
          (WriteFile fs.traced filename data perm (st, log)).1 = some err) ∧
        ((fs.Write f data (fs.Chmod f perm st1).2).1.2 = none →
          (WriteFile fs.traced filename data perm (st, log)).1
            = (fs.Close f (fs.Write f data (fs.Chmod f perm st1).2).2).1)) ∧
      ((WriteFile fs.traced filename data perm (st, log)).1 = none ↔
        (fs.Chmod f perm st1).1 = none ∧
        (fs.Write f data (fs.Chmod f perm st1).2).1.2 = none ∧
        (fs.Close f (fs.Write f data (fs.Chmod f perm st1).2).2).1 = none)) := by
  obtain ⟨h1, h2⟩ := WriteFile_traced fs filename data perm st log
  refine ⟨?_, ?_⟩
  · intro err h
    rw [h1 err h]
    exact ⟨rfl, rfl⟩
  · intro f st1 hopen
    obtain ⟨h3, h4⟩ := h2 f st1 hopen
    refine ⟨?_, ?_, ?_⟩
    · intro err h
      rw [h3 err h]
      exact ⟨rfl, rfl⟩
    · intro hc
      obtain ⟨h5, h6⟩ := h4 hc
      refine ⟨?_, ?_, ?_⟩
      · cases hw : (fs.Write f data (fs.Chmod f perm st1).2).1.2 with
        | some err => rw [h5 err hw]
        | none => rw [h6 hw]
      · intro err hw
        rw [h5 err hw]
      · intro hw
        rw [h6 hw]
    · cases hc : (fs.Chmod f perm st1).1 with
      | some err =>
        rw [h3 err hc]
        simp
      | none =>
        obtain ⟨h5, h6⟩ := h4 hc
        cases hw : (fs.Write f data (fs.Chmod f perm st1).2).1.2 with
        | some err =>
          rw [h5 err hw]
          simp
        | none =>
          rw [h6 hw]
          simp

/-- C14 at an instance: a write over `/home/secret` succeeds with the four
calls, and a write to a path that cannot be opened returns the error of
`OpenFile` after that one call. -/
theorem WriteFile_returns_first_error_witness :
    (memFileOps.OpenFile "/home/secret" (O_WRONLY ||| O_CREATE ||| O_TRUNC) 0o600
        { secretFS with locked := ["/home/secret"] }).1.2 = some errPermission ∧
    ((WriteFile memFileOps.traced "/home/secret" (bytesOf "new") 0o600
        ({ secretFS with locked := ["/home/secret"] }, [])).1 = some errPermission ∧
     (WriteFile memFileOps.traced "/home/secret" (bytesOf "new") 0o600
        ({ secretFS with locked := ["/home/secret"] }, [])).2.2
      = [] ++ [.OpenFile "/home/secret" (O_WRONLY ||| O_CREATE ||| O_TRUNC) 0o600]) :=
  ⟨rfl, (WriteFile_returns_first_error memFileOps "/home/secret" (bytesOf "new") 0o600
    { secretFS with locked := ["/home/secret"] } []).1 errPermission rfl⟩

/-! ## Theorems: the encryption tools -/

/-- The result of `GPGEncryptionTool.Encrypt` does not depend on the plaintext. -/
theorem GPGEncryptionTool.Encrypt_ignores_plaintext {σ : Type} (g : GPGEncryptionTool)
    (h : Host σ) (p q : Bytes) (st : σ) : g.Encrypt h p st = g.Encrypt h q st := rfl

/-- C15, at the failing input: on the host in memory, whose `gpg` returns the
bytes of its input file behind the header `gpg:`, `Encrypt` of the plaintext
`secret` returns the bare header, what it returns for the empty plaintext: the
temporary file it handed to `EncryptFile` was empty. `EncryptFile` of a file
that holds `secret` returns `gpg:secret`. -/
theorem GPGEncryptionTool_Encrypt_encrypts_an_empty_file :
    (symmetricTool.Encrypt memHost (bytesOf "secret") plainHost).1 = (bytesOf "gpg:", none) ∧
    symmetricTool.Encrypt memHost (bytesOf "secret") plainHost
      = symmetricTool.Encrypt memHost [] plainHost ∧
    plainHost.read "/home/plain" = some (bytesOf "secret") ∧
    (symmetricTool.EncryptFile memHost "/home/plain" plainHost).1
      = (bytesOf "gpg:secret", none) ∧
    (symmetricTool.Encrypt memHost (bytesOf "secret") plainHost).1.1
      ≠ (symmetricTool.EncryptFile memHost "/home/plain" plainHost).1.1 := by
  refine ⟨rfl, rfl, by decide, rfl, by decide⟩

theorem val_ofNat_byte (x : Nat) : (Fin.ofNat x : Fin 256).val = x % 256 := rfl

theorem xorByte_xorByte (b key : Fin 256) : xorByte (xorByte b key) key = b := by
  have h1 : b.val ^^^ key.val < 256 := Nat.xor_lt_two_pow (n := 8) b.isLt key.isLt
  apply Fin.ext
  simp only [xorByte, val_ofNat_byte]
  rw [Nat.mod_eq_of_lt h1, Nat.xor_assoc, Nat.xor_self, Nat.xor_zero]
  exact Nat.mod_eq_of_lt b.isLt

theorem xorByte_zero (b : Fin 256) : xorByte b 0 = b := by
  apply Fin.ext
  simp only [xorByte, val_ofNat_byte, Fin.val_zero, Nat.xor_zero]
  exact Nat.mod_eq_of_lt b.isLt

theorem xorByte_ne (b key : Fin 256) (h : key ≠ 0) : xorByte b key ≠ b := by
  intro hb
  have h1 : b.val ^^^ key.val < 256 := Nat.xor_lt_two_pow (n := 8) b.isLt key.isLt
  have h2 := congrArg Fin.val hb
  simp only [xorByte, val_ofNat_byte] at h2
  rw [Nat.mod_eq_of_lt h1] at h2
  have h3 : b.val ^^^ (b.val ^^^ key.val) = b.val ^^^ b.val := by rw [h2]
  rw [← Nat.xor_assoc, Nat.xor_self, Nat.zero_xor] at h3
  exact h (Fin.ext h3)

theorem foldl_append_eq_map {α β : Type} (f : α → β) (l : List α) (acc : List β) :
    l.foldl (fun output b => output ++ [f b]) acc = acc ++ l.map f := by
  induction l generalizing acc with
  | nil => simp
  | cons x xs ih => simp [ih]

/-- The loop of `xorWithKey` maps `b ^ key` over the input. -/
theorem testEncryptionTool.xorWithKey_eq_map (t : testEncryptionTool) (input : Bytes) :
    t.xorWithKey input = input.map (fun b => xorByte b t.key) := by
  simp [testEncryptionTool.xorWithKey, foldl_append_eq_map]

/-- C16: for every key, every file name hint and every byte string `p`,
`Decrypt(hint, Encrypt(p))` returns `p` and no error; `xorWithKey` is its own
inverse and keeps the length. -/
theorem testEncryptionTool_Decrypt_Encrypt (key : Fin 256) (filenameHint : String) (p : Bytes) :
    (testEncryptionTool.mk key).Decrypt filenameHint ((testEncryptionTool.mk key).Encrypt p).1
      = (p, none) ∧
    ((testEncryptionTool.mk key).Encrypt p).2 = none ∧
    (testEncryptionTool.mk key).xorWithKey ((testEncryptionTool.mk key).xorWithKey p) = p ∧
    ((testEncryptionTool.mk key).xorWithKey p).length = p.length := by
  have hinv : (testEncryptionTool.mk key).xorWithKey ((testEncryptionTool.mk key).xorWithKey p)
      = p := by
    rw [testEncryptionTool.xorWithKey_eq_map, testEncryptionTool.xorWithKey_eq_map,
      List.map_map]
    conv_rhs => rw [← List.map_id p]
    apply List.map_congr_left
    intro b _
    exact xorByte_xorByte b key
  refine ⟨?_, rfl, hinv, ?_⟩
  · simp only [testEncryptionTool.Decrypt, testEncryptionTool.Encrypt, hinv]
  · rw [testEncryptionTool.xorWithKey_eq_map, List.length_map]

/-- With a key that is not zero the ciphertext of a plaintext that is not
empty differs from it; with the key zero it is the plaintext. -/
theorem testEncryptionTool.Encrypt_eq_iff (t : testEncryptionTool) (p : Bytes) (hp : p ≠ []) :
    (t.Encrypt p).1 = p ↔ t.key = 0 := by
  simp only [testEncryptionTool.Encrypt, testEncryptionTool.xorWithKey_eq_map]
  constructor
  · intro h
    by_contra hk
    cases p with
    | nil => exact hp rfl
    | cons b bs =>
      simp only [List.map_cons, List.cons.injEq] at h
      exact xorByte_ne b t.key hk h.1
  · intro hk
    rw [hk]
    conv_rhs => rw [← List.map_id p]
    apply List.map_congr_left
    intro b _
    exact xorByte_zero b

/-- C17, at the failing input: when `rand.Int()` returns 255 the key of the
tool that `newTestEncryptionTool()` returns is `byte(256)`, which is 0, and
`Encrypt` of the plaintext `secret` returns `secret`. -/
theorem newTestEncryptionTool_key_can_be_zero :
    (newTestEncryptionTool 255 []).key = 0 ∧
    (newTestEncryptionTool 255 []).Encrypt (bytesOf "secret") = (bytesOf "secret", none) ∧
    bytesOf "secret" ≠ [] := by
  refine ⟨by decide, rfl, by decide⟩

/-! ## Theorems: ignore files in a hidden directory -/

/-- C18, at the failing input: in `hiddenSrc` the directory `dot_config`, whose
target directory name is `.config`, holds an ignore file and a remove file
with the same line `foo`. `Read` registers the remove pattern `.config/foo`
but the ignore pattern `dot_config/foo`, which is prefixed with the source
directory name; the ignore set does not match the target name `.config/foo`,
and the file is added to the target map. -/
theorem Read_registers_ignore_patterns_with_source_directory :
    getTargetDirName (specEnv MemFS) "dot_config/" = ".config/" ∧
    (SourceState.Read (specEnv MemFS) hiddenSrc freshSS).1 = none ∧
    (SourceState.Read (specEnv MemFS) hiddenSrc freshSS).2.remove = ⟨[(".config/foo", true)]⟩ ∧
    (SourceState.Read (specEnv MemFS) hiddenSrc freshSS).2.ignore
      = ⟨[("dot_config/foo", true)]⟩ ∧
    (specEnv MemFS).Match (SourceState.Read (specEnv MemFS) hiddenSrc freshSS).2.ignore
      ".config/foo" = false ∧
    (SourceState.Read (specEnv MemFS) hiddenSrc freshSS).2.sourceEntries.keys
      = [".config", ".config/foo"] := by
  refine ⟨by decide, rfl, by decide, by decide, by decide, by decide⟩

end Chezmoi
